import Mathlib

/-!
# cortx-nsal: KVStore dispatch layer and namespace layer

A shallow embedding of `src/kvstore/kvstore_base.c` and `src/namespace/ns.c`.

* C functions that touch the process globals (`g_kvstore`, `kvs_init_done`,
  `g_ns_index`, `ns_fid_str`) take a `World` and return the new one.
* A function returns `Except Fault _`: `Fault` is a run that does not return
  (a failed `dassert`, a null dereference, a read or write outside a buffer).
* Result codes are `Int`; unsigned machine integers are `Nat` reduced modulo
  their width where the C arithmetic can wrap.
* A pointer is an address (`Nat`, `0` is `NULL`); an output parameter the
  function may leave untouched is an `Option` in the result (`none`: not
  assigned by this call).
* `World.trace` is ghost state: the operations forwarded to the bound backend,
  in order. The C code keeps no such log.
-/

set_option autoImplicit false

namespace Nsal

/-! ## Basic types -/

/-- A byte string: the content of a key or value buffer. -/
abbrev Bytes := List Nat

def ENOENT : Int := 2
def ENOMEM : Int := 12
def EINVAL : Int := 22

/-- Ways in which a run stops without returning. -/
inductive Fault
  | assertion
  | null_deref
  | bad_read
  | bad_write
  deriving DecidableEq

/-- The `dassert(cond)` of `debug.h`: the run stops when `cond` is false. -/
def dassert (cond : Bool) : Except Fault Unit :=
  if cond then .ok () else .error Fault.assertion

/-- The type `kvs_fid_t` (alias `kvs_idx_fid_t`): a 128-bit identifier, of which
`ns_create` sets the low half `f_lo`. -/
structure kvs_fid_t where
  f_hi : Nat
  f_lo : Nat
  deriving DecidableEq

/-- The `struct kvs_idx`: an index handle. -/
structure kvs_idx where
  index_fid : kvs_fid_t
  index_priv : Nat
  deriving DecidableEq

/-- The type `buff_t`: a non-owning view, pointer and length. -/
structure buff_t where
  buf : Nat
  len : Nat
  deriving DecidableEq

/-- A block of memory handed over by the backend: its address and content. -/
structure Blk where
  addr : Nat
  bytes : Bytes
  deriving DecidableEq

/-- The `struct kvs_itr`: the iterator object `kvs_itr_find` allocates.
`priv` is the backend-private cursor, `none` while not set by the backend. -/
structure kvs_itr (ι : Type) where
  addr : Nat
  idx_priv : Nat
  pfx : Bytes
  inner_rc : Int
  priv : Option ι

/-- The `struct collection_item *cfg` as this layer uses it:
`get_config_item(section, key, cfg, &item)` gives a result code and the item,
whose string value `get_string_config_value` reads. -/
structure collection_item where
  get_config_item : String → String → Int × Option String

/-- The `struct kvstore_ops`: the operation table of one backend, over the
backend state `σ` and its private cursor type `ι`. Every entry takes the
backend state and returns the new one. -/
structure kvstore_ops (σ ι : Type) where
  init : collection_item → σ → Int × σ
  fini : σ → Int × σ
  alloc : Nat → σ → (Int × Nat) × σ
  free : Nat → σ → σ
  begin_transaction : kvs_idx → σ → Int × σ
  end_transaction : kvs_idx → σ → Int × σ
  discard_transaction : kvs_idx → σ → Int × σ
  index_create : kvs_fid_t → σ → (Int × kvs_idx) × σ
  index_delete : kvs_fid_t → σ → Int × σ
  index_open : kvs_fid_t → σ → (Int × kvs_idx) × σ
  index_close : kvs_idx → σ → Int × σ
  get_bin : kvs_idx → Bytes → σ → (Int × Option Blk) × σ
  set_bin : kvs_idx → Bytes → Bytes → σ → Int × σ
  del_bin : kvs_idx → Bytes → σ → Int × σ
  index_gen_fid : σ → (Int × kvs_fid_t) × σ
  kv_find : kvs_itr ι → σ → (Int × kvs_itr ι) × σ
  kv_next : kvs_itr ι → σ → (Int × kvs_itr ι) × σ
  kv_fini : kvs_itr ι → σ → σ
  kv_get : kvs_itr ι → σ → (Blk × Blk) × σ

/-- The `struct kvstore`: the bound operation table and the backend name. -/
structure kvstore (σ ι : Type) where
  kvstore_ops : Option (kvstore_ops σ ι)
  type : Option String

/-- The `struct kvstore_module`: one entry of the backend registry. -/
structure kvstore_module (σ ι : Type) where
  type : String
  ops : kvstore_ops σ ι

/-- An operation forwarded to the bound backend (ghost trace entry). -/
inductive Call
  | init
  | fini
  | alloc (size : Nat)
  | free (ptr : Nat)
  | begin_transaction (idx : kvs_idx)
  | end_transaction (idx : kvs_idx)
  | discard_transaction (idx : kvs_idx)
  | index_create (fid : kvs_fid_t)
  | index_delete (fid : kvs_fid_t)
  | index_open (fid : kvs_fid_t)
  | index_close (idx : kvs_idx)
  | get_bin (idx : kvs_idx) (k : Bytes)
  | set_bin (idx : kvs_idx) (k v : Bytes)
  | del_bin (idx : kvs_idx) (k : Bytes)
  | index_gen_fid
  | kv_find (itr : Nat) (pfx : Bytes)
  | kv_next (itr : Nat)
  | kv_fini (itr : Nat)
  | kv_get (itr : Nat)
  deriving DecidableEq

/-- The type `str256_t`: a fixed-width name, length byte and 256 characters. -/
structure str256_t where
  s_len : Nat
  s_str : List Nat
  deriving DecidableEq

/-- Utilities this layer calls that live outside the repository sources read
here: the name validator of the string library and the fid parser of the
cortx backend. -/
structure Extern where
  str256_isalphanum : str256_t → Int
  cortx_kvs_fid_from_str : Option String → Int × kvs_fid_t

/-- The process state: the globals of `kvstore_base.c` (`g_kvstore`,
`kvs_init_done`) and of `ns.c` (`g_ns_index`, `ns_fid_str`), the state of the
backend, the external utilities, and the ghost trace. -/
structure World (σ ι : Type) where
  g_kvstore : kvstore σ ι
  kvs_init_done : Bool
  g_ns_index : kvs_idx
  ns_fid_str : Option String
  ext : Extern
  backend : σ
  trace : List Call

/-- A `struct kvstore *`: `NULL` or the address of the singleton `g_kvstore`. -/
abbrev kvstore_ref := Option Unit

/-- The function `kvstore_get`: always the address of `g_kvstore`. -/
def kvstore_get : kvstore_ref := some ()

/-- The size of `struct kvs_itr`. The struct is declared in `kvstore.h`, outside
the sources read here; the value only appears as the size of an allocation. -/
def sizeof_kvs_itr : Nat := 64

section Dispatch

variable {σ ι : Type}

/-- The dereference `kvstore->kvstore_ops->op`: a null table pointer stops the run. -/
def bound_ops (w : World σ ι) : Except Fault (kvstore_ops σ ι) :=
  match w.g_kvstore.kvstore_ops with
  | none => .error Fault.null_deref
  | some ops => .ok ops

/-- Ghost step: record a forwarded call and install the new backend state. -/
def World.fwd (w : World σ ι) (c : Call) (st : σ) : World σ ι :=
  { w with backend := st, trace := w.trace ++ [c] }

/-! ## kvstore_base.c: initialisation -/

/-- The C library `strncmp` on NUL-terminated strings given without their NUL. -/
def strncmp : List Char → List Char → Nat → Int
  | _, _, 0 => 0
  | [], [], _ + 1 => 0
  | [], b :: _, _ + 1 => - (b.toNat : Int)
  | a :: _, [], _ + 1 => (a.toNat : Int)
  | a :: as, b :: bs, n + 1 =>
    if a = b then (if a.toNat = 0 then 0 else strncmp as bs n)
    else (a.toNat : Int) - (b.toNat : Int)

/-- The registry `kvstore_modules`: the entries before the `{ NULL, NULL }`
terminator. The two operation tables are defined by the backends. -/
def kvstore_modules (cortx_kvs_ops redis_kvs_ops : kvstore_ops σ ι) (WITH_REDIS : Bool) :
    List (kvstore_module σ ι) :=
  { type := "cortx", ops := cortx_kvs_ops } ::
    (if WITH_REDIS then [{ type := "redis", ops := redis_kvs_ops }] else [])

/-- The selection loop of `__kvs_init`: the first entry whose name the
configured string matches under `strncmp(kvstore_type, name, strlen(kvstore_type))`;
`none` when the loop stops at the terminator. -/
def select_module (kvstore_type : String) :
    List (kvstore_module σ ι) → Option (kvstore_module σ ι)
  | [] => none
  | m :: ms =>
    if strncmp kvstore_type.data m.type.data kvstore_type.length = 0 then some m
    else select_module kvstore_type ms

/-- The function `__kvs_init`. -/
def __kvs_init (modules : List (kvstore_module σ ι)) (kvstore : kvstore_ref)
    (cfg : Option collection_item) (w : World σ ι) : Except Fault (Int × World σ ι) := do
  dassert (kvstore.isSome && cfg.isSome)
  match cfg with
  | none => .error Fault.null_deref
  | some c =>
    let (rc, item) := c.get_config_item "kvstore" "type"
    if rc ≠ 0 then
      pure (rc, w)
    else
      match item with
      | none => pure (-EINVAL, w)
      | some kvstore_type =>
        match select_module kvstore_type modules with
        | none => pure (-EINVAL, w)
        | some m =>
          let w1 := { w with g_kvstore := { w.g_kvstore with kvstore_ops := some m.ops } }
          let (rc, st) := m.ops.init c w1.backend
          let w2 := w1.fwd Call.init st
          if rc ≠ 0 then
            pure (rc, w2)
          else
            pure (rc, { w2 with
              g_kvstore := { w2.g_kvstore with type := some kvstore_type },
              kvs_init_done := true })

/-- The function `kvs_init`: `__kvs_init` between two tracing calls. -/
def kvs_init (modules : List (kvstore_module σ ι)) (kvstore : kvstore_ref)
    (cfg : Option collection_item) (w : World σ ι) : Except Fault (Int × World σ ι) :=
  __kvs_init modules kvstore cfg w

/-! ## kvstore_base.c: forwarding operations -/

/-- The function `kvs_fini` (with `__kvs_fini`). -/
def kvs_fini (kvstore : kvstore_ref) (w : World σ ι) : Except Fault (Int × World σ ι) := do
  dassert (kvstore.isSome && w.g_kvstore.kvstore_ops.isSome)
  let ops ← bound_ops w
  let (rc, st) := ops.fini w.backend
  pure (rc, w.fwd Call.fini st)

/-- The function `kvs_fid_from_str`: forwards to `cortx_kvs_fid_from_str`. -/
def kvs_fid_from_str (fid_str : Option String) (w : World σ ι) : Int × kvs_fid_t :=
  w.ext.cortx_kvs_fid_from_str fid_str

/-- The function `kvs_alloc` (with `__kvs_alloc`): result code and the pointer. -/
def kvs_alloc (kvstore : kvstore_ref) (size : Nat) (w : World σ ι) :
    Except Fault ((Int × Nat) × World σ ι) := do
  dassert kvstore.isSome
  let ops ← bound_ops w
  let (r, st) := ops.alloc size w.backend
  pure (r, w.fwd (Call.alloc size) st)

/-- The function `kvs_free` (with `__kvs_free`). -/
def kvs_free (kvstore : kvstore_ref) (ptr : Nat) (w : World σ ι) :
    Except Fault (World σ ι) := do
  dassert kvstore.isSome
  let ops ← bound_ops w
  pure (w.fwd (Call.free ptr) (ops.free ptr w.backend))

/-- The function `kvs_begin_transaction`. -/
def kvs_begin_transaction (kvstore : kvstore_ref) (index : kvs_idx) (w : World σ ι) :
    Except Fault (Int × World σ ι) := do
  dassert kvstore.isSome
  let ops ← bound_ops w
  let (rc, st) := ops.begin_transaction index w.backend
  pure (rc, w.fwd (Call.begin_transaction index) st)

/-- The function `kvs_end_transaction`. -/
def kvs_end_transaction (kvstore : kvstore_ref) (index : kvs_idx) (w : World σ ι) :
    Except Fault (Int × World σ ι) := do
  dassert kvstore.isSome
  let ops ← bound_ops w
  let (rc, st) := ops.end_transaction index w.backend
  pure (rc, w.fwd (Call.end_transaction index) st)

/-- The function `kvs_discard_transaction`. -/
def kvs_discard_transaction (kvstore : kvstore_ref) (index : kvs_idx) (w : World σ ι) :
    Except Fault (Int × World σ ι) := do
  dassert kvstore.isSome
  let ops ← bound_ops w
  let (rc, st) := ops.discard_transaction index w.backend
  pure (rc, w.fwd (Call.discard_transaction index) st)

/-- The function `kvs_index_create`: result code and the index handle written. -/
def kvs_index_create (kvstore : kvstore_ref) (fid : kvs_fid_t) (w : World σ ι) :
    Except Fault ((Int × kvs_idx) × World σ ι) := do
  dassert kvstore.isSome
  let ops ← bound_ops w
  let (r, st) := ops.index_create fid w.backend
  pure (r, w.fwd (Call.index_create fid) st)

/-- The function `kvs_index_delete`. -/
def kvs_index_delete (kvstore : kvstore_ref) (fid : kvs_fid_t) (w : World σ ι) :
    Except Fault (Int × World σ ι) := do
  dassert kvstore.isSome
  let ops ← bound_ops w
  let (rc, st) := ops.index_delete fid w.backend
  pure (rc, w.fwd (Call.index_delete fid) st)

/-- The function `kvs_index_open`. -/
def kvs_index_open (kvstore : kvstore_ref) (fid : kvs_fid_t) (w : World σ ι) :
    Except Fault ((Int × kvs_idx) × World σ ι) := do
  dassert kvstore.isSome
  let ops ← bound_ops w
  let (r, st) := ops.index_open fid w.backend
  pure (r, w.fwd (Call.index_open fid) st)

/-- The function `kvs_index_close`. -/
def kvs_index_close (kvstore : kvstore_ref) (index : kvs_idx) (w : World σ ι) :
    Except Fault (Int × World σ ι) := do
  dassert kvstore.isSome
  let ops ← bound_ops w
  let (rc, st) := ops.index_close index w.backend
  pure (rc, w.fwd (Call.index_close index) st)

/-- The function `kvs_get` (with `__kvs_get`): result code and the value block
(`none`: the value pointer is `NULL`). -/
def kvs_get (kvstore : kvstore_ref) (index : kvs_idx) (k : Bytes) (w : World σ ι) :
    Except Fault ((Int × Option Blk) × World σ ι) := do
  dassert kvstore.isSome
  let ops ← bound_ops w
  let (r, st) := ops.get_bin index k w.backend
  pure (r, w.fwd (Call.get_bin index k) st)

/-- The function `kvs_set` (with `__kvs_set`). -/
def kvs_set (kvstore : kvstore_ref) (index : kvs_idx) (k v : Bytes) (w : World σ ι) :
    Except Fault (Int × World σ ι) := do
  dassert kvstore.isSome
  let ops ← bound_ops w
  let (rc, st) := ops.set_bin index k v w.backend
  pure (rc, w.fwd (Call.set_bin index k v) st)

/-- The function `kvs_del`. -/
def kvs_del (kvstore : kvstore_ref) (index : kvs_idx) (k : Bytes) (w : World σ ι) :
    Except Fault (Int × World σ ι) := do
  dassert kvstore.isSome
  let ops ← bound_ops w
  let (rc, st) := ops.del_bin index k w.backend
  pure (rc, w.fwd (Call.del_bin index k) st)

/-- The function `kvs_idx_gen_fid`. -/
def kvs_idx_gen_fid (kvstore : kvstore_ref) (w : World σ ι) :
    Except Fault ((Int × kvs_fid_t) × World σ ι) := do
  dassert kvstore.isSome
  let ops ← bound_ops w
  let (r, st) := ops.index_gen_fid w.backend
  pure (r, w.fwd Call.index_gen_fid st)

/-- The function `kvs_itr_find`: result code and the iterator pointer written to
`*iter` (`none`: `NULL`, the allocation failed). -/
def kvs_itr_find (kvstore : kvstore_ref) (index : kvs_idx) (pfx : Bytes) (w : World σ ι) :
    Except Fault ((Int × Option (kvs_itr ι)) × World σ ι) := do
  dassert kvstore.isSome
  let ops ← bound_ops w
  let ((rc, p), st) := ops.alloc sizeof_kvs_itr w.backend
  let w1 := w.fwd (Call.alloc sizeof_kvs_itr) st
  if rc ≠ 0 then
    pure ((rc, none), w1)
  else if p = 0 then
    .error Fault.null_deref
  else
    let it : kvs_itr ι :=
      { addr := p, idx_priv := index.index_priv, pfx := pfx, inner_rc := 0, priv := none }
    let ((rc, it), st) := ops.kv_find it w1.backend
    pure ((rc, some { it with addr := p }), w1.fwd (Call.kv_find p pfx) st)

/-- The function `kvs_itr_next`: result code and the iterator as the backend left
it (the same object: its address stays). -/
def kvs_itr_next (kvstore : kvstore_ref) (iter : kvs_itr ι) (w : World σ ι) :
    Except Fault ((Int × kvs_itr ι) × World σ ι) := do
  dassert kvstore.isSome
  let ops ← bound_ops w
  let ((rc, it), st) := ops.kv_next iter w.backend
  pure ((rc, { it with addr := iter.addr }), w.fwd (Call.kv_next iter.addr) st)

/-- The function `kvs_itr_fini`: the backend releases its cursor, then the
iterator object is freed. -/
def kvs_itr_fini (kvstore : kvstore_ref) (iter : kvs_itr ι) (w : World σ ι) :
    Except Fault (World σ ι) := do
  dassert kvstore.isSome
  let ops ← bound_ops w
  let w1 := w.fwd (Call.kv_fini iter.addr) (ops.kv_fini iter w.backend)
  pure (w1.fwd (Call.free iter.addr) (ops.free iter.addr w1.backend))

/-- The function `kvs_itr_get`: the current key and value. -/
def kvs_itr_get (kvstore : kvstore_ref) (iter : kvs_itr ι) (w : World σ ι) :
    Except Fault ((Blk × Blk) × World σ ι) := do
  dassert kvstore.isSome
  let ops ← bound_ops w
  let (r, st) := ops.kv_get iter w.backend
  pure (r, w.fwd (Call.kv_get iter.addr) st)

end Dispatch

/-! ## kvstore_base.c: pairs and groups -/

/-- The `struct kvpair`. -/
structure kvpair where
  key : buff_t
  val : buff_t
  deriving DecidableEq

/-- The `struct kvgroup`. `kv_list` is the slot array, one entry per allocated
slot, each slot standing for the pair it points to; `kv_max` and `kv_count`
are `uint32_t` (the capacity `kvgroup_init` takes and the counter `kvgroup_fini`
runs against are). -/
structure kvgroup where
  kv_list : List kvpair
  kv_max : Nat
  kv_count : Nat
  deriving DecidableEq

/-- The function `kvpair_init`: `kv` is the pair object the pointer designates. -/
def kvpair_init (_kv : kvpair) (key klen val vlen : Nat) : Except Fault kvpair := do
  dassert (key ≠ 0 && klen ≠ 0 && val ≠ 0 && vlen ≠ 0)
  pure { key := { buf := key, len := klen }, val := { buf := val, len := vlen } }

/-- The function `kvgroup_add`. -/
def kvgroup_add (kv_grp : kvgroup) (kv : kvpair) : Except Fault (Int × kvgroup) :=
  if kv_grp.kv_count = kv_grp.kv_max then
    .ok (-ENOMEM, kv_grp)
  else if kv_grp.kv_count < kv_grp.kv_list.length then
    .ok (0, { kv_grp with
      kv_list := kv_grp.kv_list.set kv_grp.kv_count kv,
      kv_count := (kv_grp.kv_count + 1) % 2 ^ 32 })
  else
    .error Fault.bad_write

/-- The conversion of an `int` to `unsigned int` that C applies to `index` in
`index >= kv_grp->kv_count`. -/
def int_to_u32 (i : Int) : Nat := (i % 2 ^ 32).toNat

/-- The function `kvgroup_kvpair_get`: the result code and, when assigned, the
outputs `*value` and `*vlen` as one `buff_t`. -/
def kvgroup_kvpair_get (kv_grp : kvgroup) (index : Int) :
    Except Fault (Int × Option buff_t) :=
  if int_to_u32 index ≥ kv_grp.kv_count then
    .ok (-ENOMEM, none)
  else if index < 0 then
    .error Fault.bad_read
  else
    match kv_grp.kv_list[index.toNat]? with
    | none => .error Fault.bad_read
    | some kv =>
      if kv.val.buf = 0 ∧ kv.val.len = 0 then .ok (-EINVAL, some kv.val)
      else .ok (0, some kv.val)

/-! ## ns.c: key schema and record layout -/

def NS_VERSION_0 : Nat := 0
def NS_KEY_TYPE_NS_INFO : Nat := 1
def NS_KEY_TYPE_NS_ID_NEXT : Nat := 2
def NS_KEY_TYPE_INVALID : Nat := 3

/-- The constant `NS_ID_INIT` of `namespace.h`; `ns_next_id` notes its value, 2. -/
def NS_ID_INIT : Nat := 2

/-- The `n` low bytes of `v`, least significant first. -/
def le_bytes : Nat → Nat → Bytes
  | 0, _ => []
  | n + 1, v => (v % 256) :: le_bytes n (v / 256)

/-- The number a byte string holds, least significant byte first. -/
def le_val : Bytes → Nat
  | [] => 0
  | b :: bs => b + 256 * le_val bs

/-- Modelled from the spec: the `struct key_prefix`, declared in a header outside
the sources read here; section 6 gives its layout, `k_type` (1 byte) followed by
`k_version` (1 byte). -/
structure key_prefix where
  k_type : Nat
  k_version : Nat
  deriving DecidableEq

/-- The packed `struct ns_key`. -/
structure ns_key where
  ns_prefix : key_prefix
  ns_id : Nat
  deriving DecidableEq

def sizeof_key_prefix : Nat := 2
def sizeof_ns_key : Nat := 6
def sizeof_ns_itr : Nat := 16

/-- The static `psize`. -/
def psize : Nat := sizeof_key_prefix

/-- The bytes of a `struct key_prefix`. -/
def key_prefix.bytes (p : key_prefix) : Bytes := [p.k_type % 256, p.k_version % 256]

/-- The bytes of a `struct ns_key`: the 2-byte prefix, then the 4-byte id. -/
def ns_key.bytes (k : ns_key) : Bytes := key_prefix.bytes k.ns_prefix ++ le_bytes 4 k.ns_id

/-- The statement block `NS_KEY_INIT(_key, _ns_id, _ktype)`. -/
def NS_KEY_INIT (_ns_id _ktype : Nat) : ns_key :=
  { ns_id := _ns_id, ns_prefix := { k_type := _ktype, k_version := NS_VERSION_0 } }

/-- The statement block `NS_KEY_PREFIX_INIT(_key, _type)`. -/
def NS_KEY_PREFIX_INIT (_type : Nat) : key_prefix :=
  { k_type := _type, k_version := NS_VERSION_0 }

/-- The `struct namespace`. -/
structure struct_namespace where
  nsobj_id : Nat
  ns_name : str256_t
  nsobj_fid : kvs_fid_t
  nsobj_index : kvs_idx
  deriving DecidableEq

/-- The `struct ns_itr`: `ns` points to the value block last materialized. -/
structure ns_itr (ι : Type) where
  addr : Nat
  ns : Option Blk
  kvs_iter : Option (kvs_itr ι)

/-- A `struct namespace *` that is not `NULL`: the address and the object there. -/
structure ns_ref where
  addr : Nat
  obj : struct_namespace
  deriving DecidableEq

/-- The memory image of a `str256_t`: the length byte and 256 characters. -/
def str256_t.image (s : str256_t) : Bytes :=
  (s.s_len % 256) :: (s.s_str ++ List.replicate 256 0).take 256

/-- The memory image of a `kvs_fid_t`. -/
def kvs_fid_t.image (f : kvs_fid_t) : Bytes := le_bytes 8 f.f_hi ++ le_bytes 8 f.f_lo

/-- The memory image of a `struct kvs_idx`. -/
def kvs_idx.image (i : kvs_idx) : Bytes := i.index_fid.image ++ le_bytes 8 i.index_priv

/-- The memory image of a `struct namespace`, which `ns_create` hands to
`kvs_set` as the value: the 8-byte id, the name, padding to the next multiple
of 8, the fid and the index handle. The member types are declared in headers
outside the sources read here; the widths are those of their usual
declarations. `ns_create` does not write the 7 padding bytes; they are taken
as 0 here, and `struct_namespace.view` does not read them. -/
def struct_namespace.image (n : struct_namespace) : Bytes :=
  le_bytes 8 n.nsobj_id ++ n.ns_name.image ++ List.replicate 7 0 ++
    n.nsobj_fid.image ++ n.nsobj_index.image

/-- The value of `sizeof(struct namespace)` under that layout. -/
def sizeof_namespace : Nat := 312

/-- A value block read as a `struct namespace`, as the caller of `ns_scan` reads
the pointer `ns_iter->ns`. -/
def struct_namespace.view (b : Bytes) : struct_namespace :=
  { nsobj_id := le_val (b.take 8),
    ns_name := { s_len := (b.drop 8).headD 0, s_str := (b.drop 9).take 256 },
    nsobj_fid := { f_hi := le_val ((b.drop 272).take 8), f_lo := le_val ((b.drop 280).take 8) },
    nsobj_index :=
      { index_fid :=
          { f_hi := le_val ((b.drop 288).take 8), f_lo := le_val ((b.drop 296).take 8) },
        index_priv := le_val ((b.drop 304).take 8) } }

section Namespace

variable {σ ι : Type}

/-! ## ns.c: operations -/

/-- The function `ns_scan`: the result code and the caller's `*iter` after the call.
The source calls the dispatch layer without the store argument; the calls are
taken on the singleton store. -/
def ns_scan (iter : Option (ns_itr ι)) (w : World σ ι) :
    Except Fault ((Int × Option (ns_itr ι)) × World σ ι) := do
  let kvstor := kvstore_get
  match iter with
  | none =>
    let ((rc, pfx_ptr), w) ← kvs_alloc kvstor sizeof_ns_key w
    if rc ≠ 0 then
      pure ((rc, none), w)
    else if pfx_ptr = 0 then
      .error Fault.null_deref
    else
      let pfx : key_prefix := { k_type := NS_KEY_TYPE_NS_INFO, k_version := NS_VERSION_0 }
      let ((rc, it_ptr), w) ← kvs_alloc kvstor sizeof_ns_itr w
      if rc ≠ 0 then
        pure ((rc, none), w)
      else
        let ((rc, kvs_iter), w) ← kvs_itr_find kvstor w.g_ns_index (pfx.bytes.take psize) w
        match kvs_iter with
        | none => .error Fault.null_deref
        | some kit =>
          if rc ≠ 0 then
            pure ((rc, none), w)
          else
            let ((key, val), w) ← kvs_itr_get kvstor kit w
            if val.bytes.length ≠ sizeof_namespace then
              pure ((rc, none), w)
            else
              let w ← kvs_free kvstor key.addr w
              if it_ptr = 0 then
                .error Fault.null_deref
              else
                pure ((rc, some { addr := it_ptr, ns := some val, kvs_iter := some kit }), w)
  | some ns_iter =>
    match ns_iter.kvs_iter with
    | none => .error Fault.null_deref
    | some kit =>
      let ((rc, kit), w) ← kvs_itr_next kvstor kit w
      if rc ≠ 0 then
        let w ← kvs_itr_fini kvstor kit w
        let w ← kvs_free kvstor ns_iter.addr w
        pure ((rc, none), w)
      else
        let ((_, val), w) ← kvs_itr_get kvstor kit w
        if val.bytes.length ≠ sizeof_namespace then
          pure ((rc, some { ns_iter with kvs_iter := some kit }), w)
        else
          let w ← kvs_free kvstor val.addr w
          pure ((rc, some { ns_iter with ns := some val, kvs_iter := some kit }), w)

/-- The function `ns_next_id`: the result code and the id written to `*nsobj_id`. -/
def ns_next_id (w : World σ ι) : Except Fault ((Int × Option Nat) × World σ ι) := do
  let kvstor := kvstore_get
  dassert kvstor.isSome
  let ((rc, key_ptr), w) ← kvs_alloc kvstor sizeof_key_prefix w
  if rc ≠ 0 then
    pure ((rc, none), w)
  else if key_ptr = 0 then
    .error Fault.null_deref
  else
    let key := NS_KEY_PREFIX_INIT NS_KEY_TYPE_NS_ID_NEXT
    let ((rc, val_ptr), w) ← kvs_get kvstor w.g_ns_index key.bytes w
    let val : Option Nat ←
      if rc = 0 then
        match val_ptr with
        | none => .error Fault.assertion
        | some b => if b.bytes.length < 4 then .error Fault.bad_read
                    else pure (some (le_val (b.bytes.take 4)))
      else if rc = -ENOENT then
        match val_ptr with
        | some _ => .error Fault.assertion
        | none => pure (some NS_ID_INIT)
      else
        pure none
    match val with
    | none =>
      let w ← kvs_free kvstor key_ptr w
      let w ← match val_ptr with
        | some b => kvs_free kvstor b.addr w
        | none => pure w
      pure ((rc, none), w)
    | some val =>
      let val := (val + 1) % 2 ^ 32
      let (rc, w) ← kvs_set kvstor w.g_ns_index key.bytes (le_bytes 4 val) w
      let nsobj_id := if rc ≠ 0 then none else some val
      let w ← kvs_free kvstor key_ptr w
      let w ← match val_ptr with
        | some b => kvs_free kvstor b.addr w
        | none => pure w
      pure ((rc, nsobj_id), w)

/-- The function `ns_init`. -/
def ns_init (cfg : Option collection_item) (w : World σ ι) :
    Except Fault (Int × World σ ι) := do
  let kvstor := kvstore_get
  dassert kvstor.isSome
  match cfg with
  | none => pure (-EINVAL, w)
  | some c =>
    let (_, item) := c.get_config_item "kvstore" "ns_fid"
    let w := { w with ns_fid_str := item }
    let (rc, ns_fid) := kvs_fid_from_str w.ns_fid_str w
    if rc ≠ 0 then
      pure (rc, w)
    else
      let ((rc, idx), w) ← kvs_index_open kvstor ns_fid w
      pure (rc, { w with g_ns_index := idx })

/-- The function `ns_fini`. -/
def ns_fini (w : World σ ι) : Except Fault (Int × World σ ι) := do
  let kvstor := kvstore_get
  dassert kvstor.isSome
  let (_, w) ← kvs_index_close kvstor w.g_ns_index w
  pure (0, w)

/-- The function `ns_create`: the result code and the pointer written to `*ret_ns`. -/
def ns_create (name : str256_t) (w : World σ ι) :
    Except Fault ((Int × Option ns_ref) × World σ ι) := do
  let kvstor := kvstore_get
  dassert kvstor.isSome
  let rc := w.ext.str256_isalphanum name
  if rc ≠ 0 then
    pure ((rc, none), w)
  else
    let ((rc, id), w) ← ns_next_id w
    if rc ≠ 0 then
      pure ((rc, none), w)
    else
      let nsobj_id := id.getD 0
      let (rc, nsobj_fid) := kvs_fid_from_str w.ns_fid_str w
      if rc ≠ 0 then
        pure ((rc, none), w)
      else
        let nsobj_fid := { nsobj_fid with f_lo := nsobj_id }
        let ((rc, nsobj_index), w) ← kvs_index_create kvstor nsobj_fid w
        if rc ≠ 0 then
          pure ((rc, none), w)
        else
          let ((rc, ns_ptr), w) ← kvs_alloc kvstor sizeof_namespace w
          if rc ≠ 0 then
            pure ((rc, none), w)
          else if ns_ptr = 0 then
            .error Fault.null_deref
          else
            let ns : struct_namespace :=
              { nsobj_id := nsobj_id, ns_name := name, nsobj_fid := nsobj_fid,
                nsobj_index := nsobj_index }
            let ((rc, key_ptr), w) ← kvs_alloc kvstor sizeof_ns_key w
            if rc ≠ 0 then
              pure ((rc, none), w)
            else if key_ptr = 0 then
              .error Fault.null_deref
            else
              let key := NS_KEY_INIT nsobj_id NS_KEY_TYPE_NS_INFO
              let (rc, w) ← kvs_set kvstor w.g_ns_index key.bytes ns.image w
              let ret_ns := if rc ≠ 0 then none else some { addr := ns_ptr, obj := ns }
              let w ← kvs_free kvstor key_ptr w
              pure ((rc, ret_ns), w)

/-- The function `ns_delete`. -/
def ns_delete (ns : Option ns_ref) (w : World σ ι) : Except Fault (Int × World σ ι) := do
  let kvstor := kvstore_get
  dassert ns.isSome
  match ns with
  | none => .error Fault.null_deref
  | some ns =>
    let nsobj_id := ns.obj.nsobj_id % 2 ^ 32
    let ((rc, key_ptr), w) ← kvs_alloc kvstor sizeof_ns_key w
    if rc ≠ 0 then
      pure (rc, w)
    else if key_ptr = 0 then
      .error Fault.null_deref
    else
      let key := NS_KEY_INIT nsobj_id NS_KEY_TYPE_NS_INFO
      let (rc, w) ← kvs_del kvstor w.g_ns_index key.bytes w
      if rc ≠ 0 then
        let w ← kvs_free kvstor key_ptr w
        pure (rc, w)
      else
        let (rc, w) ← kvs_index_delete kvstor ns.obj.nsobj_fid w
        if rc ≠ 0 then
          pure (rc, w)
        else
          let w ← kvs_free kvstor ns.addr w
          let w ← kvs_free kvstor key_ptr w
          pure (rc, w)

end Namespace

/-! ## A backend for the Backend Contract -/

/-- The private cursor of the in-memory backend: the entries still to visit,
the current one first. -/
abbrev MemCursor := List (Bytes × Bytes)

/-- Modelled from the spec: the state of a backend that meets the Backend
Contract of section 4.1; the concrete backends (`cortx_kvs_ops`,
`redis_kvs_ops`) are outside the sources read here. `kv` holds the entries of
all indexes as (index handle, key, value); `indices` the existing indexes;
the handle of an index is `fid_handle` of its fid;
`plan` the result codes to inject, one per fallible operation in call order
(0 or an exhausted plan: the operation runs normally); `brk` the last address
handed out. -/
structure MemKvs where
  kv : List (Nat × Bytes × Bytes)
  indices : List kvs_fid_t
  plan : List Int
  brk : Nat
  deriving DecidableEq

/-- The handle (`index_priv`) the in-memory backend gives the index with fid `f`. -/
def fid_handle (f : kvs_fid_t) : Nat := Nat.pair f.f_hi f.f_lo + 1

/-- The injected result code of the next operation, and the state with the plan advanced. -/
def MemKvs.next_rc (m : MemKvs) : Int × MemKvs :=
  match m.plan with
  | [] => (0, m)
  | c :: cs => (c, { m with plan := cs })

/-- A fresh non-null address for a block of `size` bytes. -/
def MemKvs.fresh (m : MemKvs) (size : Nat) : Nat × MemKvs :=
  (m.brk + 1, { m with brk := m.brk + 1 + size })

/-- The value of the first entry with index handle `h` and key `k`. -/
def kv_lookup (h : Nat) (k : Bytes) : List (Nat × Bytes × Bytes) → Option Bytes
  | [] => none
  | e :: es => if e.1 = h ∧ e.2.1 = k then some e.2.2 else kv_lookup h k es

/-- The entries with `k ↦ v` put in index `h`: in place of the entry with that key,
at the end when there is none. -/
def kv_upsert (h : Nat) (k v : Bytes) : List (Nat × Bytes × Bytes) → List (Nat × Bytes × Bytes)
  | [] => [(h, k, v)]
  | e :: es => if e.1 = h ∧ e.2.1 = k then (h, k, v) :: es else e :: kv_upsert h k v es

/-- The value stored under key `k` of the index with handle `h`. -/
def MemKvs.lookup (m : MemKvs) (h : Nat) (k : Bytes) : Option Bytes := kv_lookup h k m.kv

/-- Upsert of `k ↦ v` in the index with handle `h`. -/
def MemKvs.upsert (m : MemKvs) (h : Nat) (k v : Bytes) : MemKvs :=
  { m with kv := kv_upsert h k v m.kv }

/-- Removal of key `k` from the index with handle `h`. -/
def MemKvs.erase (m : MemKvs) (h : Nat) (k : Bytes) : MemKvs :=
  { m with kv := m.kv.filter (fun e => ¬ (e.1 = h ∧ e.2.1 = k)) }

/-- The entries of the index with handle `h` whose key starts with `pfx`, in store order. -/
def MemKvs.matching (m : MemKvs) (h : Nat) (pfx : Bytes) : MemCursor :=
  (m.kv.filter (fun e => e.1 = h ∧ pfx.isPrefixOf e.2.1)).map (fun e => e.2)

/-- A fallible operation without effect on the store (init, fini, transactions, close). -/
def MemKvs.plain (m : MemKvs) : Int × MemKvs := m.next_rc

/-- Modelled from the spec: the operation table of the in-memory backend
(section 4.1: `get` fails with NotFound if absent, `set` has upsert semantics,
`find` positions on the first entry under the prefix or reports no entries,
`advance` fails with NoMoreEntries at the end, `current` gives the key and
value at the cursor). NotFound and NoMoreEntries are `-ENOENT`. -/
def mem_kvs_ops : kvstore_ops MemKvs MemCursor where
  init := fun _ m => m.plain
  fini := fun m => m.plain
  alloc := fun size m =>
    let (c, m1) := m.next_rc
    if c ≠ 0 then ((c, 0), m1) else
      let (a, m2) := m1.fresh size
      ((0, a), m2)
  free := fun _ m => m
  begin_transaction := fun _ m => m.plain
  end_transaction := fun _ m => m.plain
  discard_transaction := fun _ m => m.plain
  index_create := fun fid m =>
    let (c, m1) := m.next_rc
    if c ≠ 0 then ((c, { index_fid := fid, index_priv := 0 }), m1)
    else if fid ∈ m1.indices then
      ((-17, { index_fid := fid, index_priv := 0 }), m1)
    else
      ((0, { index_fid := fid, index_priv := fid_handle fid }),
        { m1 with indices := m1.indices ++ [fid] })
  index_delete := fun fid m =>
    let (c, m1) := m.next_rc
    if c ≠ 0 then (c, m1)
    else if fid ∈ m1.indices then
      (0, { m1 with
        indices := m1.indices.filter (fun x => ¬ (x = fid)),
        kv := m1.kv.filter (fun x => ¬ (x.1 = fid_handle fid)) })
    else (-ENOENT, m1)
  index_open := fun fid m =>
    let (c, m1) := m.next_rc
    if c ≠ 0 then ((c, { index_fid := fid, index_priv := 0 }), m1)
    else if fid ∈ m1.indices then
      ((0, { index_fid := fid, index_priv := fid_handle fid }), m1)
    else ((-ENOENT, { index_fid := fid, index_priv := 0 }), m1)
  index_close := fun _ m => m.plain
  get_bin := fun idx k m =>
    let (c, m1) := m.next_rc
    if c ≠ 0 then ((c, none), m1) else
      match m1.lookup idx.index_priv k with
      | none => ((-ENOENT, none), m1)
      | some v =>
        let (a, m2) := m1.fresh v.length
        ((0, some { addr := a, bytes := v }), m2)
  set_bin := fun idx k v m =>
    let (c, m1) := m.next_rc
    if c ≠ 0 then (c, m1) else (0, m1.upsert idx.index_priv k v)
  del_bin := fun idx k m =>
    let (c, m1) := m.next_rc
    if c ≠ 0 then (c, m1)
    else if (m1.lookup idx.index_priv k).isSome then (0, m1.erase idx.index_priv k)
    else (-ENOENT, m1)
  index_gen_fid := fun m =>
    let (c, m1) := m.next_rc
    if c ≠ 0 then ((c, { f_hi := 0, f_lo := 0 }), m1) else
      let (a, m2) := m1.fresh 0
      ((0, { f_hi := 0, f_lo := a }), m2)
  kv_find := fun it m =>
    let (c, m1) := m.next_rc
    if c ≠ 0 then ((c, { it with inner_rc := c }), m1) else
      match m1.matching it.idx_priv it.pfx with
      | [] => ((-ENOENT, { it with inner_rc := -ENOENT, priv := some [] }), m1)
      | e :: es => ((0, { it with inner_rc := 0, priv := some (e :: es) }), m1)
  kv_next := fun it m =>
    let (c, m1) := m.next_rc
    if c ≠ 0 then ((c, { it with inner_rc := c }), m1) else
      match it.priv with
      | some (_ :: e :: es) => ((0, { it with inner_rc := 0, priv := some (e :: es) }), m1)
      | _ => ((-ENOENT, { it with inner_rc := -ENOENT, priv := some [] }), m1)
  kv_fini := fun _ m => m
  kv_get := fun it m =>
    match it.priv with
    | some ((k, v) :: _) =>
      let (a1, m1) := m.fresh k.length
      let (a2, m2) := m1.fresh v.length
      (({ addr := a1, bytes := k }, { addr := a2, bytes := v }), m2)
    | _ => (({ addr := 0, bytes := [] }, { addr := 0, bytes := [] }), m)

/-- Modelled from the spec: the name validator (section 4.5, a name is valid when
alphanumeric): 0 when the first `s_len` characters are letters or digits,
`-EINVAL` otherwise. -/
def str256_isalphanum (s : str256_t) : Int :=
  if (s.s_str.take s.s_len).all
      (fun c => (48 ≤ c ∧ c ≤ 57) ∨ (65 ≤ c ∧ c ≤ 90) ∨ (97 ≤ c ∧ c ≤ 122)) then 0
  else -EINVAL

/-- External utilities for the example worlds: the validator above, and a fid
parser that accepts any string and yields one fixed fid. -/
def mem_ext : Extern where
  str256_isalphanum := str256_isalphanum
  cortx_kvs_fid_from_str := fun s =>
    match s with
    | none => (-EINVAL, { f_hi := 0, f_lo := 0 })
    | some _ => (0, { f_hi := 7, f_lo := 0 })

/-- A configuration whose item `kvstore.type` is `t`. -/
def cfg_type (t : String) : collection_item where
  get_config_item := fun sec key =>
    if sec = "kvstore" ∧ key = "type" then (0, some t) else (0, none)

/-- The in-memory backend with nothing stored and the given injection plan. -/
def mem_empty (plan : List Int) : MemKvs :=
  { kv := [], indices := [], plan := plan, brk := 0 }

/-- The fid of the namespace directory index in the example worlds. -/
def dir_fid : kvs_fid_t := { f_hi := 7, f_lo := 0 }

/-- The in-memory backend holding the namespace directory index (fid 7:0) with
the given entries, and the given injection plan. -/
def mem_dir (entries : List (Bytes × Bytes)) (plan : List Int) : MemKvs :=
  { kv := entries.map (fun e => (fid_handle dir_fid, e.1, e.2)),
    indices := [dir_fid],
    plan := plan,
    brk := 0 }

/-- The process before `kvs_init`: no table bound, `kvs_init_done` false. -/
def world_uninit (m : MemKvs) : World MemKvs MemCursor :=
  { g_kvstore := { kvstore_ops := none, type := none },
    kvs_init_done := false,
    g_ns_index := { index_fid := { f_hi := 0, f_lo := 0 }, index_priv := 0 },
    ns_fid_str := none,
    ext := mem_ext,
    backend := m,
    trace := [] }

/-- The process after `kvs_init` and `ns_init` on the in-memory backend: the
table bound, the directory index open. -/
def world_mem (m : MemKvs) : World MemKvs MemCursor :=
  { g_kvstore := { kvstore_ops := some mem_kvs_ops, type := some "cortx" },
    kvs_init_done := true,
    g_ns_index := { index_fid := dir_fid, index_priv := fid_handle dir_fid },
    ns_fid_str := some "7:0",
    ext := mem_ext,
    backend := m,
    trace := [] }

/-! ## Sequences of calls on the in-memory backend -/

/-- The bytes of the NS_ID_NEXT counter key. -/
def counter_key : Bytes := (NS_KEY_PREFIX_INIT NS_KEY_TYPE_NS_ID_NEXT).bytes

/-- The bytes stored under the NS_ID_NEXT key of the directory index. -/
def stored_counter (w : World MemKvs MemCursor) : Option Bytes :=
  w.backend.lookup w.g_ns_index.index_priv counter_key

/-- The value `ns_next_id` starts from in `w`: `NS_ID_INIT` when the counter key
is absent, else the `uint32_t` at the start of the stored value (`none` when
the stored value is shorter than that). -/
def counter_start (w : World MemKvs MemCursor) : Option Nat :=
  match stored_counter w with
  | none => some NS_ID_INIT
  | some b => if b.length < 4 then none else some (le_val (b.take 4))

/-- The run of `n` calls of `ns_next_id` in sequence, nothing else touching the
store in between: per call the result code, the id handed out and the bytes
stored under the counter key when the call returns. -/
def ns_next_id_calls : Nat → World MemKvs MemCursor →
    Except Fault (List (Int × Option Nat × Option Bytes))
  | 0, _ => .ok []
  | n + 1, w => do
    let ((rc, id), w1) ← ns_next_id w
    let rest ← ns_next_id_calls n w1
    pure ((rc, id, stored_counter w1) :: rest)

/-- A scan cursor of the in-memory backend whose entries still to visit are
`entries`, the current one first; `v0` is the value block materialized by the
call before. -/
def mem_cursor (entries : MemCursor) (v0 : Blk) : ns_itr MemCursor :=
  { addr := 9,
    ns := some v0,
    kvs_iter := some
      { addr := 26, idx_priv := fid_handle dir_fid,
        pfx := (NS_KEY_PREFIX_INIT NS_KEY_TYPE_NS_INFO).bytes, inner_rc := 0,
        priv := some entries } }

/-- A name of 256 characters: `cs` padded with NUL. -/
def name_of (cs : List Nat) : str256_t :=
  { s_len := cs.length, s_str := (cs ++ List.replicate 256 0).take 256 }

/-- The record `ns_create` builds in the example worlds for the id `id` and the
name `cs`: the object fid is the directory fid with `f_lo` set to the id. -/
def record_of (id : Nat) (cs : List Nat) : struct_namespace :=
  { nsobj_id := id,
    ns_name := name_of cs,
    nsobj_fid := { f_hi := 7, f_lo := id },
    nsobj_index := { index_fid := { f_hi := 7, f_lo := id },
                     index_priv := fid_handle ⟨7, id⟩ } }

/-- Two namespaces are created in an empty directory, then `ns_scan` is called
twice. The result: the two records `ns_create` returned; per `ns_scan` call the
result code, the record read through the handle, and whether the last call
the scan forwarded released the block that record lives in. -/
def scan_after_two_creates : Except Fault
    (Option struct_namespace × Option struct_namespace ×
      (Int × Option struct_namespace × Option Bool) ×
      (Int × Option struct_namespace × Option Bool)) := do
  let ((_, a), w) ← ns_create (name_of [97, 98, 99]) (world_mem (mem_dir [] []))
  let ((_, b), w) ← ns_create (name_of [100]) w
  let ((rc1, it1), w1) ← ns_scan none w
  let ((rc2, it2), w2) ← ns_scan it1 w1
  let rec1 := (it1.bind (fun it => it.ns)).map (fun blk => struct_namespace.view blk.bytes)
  let rel1 := (it1.bind (fun it => it.ns)).map
    (fun blk => decide (w1.trace.getLast? = some (Call.free blk.addr)))
  let rec2 := (it2.bind (fun it => it.ns)).map (fun blk => struct_namespace.view blk.bytes)
  let rel2 := (it2.bind (fun it => it.ns)).map
    (fun blk => decide (w2.trace.getLast? = some (Call.free blk.addr)))
  pure (a.map (fun r => r.obj), b.map (fun r => r.obj), (rc1, rec1, rel1), (rc2, rec2, rel2))

/-- The bytes of the NS_INFO scan prefix. -/
def info_pfx : Bytes := (NS_KEY_PREFIX_INIT NS_KEY_TYPE_NS_INFO).bytes

/-- The bytes of the NS_INFO key of the namespace id `id`. -/
def ns_info_key (id : Nat) : Bytes := (NS_KEY_INIT id NS_KEY_TYPE_NS_INFO).bytes

/-- The record a caller can read in the block `b` after the calls `calls` were
forwarded: none when one of them passed the block to `kvs_free`, as a released
block holds no record; else the block read as a `struct namespace`. -/
def readable_record (calls : List Call) (b : Blk) : Option struct_namespace :=
  if Call.free b.addr ∈ calls then none else some (struct_namespace.view b.bytes)

/-- A full enumeration: `ns_scan` is called, first with a null handle, until it
leaves the handle null or `fuel` calls were made. The result lists, one entry
per call that left the handle non-null, what the caller can read through
`ns_iter->ns` when that call returns: the record, or `none` when the
enumeration has released the block the handle points to (`n0` is the length of
the trace when the enumeration started). It also gives the handle after the
last call. -/
def ns_scan_all {σ ι : Type} (n0 : Nat) : Nat → Option (ns_itr ι) → World σ ι →
    Except Fault ((List (Option struct_namespace) × Option (ns_itr ι)) × World σ ι)
  | 0, iter, w => .ok (([], iter), w)
  | fuel + 1, iter, w => do
    let ((_, iter1), w1) ← ns_scan iter w
    match iter1 with
    | none => pure (([], none), w1)
    | some it =>
      let ((recs, itn), w2) ← ns_scan_all n0 fuel (some it) w1
      pure (((it.ns.toList.map (readable_record (w1.trace.drop n0))) ++ recs, itn), w2)

/-- A full enumeration started in `w` with a null handle. -/
def ns_scan_full {σ ι : Type} (fuel : Nat) (w : World σ ι) :
    Except Fault ((List (Option struct_namespace) × Option (ns_itr ι)) × World σ ι) :=
  ns_scan_all w.trace.length fuel none w

/-- A call a client makes to the namespace layer: `ns_create` of a name,
`ns_delete` of a record, `ns_next_id`, or a full `ns_scan` enumeration of at
most `fuel` calls. -/
inductive ns_call where
  | create (name : str256_t)
  | delete (ns : ns_ref)
  | next_id
  | scan (fuel : Nat)

/-- One client call run in `w`: the world it leaves, whatever its result code. -/
def ns_step {σ ι : Type} : ns_call → World σ ι → Except Fault (World σ ι)
  | .create name, w => (ns_create name w).map (fun r => r.2)
  | .delete ns, w => (ns_delete (some ns) w).map (fun r => r.2)
  | .next_id, w => (ns_next_id w).map (fun r => r.2)
  | .scan fuel, w => (ns_scan_full fuel w).map (fun r => r.2)

/-- A sequence of client calls run in order from `w`. -/
def ns_run {σ ι : Type} : List ns_call → World σ ι → Except Fault (World σ ι)
  | [], w => .ok w
  | c :: cs, w => do
    let w1 ← ns_step c w
    ns_run cs w1

/-- The directory index is consistent: the key of every entry under the NS_INFO
prefix is the NS_INFO key of the id held in the entry's record. -/
def dir_consistent (w : World MemKvs MemCursor) : Prop :=
  ∀ e ∈ w.backend.kv, e.1 = w.g_ns_index.index_priv → info_pfx.isPrefixOf e.2.1 = true →
    e.2.1 = ns_info_key (struct_namespace.view e.2.2).nsobj_id

/-- The scan cursor `it` of the in-memory backend stays within the entries `S`:
the entries it has still to visit are in `S`, and the record it holds is the
value of an entry of `S`. -/
def cursor_within (S : List (Bytes × Bytes)) (it : ns_itr MemCursor) : Prop :=
  (∃ kit cur, it.kvs_iter = some kit ∧ kit.priv = some cur ∧ ∀ e ∈ cur, e ∈ S) ∧
  (∀ b, it.ns = some b → ∃ e ∈ S, e.2 = b.bytes)

/-- The in-memory backend after one `ns_create` of the name "abc" in an empty
directory: the counter holds 3, the record of id 3 is stored under its
NS_INFO key, and the object index 7:3 exists. -/
def mem_one : MemKvs :=
  { kv := [(fid_handle dir_fid, counter_key, le_bytes 4 3),
           (fid_handle dir_fid, ns_info_key 3, (record_of 3 [97, 98, 99]).image)],
    indices := [dir_fid, ⟨7, 3⟩],
    plan := [],
    brk := 400 }

/-- The conversion of an `unsigned int` to `int` that C applies when a count is
passed as the `int index` of `kvgroup_kvpair_get` (two's complement). -/
def u32_to_int (n : Nat) : Int := if n < 2 ^ 31 then (n : Int) else (n : Int) - 2 ^ 32

/-- A group of capacity `2 ^ 31 + 1` that holds `2 ^ 31` pairs. -/
def big_group_room : kvgroup :=
  { kv_list := List.replicate (2 ^ 31 + 1) ⟨⟨100, 3⟩, ⟨200, 4⟩⟩,
    kv_max := 2 ^ 31 + 1,
    kv_count := 2 ^ 31 }

/-- The entries of the index with handle `h` are consistent in the backend state
`m`: the key of every entry under the NS_INFO prefix is the NS_INFO key of the
id held in the entry's record. -/
def entries_consistent (h : Nat) (m : MemKvs) : Prop :=
  ∀ e ∈ m.kv, e.1 = h → info_pfx.isPrefixOf e.2.1 = true →
    e.2.1 = ns_info_key (struct_namespace.view e.2.2).nsobj_id

/-- The client calls that create the namespaces "abc", "d" and "e". -/
def three_creates : List ns_call :=
  [ns_call.create (name_of [97, 98, 99]), ns_call.create (name_of [100]),
   ns_call.create (name_of [101])]

/-- The world the client calls `calls` leave when run from an empty directory
(the empty directory itself when the run stops at a fault). -/
def world_after (calls : List ns_call) : World MemKvs MemCursor :=
  match ns_run calls (world_mem (mem_dir [] [])) with
  | .ok w => w
  | .error _ => world_mem (mem_dir [] [])

/-- A group of `2 ^ 31 + 1` pairs, full. -/
def big_group : kvgroup :=
  { kv_list := List.replicate (2 ^ 31 + 1) ⟨⟨100, 3⟩, ⟨200, 4⟩⟩,
    kv_max := 2 ^ 31 + 1,
    kv_count := 2 ^ 31 + 1 }

/-! ## Theorems -/

section Theorems

variable {σ ι : Type}

/-- For a string without NUL, `strncmp a b (strlen a) = 0` makes `a` a prefix of `b`. -/
theorem strncmp_zero_isPrefix (a b : List Char) (hnul : ∀ c ∈ a, c.toNat ≠ 0)
    (h : strncmp a b a.length = 0) : a <+: b := by
  induction a generalizing b with
  | nil => exact List.nil_prefix
  | cons x xs ih =>
    have hx : x.toNat ≠ 0 := hnul x (List.mem_cons_self _ _)
    cases b with
    | nil =>
      simp only [List.length_cons, strncmp] at h
      exact absurd (by exact_mod_cast h) hx
    | cons y ys =>
      simp only [List.length_cons, strncmp] at h
      by_cases hxy : x = y
      · subst hxy
        simp only [if_true, hx, if_false] at h
        have := ih ys (fun c hc => hnul c (List.mem_cons_of_mem _ hc)) h
        exact (List.prefix_cons_inj x).mpr this
      · simp only [hxy, if_false] at h
        have h2 : (x.toNat : Int) = y.toNat := by omega
        have h3 : x.toNat = y.toNat := by exact_mod_cast h2
        exact absurd (Char.ext (UInt32.ext (by simpa [Char.toNat] using h3))) hxy

/-- A string that is a prefix of no registered name selects no module. -/
theorem select_module_none (t : String) (modules : List (kvstore_module σ ι))
    (hnul : ∀ c ∈ t.data, c.toNat ≠ 0)
    (h : ∀ m ∈ modules, ¬ (t.data <+: m.type.data)) : select_module t modules = none := by
  induction modules with
  | nil => rfl
  | cons m ms ih =>
    have hm : strncmp t.data m.type.data t.length ≠ 0 := fun h0 =>
      h m (List.mem_cons_self _ _) (strncmp_zero_isPrefix _ _ hnul h0)
    simp only [select_module, hm, if_false]
    exact ih (fun m' hm' => h m' (List.mem_cons_of_mem _ hm'))

/-- C5 (as amended): when the configured type string (a C string, so without
NUL) is not a prefix of the name of any registry entry, `kvs_init` returns
`-EINVAL` and the world is the one before the call: no operation table bound,
`kvs_init_done` not set, nothing forwarded to a backend. -/
theorem kvs_init_unregistered (modules : List (kvstore_module σ ι)) (cfg : collection_item)
    (t : String) (w : World σ ι)
    (hcfg : cfg.get_config_item "kvstore" "type" = (0, some t))
    (hnul : ∀ c ∈ t.data, c.toNat ≠ 0)
    (h : ∀ m ∈ modules, ¬ (t.data <+: m.type.data)) :
    kvs_init modules kvstore_get (some cfg) w = .ok (-EINVAL, w) := by
  have hs := select_module_none t modules hnul h
  simp [kvs_init, __kvs_init, dassert, kvstore_get, hcfg, hs, bind, Except.bind, pure,
    Except.pure]

/-- C5, an instance: the type "corty" on the registry of the source. -/
theorem kvs_init_unregistered_witness :
    kvs_init (kvstore_modules mem_kvs_ops mem_kvs_ops true) kvstore_get
        (some (cfg_type "corty")) (world_uninit (mem_empty []))
      = .ok (-EINVAL, world_uninit (mem_empty [])) :=
  kvs_init_unregistered _ (cfg_type "corty") "corty" _ rfl (by decide) (by decide)

/-- C5, counterexample to the claim as stated: "cor" is the name of no registry
entry, yet `kvs_init` succeeds with it, forwards to the init of the cortx
backend, binds its table and sets `kvs_init_done`. -/
theorem kvs_init_prefix_name_selected :
    (∀ m ∈ kvstore_modules mem_kvs_ops mem_kvs_ops true, m.type ≠ "cor") ∧
    (match kvs_init (kvstore_modules mem_kvs_ops mem_kvs_ops true) kvstore_get
        (some (cfg_type "cor")) (world_uninit (mem_empty [])) with
      | .ok (rc, w) =>
        rc = 0 ∧ w.kvs_init_done = true ∧ w.trace = [Call.init] ∧
          w.g_kvstore.kvstore_ops.isSome = true
      | .error _ => False) := by
  constructor
  · decide
  · simp [kvs_init, __kvs_init, dassert, kvstore_get, cfg_type, kvstore_modules, select_module,
      strncmp, bind, Except.bind, pure, Except.pure, World.fwd, world_uninit, mem_kvs_ops,
      MemKvs.plain, MemKvs.next_rc, mem_empty]

/-- C6: for every entry of the registry `kvstore_modules` (with or without the
redis entry), `kvs_init` with `kvstore.type` set to the entry's name binds that
entry's operation table, forwards exactly one call, the backend's `init`,
returns its result unchanged, and sets `kvs_init_done` and the recorded type
when that result is 0 and leaves them as they were otherwise; so from a store
not yet initialised, success is recorded if and only if the result is 0. -/
theorem kvs_init_registered (cortx_kvs_ops redis_kvs_ops : kvstore_ops σ ι)
    (WITH_REDIS : Bool) (m : kvstore_module σ ι) (cfg : collection_item) (w : World σ ι)
    (hm : m ∈ kvstore_modules cortx_kvs_ops redis_kvs_ops WITH_REDIS)
    (hcfg : cfg.get_config_item "kvstore" "type" = (0, some m.type)) :
    ∃ w1, kvs_init (kvstore_modules cortx_kvs_ops redis_kvs_ops WITH_REDIS) kvstore_get
          (some cfg) w = .ok ((m.ops.init cfg w.backend).1, w1) ∧
      w1.g_kvstore.kvstore_ops = some m.ops ∧
      w1.backend = (m.ops.init cfg w.backend).2 ∧
      w1.trace = w.trace ++ [Call.init] ∧
      ((m.ops.init cfg w.backend).1 = 0 →
        w1.kvs_init_done = true ∧ w1.g_kvstore.type = some m.type) ∧
      ((m.ops.init cfg w.backend).1 ≠ 0 →
        w1.kvs_init_done = w.kvs_init_done ∧ w1.g_kvstore.type = w.g_kvstore.type) ∧
      (w.kvs_init_done = false → w.g_kvstore.type = none →
        ((w1.kvs_init_done = true ∧ w1.g_kvstore.type = some m.type) ↔
          (m.ops.init cfg w.backend).1 = 0)) := by
  have hsel : select_module m.type (kvstore_modules cortx_kvs_ops redis_kvs_ops WITH_REDIS)
      = some m := by
    cases WITH_REDIS <;> simp [kvstore_modules] at hm
    · subst hm; simp [kvstore_modules, select_module, strncmp]
    · rcases hm with hm | hm <;> subst hm <;>
        simp [kvstore_modules, select_module, strncmp]
  have key : kvs_init (kvstore_modules cortx_kvs_ops redis_kvs_ops WITH_REDIS) kvstore_get
      (some cfg) w = .ok ((m.ops.init cfg w.backend).1,
        if (m.ops.init cfg w.backend).1 = 0 then
          { w with
            g_kvstore := { kvstore_ops := some m.ops, type := some m.type },
            kvs_init_done := true,
            backend := (m.ops.init cfg w.backend).2,
            trace := w.trace ++ [Call.init] }
        else
          { w with
            g_kvstore := { w.g_kvstore with kvstore_ops := some m.ops },
            backend := (m.ops.init cfg w.backend).2,
            trace := w.trace ++ [Call.init] }) := by
    by_cases hrc : (m.ops.init cfg w.backend).1 = 0 <;>
      simp [kvs_init, __kvs_init, dassert, kvstore_get, hcfg, hsel, bind, Except.bind, pure,
        Except.pure, hrc, World.fwd]
  refine ⟨_, key, ?_⟩
  by_cases hrc : (m.ops.init cfg w.backend).1 = 0
  · simp [hrc]
  · simp only [hrc, if_false]
    simp
    intro h1 _ h3
    simp [h1] at h3

/-- C6, an instance: the redis entry, on a store not yet initialised. -/
theorem kvs_init_registered_witness :
    ∃ w1, kvs_init (kvstore_modules mem_kvs_ops mem_kvs_ops true) kvstore_get
          (some (cfg_type "redis")) (world_uninit (mem_empty [])) = .ok (0, w1) ∧
      w1.g_kvstore.kvstore_ops = some mem_kvs_ops ∧
      w1.trace = [Call.init] ∧
      w1.kvs_init_done = true ∧ w1.g_kvstore.type = some "redis" := by
  obtain ⟨w1, h1, h2, _, h4, h5, _, _⟩ :=
    kvs_init_registered mem_kvs_ops mem_kvs_ops true { type := "redis", ops := mem_kvs_ops }
      (cfg_type "redis") (world_uninit (mem_empty [])) (by simp [kvstore_modules]) rfl
  exact ⟨w1, h1, h2, h4, (h5 rfl).1, (h5 rfl).2⟩

/-- C7: on a group whose count equals its capacity, `kvgroup_add` returns
`-ENOMEM` and the group (count, capacity, slots) is unchanged. -/
theorem kvgroup_add_full (kv_grp : kvgroup) (kv : kvpair)
    (hfull : kv_grp.kv_count = kv_grp.kv_max) :
    kvgroup_add kv_grp kv = .ok (-ENOMEM, kv_grp) := by
  simp [kvgroup_add, hfull]

/-- C7, an instance: a group of capacity 1 that holds one pair. -/
theorem kvgroup_add_full_witness :
    kvgroup_add { kv_list := [⟨⟨100, 3⟩, ⟨200, 4⟩⟩], kv_max := 1, kv_count := 1 }
        ⟨⟨300, 1⟩, ⟨400, 1⟩⟩
      = .ok (-ENOMEM, { kv_list := [⟨⟨100, 3⟩, ⟨200, 4⟩⟩], kv_max := 1, kv_count := 1 }) :=
  kvgroup_add_full _ _ rfl

/-- The conversion to `unsigned int` of an `int` that is not negative. -/
theorem int_to_u32_nonneg (i : Int) (h0 : 0 ≤ i) (h1 : i < 2 ^ 31) :
    int_to_u32 i = i.toNat := by
  unfold int_to_u32
  have : i % 2 ^ 32 = i := Int.emod_eq_of_lt h0 (by omega)
  rw [this]

/-- The conversion to `unsigned int` of a negative `int` is at least `2 ^ 31`. -/
theorem int_to_u32_neg (i : Int) (h0 : i < 0) (h1 : -(2 ^ 31) ≤ i) :
    2 ^ 31 ≤ int_to_u32 i := by
  unfold int_to_u32
  have h : i % 2 ^ 32 = i + 2 ^ 32 := by
    rw [← Int.add_emod_self]
    exact Int.emod_eq_of_lt (by omega) (by omega)
  rw [h]
  omega

/-- C8 (as amended): for a group of at most `2 ^ 31` pairs whose live slots are
allocated, and an `int` index: when the index is not a position below the
count (negative ones included) `kvgroup_kvpair_get` returns `-ENOMEM` with the
outputs unassigned, whatever the slots hold; at a position below the count it
assigns the stored pair's value buffer and length to the outputs and returns
`-EINVAL` when that buffer is the null pointer with length 0 and 0 otherwise.
So `-ENOMEM` without outputs is returned exactly for the indexes that are not
positions. -/
theorem kvgroup_kvpair_get_spec (kv_grp : kvgroup) (index : Int)
    (hlo : -(2 ^ 31) ≤ index) (hhi : index < 2 ^ 31)
    (hcount : kv_grp.kv_count ≤ 2 ^ 31)
    (hslots : kv_grp.kv_count ≤ kv_grp.kv_list.length) :
    (¬ (0 ≤ index ∧ index < kv_grp.kv_count) →
      ∀ slots, kvgroup_kvpair_get { kv_grp with kv_list := slots } index
        = .ok (-ENOMEM, none)) ∧
    (0 ≤ index ∧ index < kv_grp.kv_count →
      ∃ kv, kv_grp.kv_list[index.toNat]? = some kv ∧
        kvgroup_kvpair_get kv_grp index
          = .ok (if kv.val.buf = 0 ∧ kv.val.len = 0 then -EINVAL else 0, some kv.val)) ∧
    (kvgroup_kvpair_get kv_grp index = .ok (-ENOMEM, none) ↔
      ¬ (0 ≤ index ∧ index < kv_grp.kv_count)) := by
  have hinv : ¬ (0 ≤ index ∧ index < kv_grp.kv_count) →
      int_to_u32 index ≥ kv_grp.kv_count := by
    intro h
    by_cases h0 : 0 ≤ index
    · rw [int_to_u32_nonneg index h0 hhi]
      have : ¬ index < kv_grp.kv_count := fun h' => h ⟨h0, h'⟩
      omega
    · have := int_to_u32_neg index (by omega) hlo
      omega
  have hval : 0 ≤ index ∧ index < kv_grp.kv_count →
      ∃ kv, kv_grp.kv_list[index.toNat]? = some kv ∧
        kvgroup_kvpair_get kv_grp index
          = .ok (if kv.val.buf = 0 ∧ kv.val.len = 0 then -EINVAL else 0, some kv.val) := by
    rintro ⟨h0, h1⟩
    have hlt : index.toNat < kv_grp.kv_list.length := by omega
    refine ⟨kv_grp.kv_list[index.toNat], List.getElem?_eq_getElem hlt, ?_⟩
    have hu : ¬ int_to_u32 index ≥ kv_grp.kv_count := by
      rw [int_to_u32_nonneg index h0 hhi]; omega
    have hneg : ¬ index < 0 := by omega
    simp only [kvgroup_kvpair_get, hu, hneg, if_false, List.getElem?_eq_getElem hlt]
    split <;> rfl
  refine ⟨fun h slots => ?_, hval, ?_⟩
  · simp [kvgroup_kvpair_get, hinv h]
  · constructor
    · intro h hv
      obtain ⟨kv, _, hk⟩ := hval hv
      rw [hk] at h
      simp at h
    · intro h
      simp [kvgroup_kvpair_get, hinv h]

/-- C8, an instance: index `-1` and index `0` on a group of one pair. -/
theorem kvgroup_kvpair_get_spec_witness :
    kvgroup_kvpair_get { kv_list := [⟨⟨100, 3⟩, ⟨200, 4⟩⟩], kv_max := 1, kv_count := 1 } (-1)
      = .ok (-ENOMEM, none) ∧
    kvgroup_kvpair_get { kv_list := [⟨⟨100, 3⟩, ⟨200, 4⟩⟩], kv_max := 1, kv_count := 1 } 0
      = .ok (0, some ⟨200, 4⟩) := by
  constructor
  · exact (kvgroup_kvpair_get_spec
      { kv_list := [⟨⟨100, 3⟩, ⟨200, 4⟩⟩], kv_max := 1, kv_count := 1 } (-1)
      (by decide) (by decide) (by decide) (by decide)).1 (by decide) _
  · obtain ⟨kv, hk, hr⟩ := (kvgroup_kvpair_get_spec
      { kv_list := [⟨⟨100, 3⟩, ⟨200, 4⟩⟩], kv_max := 1, kv_count := 1 } 0
      (by decide) (by decide) (by decide) (by decide)).2.1 (by decide)
    simp at hk
    subst hk
    simpa using hr

/-- C8, counterexample to the claim as stated: on a group of `2 ^ 31 + 1` pairs
the negative index `-(2 ^ 31)` converts to `2 ^ 31`, which is below the count,
so the function does not return `-ENOMEM`: it goes on to read the slot at the
negative index, outside the slot array. -/
theorem kvgroup_kvpair_get_negative_index_read :
    big_group.kv_list.length = big_group.kv_max ∧
    big_group.kv_count ≤ big_group.kv_max ∧ big_group.kv_max < 2 ^ 32 ∧
    kvgroup_kvpair_get big_group (-(2 ^ 31)) = .error Fault.bad_read := by
  have h1 : ¬ int_to_u32 (-(2 ^ 31)) ≥ big_group.kv_count := by decide
  have h2 : (-(2 ^ 31) : Int) < 0 := by decide
  refine ⟨List.length_replicate _ _, Nat.le_refl _, by decide, ?_⟩
  rw [kvgroup_kvpair_get, if_neg h1, if_pos h2]

/-- Little-endian bytes hold the number modulo `256 ^ n`. -/
theorem le_val_le_bytes (n v : Nat) : le_val (le_bytes n v) = v % 256 ^ n := by
  induction n generalizing v with
  | zero => simp [le_bytes, le_val, Nat.mod_one]
  | succ n ih =>
    simp only [le_bytes, le_val, ih]
    rw [pow_succ, Nat.mul_comm (256 ^ n) 256, Nat.mod_mul]

/-- The byte string of a little-endian number has the asked length. -/
theorem le_bytes_length (n v : Nat) : (le_bytes n v).length = n := by
  induction n generalizing v with
  | zero => rfl
  | succ n ih => simp [le_bytes, ih]

/-- C1 (as amended): when the store is bound, the key buffer is allocated, the
backend `get` of the NS_ID_NEXT key reports NotFound (`-ENOENT`, no value) and
the backend `set` of that key succeeds, `ns_next_id` returns 0 and hands out
`NS_ID_INIT + 1 = 3`: the counter is seeded with `NS_ID_INIT` and incremented
before it is written back and returned. The calls forwarded are the
allocation, the `get`, the `set` of the 4-byte value 3, and the release of the
key buffer. -/
theorem ns_next_id_absent (w : World σ ι) (ops : kvstore_ops σ ι) (p : Nat) (s1 s2 s3 : σ)
    (hops : w.g_kvstore.kvstore_ops = some ops)
    (halloc : ops.alloc sizeof_key_prefix w.backend = ((0, p), s1)) (hp : p ≠ 0)
    (hget : ops.get_bin w.g_ns_index (NS_KEY_PREFIX_INIT NS_KEY_TYPE_NS_ID_NEXT).bytes s1
      = ((-ENOENT, none), s2))
    (hset : ops.set_bin w.g_ns_index (NS_KEY_PREFIX_INIT NS_KEY_TYPE_NS_ID_NEXT).bytes
      (le_bytes 4 (NS_ID_INIT + 1)) s2 = (0, s3)) :
    ns_next_id w = .ok ((0, some (NS_ID_INIT + 1)),
      { w with
        backend := ops.free p s3,
        trace := w.trace ++
          [Call.alloc sizeof_key_prefix,
           Call.get_bin w.g_ns_index (NS_KEY_PREFIX_INIT NS_KEY_TYPE_NS_ID_NEXT).bytes,
           Call.set_bin w.g_ns_index (NS_KEY_PREFIX_INIT NS_KEY_TYPE_NS_ID_NEXT).bytes
             (le_bytes 4 (NS_ID_INIT + 1)),
           Call.free p] }) ∧
    NS_ID_INIT + 1 = 3 := by
  refine ⟨?_, rfl⟩
  have hmod : (NS_ID_INIT + 1) % 4294967296 = NS_ID_INIT + 1 := by decide
  simp [ns_next_id, kvs_alloc, kvs_get, kvs_set, kvs_free, bound_ops, dassert, kvstore_get,
    World.fwd, hops, halloc, hp, hget, hset, hmod, bind, Except.bind, pure, Except.pure, ENOENT]

/-- C1, an instance: the in-memory backend with an empty directory. -/
theorem ns_next_id_absent_witness :
    (ns_next_id (world_mem (mem_dir [] []))).map (fun r => r.1) = .ok (0, some 3) := by
  rw [(ns_next_id_absent (world_mem (mem_dir [] [])) mem_kvs_ops 1
    { mem_dir [] [] with brk := 3 } { mem_dir [] [] with brk := 3 }
    { mem_dir [([2, 0], [3, 0, 0, 0])] [] with brk := 3 } rfl rfl (by decide) rfl rfl).1]
  rfl

/-- C1, counterexample to the claim as stated: with the NS_ID_NEXT key absent
and every backend operation succeeding, the id handed out is 3, not
`NS_ID_INIT = 2`. -/
theorem ns_next_id_first_id_is_three :
    (mem_dir [] []).lookup (fid_handle dir_fid)
      (NS_KEY_PREFIX_INIT NS_KEY_TYPE_NS_ID_NEXT).bytes = none ∧
    (ns_next_id (world_mem (mem_dir [] []))).map (fun r => r.1) = .ok (0, some 3) ∧
    (3 : Nat) ≠ NS_ID_INIT := by
  refine ⟨rfl, rfl, by decide⟩

/-! ### The in-memory backend -/

theorem kv_lookup_upsert_self (h : Nat) (k v : Bytes) (l : List (Nat × Bytes × Bytes)) :
    kv_lookup h k (kv_upsert h k v l) = some v := by
  induction l with
  | nil => simp [kv_upsert, kv_lookup]
  | cons e es ih =>
    by_cases he : e.1 = h ∧ e.2.1 = k
    · simp [kv_upsert, kv_lookup, he]
    · simp [kv_upsert, kv_lookup, he, ih]

theorem kv_lookup_upsert_other (h h2 : Nat) (k k2 v : Bytes) (l : List (Nat × Bytes × Bytes))
    (hne : ¬ (h2 = h ∧ k2 = k)) :
    kv_lookup h2 k2 (kv_upsert h k v l) = kv_lookup h2 k2 l := by
  have hne3 : ¬ (h = h2 ∧ k = k2) := by
    rintro ⟨a, b⟩; exact hne ⟨a.symm, b.symm⟩
  induction l with
  | nil => simp [kv_upsert, kv_lookup, hne3]
  | cons e es ih =>
    by_cases he : e.1 = h ∧ e.2.1 = k
    · have hne2 : ¬ (e.1 = h2 ∧ e.2.1 = k2) := by
        rintro ⟨a, b⟩; exact hne ⟨a ▸ he.1, b ▸ he.2⟩
      simp [kv_upsert, kv_lookup, he, hne2, hne3]
    · by_cases he2 : e.1 = h2 ∧ e.2.1 = k2
      · simp only [kv_upsert, if_neg he, kv_lookup, if_pos he2]
      · simp only [kv_upsert, if_neg he, kv_lookup, if_neg he2, ih]

/-! ### `ns_next_id` -/

/-- The run of `ns_next_id` once the key buffer is allocated and the backend
`get` gave a value or NotFound: the counter starts from `v`, `(v + 1) mod 2 ^ 32`
is written, and the result code is that of the backend `set`. -/
theorem ns_next_id_path (w : World σ ι) (ops : kvstore_ops σ ι) (p : Nat) (s1 s2 s3 : σ)
    (rcg rcs : Int) (vp : Option Blk) (v : Nat)
    (hops : w.g_kvstore.kvstore_ops = some ops)
    (halloc : ops.alloc sizeof_key_prefix w.backend = ((0, p), s1)) (hp : p ≠ 0)
    (hget : ops.get_bin w.g_ns_index counter_key s1 = ((rcg, vp), s2))
    (hv : (rcg = 0 ∧ ∃ b, vp = some b ∧ 4 ≤ b.bytes.length ∧ v = le_val (b.bytes.take 4)) ∨
      (rcg = -ENOENT ∧ vp = none ∧ v = NS_ID_INIT))
    (hset : ops.set_bin w.g_ns_index counter_key (le_bytes 4 ((v + 1) % 2 ^ 32)) s2
      = (rcs, s3)) :
    ns_next_id w = .ok ((rcs, if rcs ≠ 0 then none else some ((v + 1) % 2 ^ 32)),
      { w with
        backend := (match vp with
          | some b => ops.free b.addr (ops.free p s3)
          | none => ops.free p s3),
        trace := w.trace ++
          [Call.alloc sizeof_key_prefix, Call.get_bin w.g_ns_index counter_key,
           Call.set_bin w.g_ns_index counter_key (le_bytes 4 ((v + 1) % 2 ^ 32)),
           Call.free p] ++
          (match vp with
            | some b => [Call.free b.addr]
            | none => []) }) := by
  have hk : (NS_KEY_PREFIX_INIT NS_KEY_TYPE_NS_ID_NEXT).bytes = counter_key := rfl
  rcases hv with ⟨h0, b, hb, hlen, hval⟩ | ⟨h0, hb, hval⟩
  · subst h0 hb hval
    have hlen2 : ¬ b.bytes.length < 4 := by omega
    simp only [Nat.reducePow] at hset
    simp [ns_next_id, kvs_alloc, kvs_get, kvs_set, kvs_free, bound_ops, dassert, kvstore_get,
      World.fwd, hops, halloc, hp, hk, hget, hset, hlen2, bind, Except.bind, pure, Except.pure]
  · subst h0 hb hval
    simp only [Nat.reducePow] at hset
    simp [ns_next_id, kvs_alloc, kvs_get, kvs_set, kvs_free, bound_ops, dassert, kvstore_get,
      World.fwd, hops, halloc, hp, hk, hget, hset, bind, Except.bind, pure, Except.pure, ENOENT]

/-- One call of `ns_next_id` on the in-memory backend with no failure injected:
it returns 0 with the start value plus one (modulo `2 ^ 32`), and the store
afterwards is the store before with that value upserted under the counter key. -/
theorem mem_next_id_step (w : World MemKvs MemCursor) (v : Nat)
    (hops : w.g_kvstore.kvstore_ops = some mem_kvs_ops)
    (hplan : w.backend.plan = [])
    (hv : counter_start w = some v) :
    ∃ w1, ns_next_id w = .ok ((0, some ((v + 1) % 2 ^ 32)), w1) ∧
      w1.g_kvstore = w.g_kvstore ∧ w1.g_ns_index = w.g_ns_index ∧
      w1.ns_fid_str = w.ns_fid_str ∧ w1.ext = w.ext ∧
      w1.backend.plan = [] ∧ w1.backend.indices = w.backend.indices ∧
      w1.backend.kv =
        kv_upsert w.g_ns_index.index_priv counter_key (le_bytes 4 ((v + 1) % 2 ^ 32))
          w.backend.kv := by
  obtain ⟨gk, done, idx, fs, ext, m, tr⟩ := w
  obtain ⟨kv, indices, plan, brk⟩ := m
  simp only at hops hplan
  subst hplan
  simp only [counter_start, stored_counter, MemKvs.lookup] at hv
  cases hl : kv_lookup idx.index_priv counter_key kv with
  | none =>
    simp only [hl, Option.some.injEq] at hv
    refine ⟨_, ns_next_id_path _ mem_kvs_ops (brk + 1) _ _ _ (-ENOENT) 0 none v hops
      (by simp [mem_kvs_ops, MemKvs.next_rc, MemKvs.fresh]; rfl) (by omega)
      (by simp [mem_kvs_ops, MemKvs.next_rc, MemKvs.lookup, hl]; rfl)
      (Or.inr ⟨rfl, rfl, hv.symm⟩)
      (by simp [mem_kvs_ops, MemKvs.next_rc]; rfl), ?_⟩
    simp [mem_kvs_ops, MemKvs.upsert]
  | some b =>
    simp only [hl] at hv
    by_cases hlen : b.length < 4
    · simp [hlen] at hv
    · simp only [hlen, if_false, Option.some.injEq] at hv
      refine ⟨_, ns_next_id_path _ mem_kvs_ops (brk + 1) _ _ _ 0 0
        (some { addr := brk + 1 + sizeof_key_prefix + 1, bytes := b }) v hops
        (by simp [mem_kvs_ops, MemKvs.next_rc, MemKvs.fresh]; rfl) (by omega)
        (by simp [mem_kvs_ops, MemKvs.next_rc, MemKvs.lookup, hl, MemKvs.fresh]; rfl)
        (Or.inl ⟨rfl, _, rfl, by simpa using hlen, hv.symm⟩)
        (by simp [mem_kvs_ops, MemKvs.next_rc]; rfl), ?_⟩
      simp [mem_kvs_ops, MemKvs.upsert]

/-- C2 (as amended): on the in-memory backend with no failure injected, from a
directory whose counter starts at `v0` (`NS_ID_INIT` when the key is absent) with
`v0 + n < 2 ^ 32`, `n` calls of `ns_next_id` in sequence all return 0, the ids
handed out are `v0 + 1, v0 + 2, ..., v0 + n` (each the one before plus 1, so no
id twice), and when a call returns the 4 bytes stored under the NS_ID_NEXT key
are the id it has just handed out. -/
theorem ns_next_id_sequence (n : Nat) (w : World MemKvs MemCursor) (v0 : Nat)
    (hops : w.g_kvstore.kvstore_ops = some mem_kvs_ops)
    (hplan : w.backend.plan = [])
    (hv : counter_start w = some v0)
    (hwrap : v0 + n < 2 ^ 32) :
    ns_next_id_calls n w = .ok ((List.range n).map
      (fun i => (0, some (v0 + 1 + i), some (le_bytes 4 (v0 + 1 + i))))) := by
  induction n generalizing w v0 with
  | zero => rfl
  | succ n ih =>
    obtain ⟨w1, hstep, hk, hidx, _, _, hplan1, _, hkv⟩ := mem_next_id_step w v0 hops hplan hv
    have hmod : (v0 + 1) % 2 ^ 32 = v0 + 1 := Nat.mod_eq_of_lt (by omega)
    rw [hmod] at hstep hkv
    have hstored : stored_counter w1 = some (le_bytes 4 (v0 + 1)) := by
      simp only [stored_counter, MemKvs.lookup, hkv, hidx]
      exact kv_lookup_upsert_self _ _ _ _
    have hstart : counter_start w1 = some (v0 + 1) := by
      have hlen : (le_bytes 4 (v0 + 1)).length = 4 := le_bytes_length _ _
      have htake : (le_bytes 4 (v0 + 1)).take 4 = le_bytes 4 (v0 + 1) :=
        List.take_of_length_le (by omega)
      have hval : le_val (le_bytes 4 (v0 + 1)) = v0 + 1 := by
        rw [le_val_le_bytes]
        exact Nat.mod_eq_of_lt (by omega)
      simp [counter_start, hstored, hlen, htake, hval]
    have hrest := ih w1 (v0 + 1) (hk ▸ hops) hplan1 hstart (by omega)
    simp only [ns_next_id_calls, hstep, hrest, hstored, bind, Except.bind, pure, Except.pure]
    rw [List.range_succ_eq_map]
    simp only [List.map_cons, List.map_map, Nat.add_zero, Function.comp_def]
    have hfun : ∀ i : Nat, v0 + 1 + 1 + i = v0 + 1 + (i + 1) := fun i => by omega
    simp only [hfun]

/-- C2, an instance: three calls from an empty directory hand out 3, 4 and 5. -/
theorem ns_next_id_sequence_witness :
    ns_next_id_calls 3 (world_mem (mem_dir [] []))
      = .ok [(0, some 3, some [3, 0, 0, 0]), (0, some 4, some [4, 0, 0, 0]),
          (0, some 5, some [5, 0, 0, 0])] :=
  ns_next_id_sequence 3 (world_mem (mem_dir [] [])) 2 rfl rfl rfl (by decide)

/-- C2, counterexample to the claim as stated: from a directory whose counter
holds `2 ^ 32 - 2`, two successful calls in sequence hand out `2 ^ 32 - 1` and
then 0 (the `uint32_t` wraps), and 0 is stored: the sequence does not
increase. -/
theorem ns_next_id_wraps :
    ns_next_id_calls 2 (world_mem (mem_dir [(counter_key, le_bytes 4 4294967294)] []))
      = .ok [(0, some 4294967295, some [255, 255, 255, 255]), (0, some 0, some [0, 0, 0, 0])] ∧
    ¬ (4294967295 < (0 : Nat)) :=
  ⟨rfl, by decide⟩

/-! ### `ns_scan` -/

/-- C10: exhaustion is reported with a null handle in both ways it can occur.
First call (handle null): when the three allocations succeed and the backend
`find` under the NS_INFO prefix reports a non-zero result `rc1` (no entries),
`ns_scan` returns `rc1`, the caller's handle stays null, and after the `find`
nothing more is forwarded (no `kv_get`: no record is materialized). Later
call: when the backend `advance` reports a non-zero result `rc2`,
`ns_scan` returns `rc2`, sets the caller's handle to null, and forwards after
the `advance` exactly the finalization of the iterator (`kv_fini`, once, and
the release of the iterator object) and the release of the cursor object; again
no `kv_get`. -/
theorem ns_scan_exhaustion (wa wb : World σ ι) (ops : kvstore_ops σ ι)
    (p1 p2 p3 : Nat) (s1 s2 s3 s4 : σ) (rc1 : Int) (it1 : kvs_itr ι)
    (ns_iter : ns_itr ι) (kit kit2 : kvs_itr ι) (rc2 : Int) (t1 : σ)
    (hopsa : wa.g_kvstore.kvstore_ops = some ops)
    (ha1 : ops.alloc sizeof_ns_key wa.backend = ((0, p1), s1)) (hp1 : p1 ≠ 0)
    (ha2 : ops.alloc sizeof_ns_itr s1 = ((0, p2), s2))
    (ha3 : ops.alloc sizeof_kvs_itr s2 = ((0, p3), s3)) (hp3 : p3 ≠ 0)
    (hfind : ops.kv_find
      { addr := p3, idx_priv := wa.g_ns_index.index_priv,
        pfx := (NS_KEY_PREFIX_INIT NS_KEY_TYPE_NS_INFO).bytes, inner_rc := 0, priv := none } s3
      = ((rc1, it1), s4))
    (hrc1 : rc1 ≠ 0)
    (hopsb : wb.g_kvstore.kvstore_ops = some ops)
    (hkit : ns_iter.kvs_iter = some kit)
    (hnext : ops.kv_next kit wb.backend = ((rc2, kit2), t1))
    (hrc2 : rc2 ≠ 0) :
    ns_scan none wa = .ok ((rc1, none),
      { wa with
        backend := s4,
        trace := wa.trace ++
          [Call.alloc sizeof_ns_key, Call.alloc sizeof_ns_itr, Call.alloc sizeof_kvs_itr,
           Call.kv_find p3 (NS_KEY_PREFIX_INIT NS_KEY_TYPE_NS_INFO).bytes] }) ∧
    ns_scan (some ns_iter) wb = .ok ((rc2, none),
      { wb with
        backend := ops.free ns_iter.addr
          (ops.free kit.addr (ops.kv_fini { kit2 with addr := kit.addr } t1)),
        trace := wb.trace ++
          [Call.kv_next kit.addr, Call.kv_fini kit.addr, Call.free kit.addr,
           Call.free ns_iter.addr] }) := by
  have hpfx : ( key_prefix.bytes { k_type := NS_KEY_TYPE_NS_INFO, k_version := NS_VERSION_0 }).take
      psize = (NS_KEY_PREFIX_INIT NS_KEY_TYPE_NS_INFO).bytes := rfl
  constructor
  · simp [ns_scan, kvs_alloc, kvs_itr_find, bound_ops, dassert, kvstore_get, World.fwd, hopsa,
      ha1, hp1, ha2, ha3, hp3, hpfx, hfind, hrc1, bind, Except.bind, pure, Except.pure]
  · simp [ns_scan, kvs_itr_next, kvs_itr_fini, kvs_free, bound_ops, dassert, kvstore_get,
      World.fwd, hopsb, hkit, hnext, hrc2, bind, Except.bind, pure, Except.pure]

/-- C10, an instance on the in-memory backend: a first call on an empty
directory, and a later call with the cursor on the last entry. -/
theorem ns_scan_exhaustion_witness :
    (ns_scan none (world_mem (mem_dir [] []))).map
        (fun r => (r.1.1, r.1.2.isSome, r.2.trace))
      = .ok (-ENOENT, false,
          [Call.alloc 6, Call.alloc 16, Call.alloc 64, Call.kv_find 25 [1, 0]]) ∧
    (ns_scan (some (mem_cursor [([1, 0, 3, 0, 0, 0], [])] ⟨90, []⟩))
        (world_mem (mem_dir [([1, 0, 3, 0, 0, 0], [])] []))).map
        (fun r => (r.1.1, r.1.2.isSome, r.2.trace))
      = .ok (-ENOENT, false,
          [Call.kv_next 26, Call.kv_fini 26, Call.free 26, Call.free 9]) := by
  have h := ns_scan_exhaustion (world_mem (mem_dir [] []))
    (world_mem (mem_dir [([1, 0, 3, 0, 0, 0], [])] [])) mem_kvs_ops
    1 8 25 _ _ _ _ (-ENOENT) _ (mem_cursor [([1, 0, 3, 0, 0, 0], [])] ⟨90, []⟩) _ _ (-ENOENT) _
    rfl rfl (by decide) rfl rfl (by decide) rfl (by decide) rfl rfl rfl (by decide)
  exact ⟨by rw [h.1]; rfl, by rw [h.2]; rfl⟩

/-- C9, the code at the failing input: a value whose size is not
`sizeof(struct namespace)` makes `ns_scan` return 0, not an error. On a first
call the handle stays null; on a later call the handle stays as it was, still
pointing at the record of the call before. -/
theorem ns_scan_size_mismatch_returns_zero :
    (ns_scan none (world_mem (mem_dir [([1, 0, 3, 0, 0, 0], [1, 2, 3])] []))).map
        (fun r => (r.1.1, r.1.2.isSome))
      = .ok (0, false) ∧
    (ns_scan (some (mem_cursor [([1, 0, 3, 0, 0, 0], []), ([1, 0, 4, 0, 0, 0], [1, 2, 3])]
          ⟨90, []⟩))
        (world_mem (mem_dir [([1, 0, 3, 0, 0, 0], []), ([1, 0, 4, 0, 0, 0], [1, 2, 3])] []))).map
        (fun r => (r.1.1, r.1.2.map (fun it => it.ns)))
      = .ok (0, some (some ⟨90, []⟩)) :=
  ⟨rfl, rfl⟩

set_option maxRecDepth 100000 in
/-- C3, the code at the failing input: after two creations, the first `ns_scan`
call hands out the first record in a block it keeps; the second call hands
out the second record in a block that it has released (`kvs_free(val)`) before
it returns. -/
theorem ns_scan_second_record_released :
    scan_after_two_creates = .ok
      (some (record_of 3 [97, 98, 99]), some (record_of 4 [100]),
       (0, some (record_of 3 [97, 98, 99]), some false),
       (0, some (record_of 4 [100]), some true)) := by
  rfl

/-! ### `ns_delete` -/

/-- Little-endian bytes depend on the number modulo `256 ^ n` only. -/
theorem le_bytes_mod (n v : Nat) : le_bytes n (v % 256 ^ n) = le_bytes n v := by
  induction n generalizing v with
  | zero => rfl
  | succ n ih =>
    simp only [le_bytes]
    have h1 : v % 256 ^ (n + 1) % 256 = v % 256 := by
      rw [pow_succ, Nat.mul_comm]
      exact Nat.mod_mul_right_mod v 256 (256 ^ n)
    have h2 : v % 256 ^ (n + 1) / 256 = v / 256 % 256 ^ n := by
      rw [pow_succ, Nat.mul_comm]
      exact Nat.mod_mul_right_div_self v 256 (256 ^ n)
    rw [h1, h2, ih]

/-- A successful `ns_delete` ran through all its steps: the key buffer was
allocated, the backend `del` of the NS_INFO key returned 0, after it the
backend `index_delete` of the object fid returned 0, then the record and the
key buffer were released. -/
theorem ns_delete_ok_path (w w1 : World σ ι) (ops : kvstore_ops σ ι) (ns : ns_ref)
    (hops : w.g_kvstore.kvstore_ops = some ops)
    (h : ns_delete (some ns) w = .ok (0, w1)) :
    ∃ p s1 s2 s3,
      ops.alloc sizeof_ns_key w.backend = ((0, p), s1) ∧ p ≠ 0 ∧
      ops.del_bin w.g_ns_index (NS_KEY_INIT (ns.obj.nsobj_id % 2 ^ 32) NS_KEY_TYPE_NS_INFO).bytes s1
        = (0, s2) ∧
      ops.index_delete ns.obj.nsobj_fid s2 = (0, s3) ∧
      w1 = { w with
        backend := ops.free p (ops.free ns.addr s3),
        trace := w.trace ++
          [Call.alloc sizeof_ns_key,
           Call.del_bin w.g_ns_index
             (NS_KEY_INIT (ns.obj.nsobj_id % 2 ^ 32) NS_KEY_TYPE_NS_INFO).bytes,
           Call.index_delete ns.obj.nsobj_fid, Call.free ns.addr, Call.free p] } := by
  rcases hA : ops.alloc sizeof_ns_key w.backend with ⟨⟨rcA, p⟩, s1⟩
  rcases hD : ops.del_bin w.g_ns_index
    (NS_KEY_INIT (ns.obj.nsobj_id % 2 ^ 32) NS_KEY_TYPE_NS_INFO).bytes s1 with ⟨rcD, s2⟩
  rcases hI : ops.index_delete ns.obj.nsobj_fid s2 with ⟨rcI, s3⟩
  simp only [Nat.reducePow] at hD
  by_cases h1 : rcA = 0
  · subst h1
    by_cases hp : p = 0
    · simp [ns_delete, kvs_alloc, bound_ops, dassert, kvstore_get, World.fwd, hops, hA, hp,
        bind, Except.bind, pure, Except.pure] at h
    · by_cases h2 : rcD = 0
      · subst h2
        by_cases h3 : rcI = 0
        · subst h3
          refine ⟨p, s1, s2, s3, rfl, hp, ?_, hI, ?_⟩
          · simpa using hD
          · simp [ns_delete, kvs_alloc, kvs_del, kvs_index_delete, kvs_free, bound_ops, dassert,
              kvstore_get, World.fwd, hops, hA, hp, hD, hI, bind, Except.bind, pure,
              Except.pure] at h
            exact h.symm
        · simp [ns_delete, kvs_alloc, kvs_del, kvs_index_delete, kvs_free, bound_ops, dassert,
            kvstore_get, World.fwd, hops, hA, hp, hD, hI, h3, bind, Except.bind, pure,
            Except.pure] at h
      · simp [ns_delete, kvs_alloc, kvs_del, kvs_index_delete, kvs_free, bound_ops, dassert,
          kvstore_get, World.fwd, hops, hA, hp, hD, h2, bind, Except.bind, pure,
          Except.pure] at h
  · simp [ns_delete, kvs_alloc, bound_ops, dassert, kvstore_get, World.fwd, hops, hA, h1,
      bind, Except.bind, pure, Except.pure] at h

theorem fid_handle_inj (a b : kvs_fid_t) (h : fid_handle a = fid_handle b) : a = b := by
  unfold fid_handle at h
  have h2 := Nat.pair_eq_pair.mp (Nat.succ_injective h)
  cases a; cases b; simp_all

theorem kv_lookup_filter (h : Nat) (k : Bytes) (q : Nat × Bytes × Bytes → Bool)
    (l : List (Nat × Bytes × Bytes))
    (hq : ∀ e ∈ l, e.1 = h ∧ e.2.1 = k → q e = true) :
    kv_lookup h k (l.filter q) = kv_lookup h k l := by
  induction l with
  | nil => rfl
  | cons e es ih =>
    have ih2 := ih (fun e' he' => hq e' (List.mem_cons_of_mem _ he'))
    by_cases he : e.1 = h ∧ e.2.1 = k
    · have := hq e (List.mem_cons_self _ _) he
      simp only [List.filter, this, kv_lookup, if_pos he]
    · cases hqe : q e
      · simp only [List.filter, hqe, kv_lookup, if_neg he, ih2]
      · simp only [List.filter, hqe, kv_lookup, if_neg he, ih2]

theorem mem_alloc_store (n : Nat) (m : MemKvs) :
    (mem_kvs_ops.alloc n m).2.kv = m.kv := by
  obtain ⟨kv, indices, plan, brk⟩ := m
  cases plan with
  | nil => simp [mem_kvs_ops, MemKvs.next_rc, MemKvs.fresh]
  | cons c cs =>
    by_cases hc : c = 0 <;> simp [mem_kvs_ops, MemKvs.next_rc, MemKvs.fresh, hc]

theorem mem_del_ok (idx : kvs_idx) (k : Bytes) (m m1 : MemKvs)
    (h : mem_kvs_ops.del_bin idx k m = (0, m1)) :
    m1.kv = m.kv.filter (fun e => ¬ (e.1 = idx.index_priv ∧ e.2.1 = k)) := by
  obtain ⟨kv, indices, plan, brk⟩ := m
  cases plan with
  | nil =>
    by_cases hl : (kv_lookup idx.index_priv k kv).isSome
    · simp [mem_kvs_ops, MemKvs.next_rc, MemKvs.lookup, MemKvs.erase, hl] at h
      rw [← h]; simp
    · simp [mem_kvs_ops, MemKvs.next_rc, MemKvs.lookup, MemKvs.erase, hl, ENOENT] at h
  | cons c cs =>
    by_cases hc : c = 0
    · subst hc
      by_cases hl : (kv_lookup idx.index_priv k kv).isSome
      · simp [mem_kvs_ops, MemKvs.next_rc, MemKvs.lookup, MemKvs.erase, hl] at h
        rw [← h]; simp
      · simp [mem_kvs_ops, MemKvs.next_rc, MemKvs.lookup, MemKvs.erase, hl, ENOENT] at h
    · simp [mem_kvs_ops, MemKvs.next_rc, hc] at h

theorem mem_index_delete_ok (fid : kvs_fid_t) (m m1 : MemKvs)
    (h : mem_kvs_ops.index_delete fid m = (0, m1)) :
    m1.kv = m.kv.filter (fun x => ¬ (x.1 = fid_handle fid)) := by
  obtain ⟨kv, indices, plan, brk⟩ := m
  cases plan with
  | nil =>
    by_cases hl : fid ∈ indices
    · simp [mem_kvs_ops, MemKvs.next_rc, hl] at h
      rw [← h]; simp
    · simp [mem_kvs_ops, MemKvs.next_rc, hl, ENOENT] at h
  | cons c cs =>
    by_cases hc : c = 0
    · subst hc
      by_cases hl : fid ∈ indices
      · simp [mem_kvs_ops, MemKvs.next_rc, hl] at h
        rw [← h]; simp
      · simp [mem_kvs_ops, MemKvs.next_rc, hl, ENOENT] at h
    · simp [mem_kvs_ops, MemKvs.next_rc, hc] at h

/-- A later `ns_scan` call that leaves the handle non-null: the backend `advance`
returned 0, and the record of the new handle is the one of the old handle or
the value the backend gives at the new position. -/
theorem ns_scan_next_yields (w w1 : World σ ι) (ops : kvstore_ops σ ι)
    (it it1 : ns_itr ι) (kit : kvs_itr ι) (rc : Int)
    (hops : w.g_kvstore.kvstore_ops = some ops)
    (hkit : it.kvs_iter = some kit)
    (h : ns_scan (some it) w = .ok ((rc, some it1), w1)) :
    w1.g_kvstore = w.g_kvstore ∧
    ∃ kitn t1, ops.kv_next kit w.backend = ((0, kitn), t1) ∧
      it1.kvs_iter = some { kitn with addr := kit.addr } ∧
      (it1.ns = it.ns ∨
        it1.ns = some (ops.kv_get { kitn with addr := kit.addr } t1).1.2) := by
  rcases hN : ops.kv_next kit w.backend with ⟨⟨rcn, kitn⟩, t1⟩
  rcases hG : ops.kv_get { kitn with addr := kit.addr } t1 with ⟨⟨key, val⟩, t2⟩
  by_cases h1 : rcn = 0
  · subst h1
    by_cases h2 : val.bytes.length = sizeof_namespace
    · simp [ns_scan, kvs_itr_next, kvs_itr_get, kvs_free, bound_ops, dassert, kvstore_get,
        World.fwd, hops, hkit, hN, hG, h2, bind, Except.bind, pure, Except.pure] at h
      obtain ⟨⟨_, h3⟩, h4⟩ := h
      subst h3 h4
      exact ⟨rfl, kitn, t1, rfl, rfl, Or.inr (by simp [hG])⟩
    · simp [ns_scan, kvs_itr_next, kvs_itr_get, kvs_free, bound_ops, dassert, kvstore_get,
        World.fwd, hops, hkit, hN, hG, h2, bind, Except.bind, pure, Except.pure] at h
      obtain ⟨⟨_, h3⟩, h4⟩ := h
      subst h3 h4
      exact ⟨rfl, kitn, t1, rfl, rfl, Or.inl rfl⟩
  · simp [ns_scan, kvs_itr_next, kvs_itr_fini, kvs_free, bound_ops, dassert, kvstore_get,
      World.fwd, hops, hkit, hN, h1, bind, Except.bind, pure, Except.pure] at h

/-- A first `ns_scan` call that leaves the handle non-null: the three
allocations succeeded, the backend `find` under the NS_INFO prefix returned 0,
and the record of the handle is the value the backend gives at that
position. -/
theorem ns_scan_first_yields (w w1 : World σ ι) (ops : kvstore_ops σ ι)
    (it1 : ns_itr ι) (rc : Int)
    (hops : w.g_kvstore.kvstore_ops = some ops)
    (h : ns_scan none w = .ok ((rc, some it1), w1)) :
    w1.g_kvstore = w.g_kvstore ∧
    ∃ p3 kitf s4,
      ops.kv_find
        { addr := p3, idx_priv := w.g_ns_index.index_priv, pfx := info_pfx, inner_rc := 0,
          priv := none }
        (ops.alloc sizeof_kvs_itr
          (ops.alloc sizeof_ns_itr (ops.alloc sizeof_ns_key w.backend).2).2).2
        = ((0, kitf), s4) ∧
      it1.kvs_iter = some { kitf with addr := p3 } ∧
      it1.ns = some (ops.kv_get { kitf with addr := p3 } s4).1.2 := by
  have hpfx : ( key_prefix.bytes { k_type := NS_KEY_TYPE_NS_INFO, k_version := NS_VERSION_0 }).take
      psize = info_pfx := rfl
  rcases hA1 : ops.alloc sizeof_ns_key w.backend with ⟨⟨rc1, p1⟩, s1⟩
  rcases hA2 : ops.alloc sizeof_ns_itr s1 with ⟨⟨rc2, p2⟩, s2⟩
  rcases hA3 : ops.alloc sizeof_kvs_itr s2 with ⟨⟨rc3, p3⟩, s3⟩
  rcases hF : ops.kv_find
      { addr := p3, idx_priv := w.g_ns_index.index_priv, pfx := info_pfx, inner_rc := 0,
        priv := none } s3 with ⟨⟨rcf, kitf⟩, s4⟩
  rcases hG : ops.kv_get { kitf with addr := p3 } s4 with ⟨⟨key, val⟩, t2⟩
  by_cases h1 : rc1 = 0
  swap
  · simp [ns_scan, kvs_alloc, bound_ops, dassert, kvstore_get, World.fwd, hops, hA1, h1,
      bind, Except.bind, pure, Except.pure] at h
  subst h1
  by_cases hp1 : p1 = 0
  · simp [ns_scan, kvs_alloc, bound_ops, dassert, kvstore_get, World.fwd, hops, hA1, hp1,
      bind, Except.bind, pure, Except.pure] at h
  by_cases h2 : rc2 = 0
  swap
  · simp [ns_scan, kvs_alloc, bound_ops, dassert, kvstore_get, World.fwd, hops, hA1, hp1,
      hA2, h2, bind, Except.bind, pure, Except.pure] at h
  subst h2
  by_cases h3 : rc3 = 0
  swap
  · simp [ns_scan, kvs_alloc, kvs_itr_find, bound_ops, dassert, kvstore_get, World.fwd, hops,
      hA1, hp1, hA2, hA3, h3, bind, Except.bind, pure, Except.pure] at h
  subst h3
  by_cases hp3 : p3 = 0
  · simp [ns_scan, kvs_alloc, kvs_itr_find, bound_ops, dassert, kvstore_get, World.fwd, hops,
      hA1, hp1, hA2, hA3, hp3, bind, Except.bind, pure, Except.pure] at h
  by_cases h4 : rcf = 0
  swap
  · simp [ns_scan, kvs_alloc, kvs_itr_find, bound_ops, dassert, kvstore_get, World.fwd, hops,
      hA1, hp1, hA2, hA3, hp3, hpfx, hF, h4, bind, Except.bind, pure, Except.pure] at h
  subst h4
  by_cases h5 : val.bytes.length = sizeof_namespace
  swap
  · simp [ns_scan, kvs_alloc, kvs_itr_find, kvs_itr_get, bound_ops, dassert, kvstore_get,
      World.fwd, hops, hA1, hp1, hA2, hA3, hp3, hpfx, hF, hG, h5, bind, Except.bind, pure,
      Except.pure] at h
  by_cases hp2 : p2 = 0
  · simp [ns_scan, kvs_alloc, kvs_itr_find, kvs_itr_get, kvs_free, bound_ops, dassert,
      kvstore_get, World.fwd, hops, hA1, hp1, hA2, hA3, hp3, hpfx, hF, hG, h5, hp2, bind,
      Except.bind, pure, Except.pure] at h
  simp [ns_scan, kvs_alloc, kvs_itr_find, kvs_itr_get, kvs_free, bound_ops, dassert,
    kvstore_get, World.fwd, hops, hA1, hp1, hA2, hA3, hp3, hpfx, hF, hG, h5, hp2, bind,
    Except.bind, pure, Except.pure] at h
  obtain ⟨⟨_, h6⟩, h7⟩ := h
  subst h6 h7
  exact ⟨rfl, p3, kitf, s4, hF, rfl, by simp [hG]⟩

theorem mem_kv_next_ok (kit kitn : kvs_itr MemCursor) (m t1 : MemKvs)
    (h : mem_kvs_ops.kv_next kit m = ((0, kitn), t1)) :
    ∃ x e es, kit.priv = some (x :: e :: es) ∧ kitn.priv = some (e :: es) := by
  obtain ⟨a, ip, pf, irc, priv⟩ := kit
  obtain ⟨kv, indices, plan, brk⟩ := m
  have hc : (MemKvs.next_rc { kv := kv, indices := indices, plan := plan, brk := brk }).1 = 0 := by
    by_contra hne
    simp [mem_kvs_ops, hne] at h
  rcases priv with _ | (_ | ⟨x, _ | ⟨e, es⟩⟩)
  · simp [mem_kvs_ops, hc, ENOENT] at h
  · simp [mem_kvs_ops, hc, ENOENT] at h
  · simp [mem_kvs_ops, hc, ENOENT] at h
  · simp [mem_kvs_ops, hc] at h
    exact ⟨x, e, es, rfl, by rw [← h.1]⟩

theorem mem_kv_get_val (kit : kvs_itr MemCursor) (m : MemKvs) (e : Bytes × Bytes)
    (es : MemCursor) (a : Nat) (hp : kit.priv = some (e :: es)) :
    (mem_kvs_ops.kv_get { kit with addr := a } m).1.2.bytes = e.2 := by
  obtain ⟨k, v⟩ := e
  simp [mem_kvs_ops, hp, MemKvs.fresh]

theorem mem_kv_find_ok (it kitf : kvs_itr MemCursor) (m s4 : MemKvs)
    (h : mem_kvs_ops.kv_find it m = ((0, kitf), s4)) :
    ∃ e es, kitf.priv = some (e :: es) ∧
      e :: es = (m.kv.filter (fun e => e.1 = it.idx_priv ∧ it.pfx.isPrefixOf e.2.1)).map
        (fun e => e.2) := by
  have key : ∀ m0 : MemKvs, m0.kv = m.kv →
      (match m0.matching it.idx_priv it.pfx with
        | [] => ((-ENOENT, { it with inner_rc := -ENOENT, priv := some [] }), m0)
        | e :: es => ((0, { it with inner_rc := 0, priv := some (e :: es) }), m0))
        = ((0, kitf), s4) →
      ∃ e es, kitf.priv = some (e :: es) ∧
        e :: es = (m.kv.filter (fun e => e.1 = it.idx_priv ∧ it.pfx.isPrefixOf e.2.1)).map
          (fun e => e.2) := by
    intro m0 hkv h0
    have hm : m0.matching it.idx_priv it.pfx
        = (m.kv.filter (fun e => e.1 = it.idx_priv ∧ it.pfx.isPrefixOf e.2.1)).map
          (fun e => e.2) := by
      simp [MemKvs.matching, hkv]
    rw [← hm]
    cases hc : m0.matching it.idx_priv it.pfx with
    | nil => simp [hc, ENOENT] at h0
    | cons e es =>
      simp only [hc, Prod.mk.injEq] at h0
      exact ⟨e, es, by rw [← h0.1.2], rfl⟩
  obtain ⟨kv, indices, plan, brk⟩ := m
  cases plan with
  | nil =>
    exact key { kv := kv, indices := indices, plan := [], brk := brk } rfl
      (by simpa [mem_kvs_ops, MemKvs.next_rc] using h)
  | cons c cs =>
    by_cases hc : c = 0
    · subst hc
      exact key { kv := kv, indices := indices, plan := cs, brk := brk } rfl
        (by simpa [mem_kvs_ops, MemKvs.next_rc] using h)
    · simp [mem_kvs_ops, MemKvs.next_rc, hc] at h

/-! ### `ns_create` -/

/-- What `ns_next_id` leaves alone: it changes the world only through the backend
operations `alloc`, `get`, `set` of the counter key and `free`, so it preserves
every property of the backend state that these four preserve, and the globals. -/
theorem ns_next_id_preserves (P : σ → Prop) (w w1 : World σ ι) (ops : kvstore_ops σ ι)
    (r : Int × Option Nat)
    (hops : w.g_kvstore.kvstore_ops = some ops)
    (halloc : ∀ n s, P s → P (ops.alloc n s).2)
    (hget : ∀ i k s, P s → P (ops.get_bin i k s).2)
    (hset : ∀ v s, P s → P (ops.set_bin w.g_ns_index counter_key v s).2)
    (hfree : ∀ a s, P s → P (ops.free a s))
    (hP : P w.backend)
    (h : ns_next_id w = .ok (r, w1)) :
    P w1.backend ∧ w1.g_kvstore = w.g_kvstore ∧ w1.g_ns_index = w.g_ns_index ∧
      w1.ns_fid_str = w.ns_fid_str ∧ w1.ext = w.ext := by
  have hk : (NS_KEY_PREFIX_INIT NS_KEY_TYPE_NS_ID_NEXT).bytes = counter_key := rfl
  have pA := halloc sizeof_key_prefix w.backend hP
  rcases hA : ops.alloc sizeof_key_prefix w.backend with ⟨⟨rcA, p⟩, s1⟩
  rw [hA] at pA
  have pG := hget w.g_ns_index counter_key s1 pA
  rcases hG : ops.get_bin w.g_ns_index counter_key s1 with ⟨⟨rcG, vp⟩, s2⟩
  rw [hG] at pG
  simp only at pA pG
  by_cases h1 : rcA = 0
  swap
  · simp [ns_next_id, kvs_alloc, bound_ops, dassert, kvstore_get, World.fwd, hops, hA, h1,
      bind, Except.bind, pure, Except.pure] at h
    rw [← h.2]
    exact ⟨pA, rfl, rfl, rfl, rfl⟩
  subst h1
  by_cases hp : p = 0
  · simp [ns_next_id, kvs_alloc, bound_ops, dassert, kvstore_get, World.fwd, hops, hA, hp,
      bind, Except.bind, pure, Except.pure] at h
  have tail : ∀ v : Nat, P (ops.set_bin w.g_ns_index counter_key (le_bytes 4 v) s2).2 :=
    fun v => hset _ _ pG
  by_cases h2 : rcG = 0
  · subst h2
    cases vp with
    | none =>
      simp [ns_next_id, kvs_alloc, kvs_get, bound_ops, dassert, kvstore_get, World.fwd, hops,
        hA, hp, hk, hG, bind, Except.bind, pure, Except.pure] at h
    | some b =>
      by_cases hlen : b.bytes.length < 4
      · simp [ns_next_id, kvs_alloc, kvs_get, bound_ops, dassert, kvstore_get, World.fwd, hops,
          hA, hp, hk, hG, hlen, bind, Except.bind, pure, Except.pure] at h
      · simp [ns_next_id, kvs_alloc, kvs_get, kvs_set, kvs_free, bound_ops, dassert,
          kvstore_get, World.fwd, hops, hA, hp, hk, hG, hlen, bind, Except.bind, pure,
          Except.pure] at h
        rw [← h.2]
        exact ⟨hfree _ _ (hfree _ _ (tail _)), rfl, rfl, rfl, rfl⟩
  · by_cases h3 : rcG = -ENOENT
    · subst h3
      cases vp with
      | some b =>
        simp [ns_next_id, kvs_alloc, kvs_get, bound_ops, dassert, kvstore_get, World.fwd, hops,
          hA, hp, hk, hG, ENOENT, bind, Except.bind, pure, Except.pure] at h
      | none =>
        simp [ns_next_id, kvs_alloc, kvs_get, kvs_set, kvs_free, bound_ops, dassert,
          kvstore_get, World.fwd, hops, hA, hp, hk, hG, ENOENT, bind, Except.bind, pure,
          Except.pure] at h
        rw [← h.2]
        exact ⟨hfree _ _ (tail _), rfl, rfl, rfl, rfl⟩
    · cases vp with
      | some b =>
        simp [ns_next_id, kvs_alloc, kvs_get, kvs_free, bound_ops, dassert, kvstore_get,
          World.fwd, hops, hA, hp, hk, hG, h2, h3, bind, Except.bind, pure, Except.pure] at h
        rw [← h.2]
        exact ⟨hfree _ _ (hfree _ _ pG), rfl, rfl, rfl, rfl⟩
      | none =>
        simp [ns_next_id, kvs_alloc, kvs_get, kvs_free, bound_ops, dassert, kvstore_get,
          World.fwd, hops, hA, hp, hk, hG, h2, h3, bind, Except.bind, pure, Except.pure] at h
        rw [← h.2]
        exact ⟨hfree _ _ pG, rfl, rfl, rfl, rfl⟩

/-- A successful `ns_create` created the object index: the id came from
`ns_next_id`, the fid is the parsed template with `f_lo` set to the id, the
backend `index_create` of that fid returned 0 in the state `ns_next_id` left,
and the record returned carries that fid. -/
theorem ns_create_ok_path (w w1 : World σ ι) (ops : kvstore_ops σ ι) (name : str256_t)
    (ns : ns_ref)
    (hops : w.g_kvstore.kvstore_ops = some ops)
    (hpres : ∀ r w2, ns_next_id w = .ok (r, w2) →
      w2.g_kvstore = w.g_kvstore ∧ w2.ns_fid_str = w.ns_fid_str ∧ w2.ext = w.ext)
    (h : ns_create name w = .ok ((0, some ns), w1)) :
    ∃ id w2 idx s,
      ns_next_id w = .ok ((0, id), w2) ∧
      ops.index_create ns.obj.nsobj_fid w2.backend = ((0, idx), s) ∧
      ns.obj.nsobj_fid = { (w.ext.cortx_kvs_fid_from_str w.ns_fid_str).2 with f_lo := id.getD 0 } ∧
      ns.obj.nsobj_id = id.getD 0 ∧ ns.obj.ns_name = name := by
  by_cases hv : w.ext.str256_isalphanum name = 0
  swap
  · simp [ns_create, dassert, kvstore_get, hv, bind, Except.bind, pure, Except.pure] at h
  cases hn : ns_next_id w with
  | error f =>
    simp [ns_create, dassert, kvstore_get, hv, hn, bind, Except.bind, pure, Except.pure] at h
  | ok r =>
    obtain ⟨⟨rcN, id⟩, w2⟩ := r
    obtain ⟨hk2, hf2, he2⟩ := hpres _ _ hn
    have hops2 : w2.g_kvstore.kvstore_ops = some ops := hk2 ▸ hops
    by_cases h1 : rcN = 0
    swap
    · simp [ns_create, dassert, kvstore_get, hv, hn, h1, bind, Except.bind, pure,
        Except.pure] at h
    subst h1
    rcases hF : w.ext.cortx_kvs_fid_from_str w.ns_fid_str with ⟨rcF, fid0⟩
    have hF2 : w2.ext.cortx_kvs_fid_from_str w2.ns_fid_str = (rcF, fid0) := by
      rw [he2, hf2, hF]
    by_cases h2 : rcF = 0
    swap
    · simp [ns_create, kvs_fid_from_str, dassert, kvstore_get, hv, hn, hF2, h2, bind,
        Except.bind, pure, Except.pure] at h
    subst h2
    rcases hI : ops.index_create { fid0 with f_lo := id.getD 0 } w2.backend
      with ⟨⟨rcI, idx⟩, s3⟩
    by_cases h3 : rcI = 0
    swap
    · simp [ns_create, kvs_fid_from_str, kvs_index_create, bound_ops, dassert, kvstore_get,
        World.fwd, hv, hn, hF2, hops2, hI, h3, bind, Except.bind, pure, Except.pure] at h
    subst h3
    rcases hA1 : ops.alloc sizeof_namespace s3 with ⟨⟨rcA1, p1⟩, s4⟩
    by_cases h4 : rcA1 = 0
    swap
    · simp [ns_create, kvs_fid_from_str, kvs_index_create, kvs_alloc, bound_ops, dassert,
        kvstore_get, World.fwd, hv, hn, hF2, hops2, hI, hA1, h4, bind, Except.bind, pure,
        Except.pure] at h
    subst h4
    by_cases hp1 : p1 = 0
    · simp [ns_create, kvs_fid_from_str, kvs_index_create, kvs_alloc, bound_ops, dassert,
        kvstore_get, World.fwd, hv, hn, hF2, hops2, hI, hA1, hp1, bind, Except.bind, pure,
        Except.pure] at h
    rcases hA2 : ops.alloc sizeof_ns_key s4 with ⟨⟨rcA2, p2⟩, s5⟩
    by_cases h5 : rcA2 = 0
    swap
    · simp [ns_create, kvs_fid_from_str, kvs_index_create, kvs_alloc, bound_ops, dassert,
        kvstore_get, World.fwd, hv, hn, hF2, hops2, hI, hA1, hp1, hA2, h5, bind, Except.bind,
        pure, Except.pure] at h
    subst h5
    by_cases hp2 : p2 = 0
    · simp [ns_create, kvs_fid_from_str, kvs_index_create, kvs_alloc, bound_ops, dassert,
        kvstore_get, World.fwd, hv, hn, hF2, hops2, hI, hA1, hp1, hA2, hp2, bind, Except.bind,
        pure, Except.pure] at h
    simp [ns_create, kvs_fid_from_str, kvs_index_create, kvs_alloc, kvs_set, kvs_free,
      bound_ops, dassert, kvstore_get, World.fwd, hv, hn, hF2, hops2, hI, hA1, hp1, hA2, hp2,
      bind, Except.bind, pure, Except.pure] at h
    obtain ⟨⟨_, hns⟩, _⟩ := h
    subst hns
    exact ⟨id, w2, idx, s3, rfl, hI, rfl, rfl, rfl⟩

theorem mem_index_create_ok (fid : kvs_fid_t) (idx : kvs_idx) (m m1 : MemKvs)
    (h : mem_kvs_ops.index_create fid m = ((0, idx), m1)) : fid ∉ m.indices := by
  obtain ⟨kv, indices, plan, brk⟩ := m
  intro hin
  cases plan with
  | nil => simp [mem_kvs_ops, MemKvs.next_rc, hin] at h
  | cons c cs =>
    by_cases hc : c = 0
    · subst hc
      simp [mem_kvs_ops, MemKvs.next_rc, hin] at h
    · simp [mem_kvs_ops, MemKvs.next_rc, hc] at h

theorem mem_next_rc_indices (m : MemKvs) : m.next_rc.2.indices = m.indices := by
  obtain ⟨kv, indices, plan, brk⟩ := m
  cases plan <;> rfl

theorem mem_alloc_indices (n : Nat) (m : MemKvs) :
    (mem_kvs_ops.alloc n m).2.indices = m.indices := by
  obtain ⟨kv, indices, plan, brk⟩ := m
  cases plan with
  | nil => simp [mem_kvs_ops, MemKvs.next_rc, MemKvs.fresh]
  | cons c cs =>
    by_cases hc : c = 0 <;> simp [mem_kvs_ops, MemKvs.next_rc, MemKvs.fresh, hc]

theorem mem_get_indices (i : kvs_idx) (k : Bytes) (m : MemKvs) :
    (mem_kvs_ops.get_bin i k m).2.indices = m.indices := by
  obtain ⟨kv, indices, plan, brk⟩ := m
  cases plan with
  | nil =>
    cases hl : kv_lookup i.index_priv k kv <;>
      simp [mem_kvs_ops, MemKvs.next_rc, MemKvs.fresh, MemKvs.lookup, hl]
  | cons c cs =>
    by_cases hc : c = 0
    · cases hl : kv_lookup i.index_priv k kv <;>
        simp [mem_kvs_ops, MemKvs.next_rc, MemKvs.fresh, MemKvs.lookup, hl, hc]
    · simp [mem_kvs_ops, MemKvs.next_rc, hc]

theorem mem_set_indices (i : kvs_idx) (k v : Bytes) (m : MemKvs) :
    (mem_kvs_ops.set_bin i k v m).2.indices = m.indices := by
  obtain ⟨kv, indices, plan, brk⟩ := m
  cases plan with
  | nil => simp [mem_kvs_ops, MemKvs.next_rc, MemKvs.upsert]
  | cons c cs =>
    by_cases hc : c = 0 <;> simp [mem_kvs_ops, MemKvs.next_rc, MemKvs.upsert, hc]

/-- On the in-memory backend, a record a successful `ns_create` returns has an
object fid that is not the fid of the directory index, when that index exists
in the backend. -/
theorem ns_create_fid_not_directory (w w1 : World MemKvs MemCursor) (name : str256_t)
    (ns : ns_ref)
    (hops : w.g_kvstore.kvstore_ops = some mem_kvs_ops)
    (hdir : w.g_ns_index.index_fid ∈ w.backend.indices)
    (h : ns_create name w = .ok ((0, some ns), w1)) :
    ns.obj.nsobj_fid ≠ w.g_ns_index.index_fid := by
  have hpres : ∀ r w2, ns_next_id w = .ok (r, w2) →
      w2.backend.indices = w.backend.indices ∧ w2.g_kvstore = w.g_kvstore ∧
        w2.g_ns_index = w.g_ns_index ∧ w2.ns_fid_str = w.ns_fid_str ∧ w2.ext = w.ext :=
    fun r w2 hn =>
      ns_next_id_preserves (fun s => s.indices = w.backend.indices) w w2 mem_kvs_ops r hops
        (fun n s hs => (mem_alloc_indices n s).trans hs)
        (fun i k s hs => (mem_get_indices i k s).trans hs)
        (fun v s hs => (mem_set_indices _ _ v s).trans hs)
        (fun _ _ hs => hs) rfl hn
  obtain ⟨id, w2, idx, s, hn, hI, _, _, _⟩ := ns_create_ok_path w w1 mem_kvs_ops name ns hops
    (fun r w2 hn => ⟨(hpres r w2 hn).2.1, (hpres r w2 hn).2.2.2.1, (hpres r w2 hn).2.2.2.2⟩) h
  have hnot := mem_index_create_ok _ _ _ _ hI
  rw [(hpres _ _ hn).1] at hnot
  intro heq
  exact hnot (heq ▸ hdir)

/-! ### Key schema -/

/-- C11: prefix isolation of the key schema. For every namespace id the bytes
of the NS_INFO key built by `NS_KEY_INIT` start with the 2-byte NS_INFO prefix
`[1, 0]`, which is the prefix `ns_scan` hands to `kvs_itr_find`; the NS_ID_NEXT
counter key built by `NS_KEY_PREFIX_INIT` is `[2, 0]` and does not start with
the NS_INFO prefix; no NS_INFO key starts with the NS_ID_NEXT prefix. Hence on
the in-memory backend the entries matching the NS_INFO prefix never include an
entry under the counter key, and the entries matching the NS_ID_NEXT prefix
never include an entry under an NS_INFO key. -/
theorem key_schema_isolation (id : Nat) :
    info_pfx = [1, 0] ∧
    (( key_prefix.bytes { k_type := NS_KEY_TYPE_NS_INFO, k_version := NS_VERSION_0 }).take psize
      = info_pfx) ∧
    info_pfx <+: ns_info_key id ∧
    counter_key = [2, 0] ∧
    ¬ (info_pfx <+: counter_key) ∧
    ¬ (counter_key <+: ns_info_key id) ∧
    (∀ (m : MemKvs) (h : Nat) (v : Bytes), (counter_key, v) ∉ m.matching h info_pfx) ∧
    (∀ (m : MemKvs) (h : Nat) (v : Bytes), (ns_info_key id, v) ∉ m.matching h counter_key) := by
  have hkey : ns_info_key id = [1, 0] ++ le_bytes 4 id := rfl
  have hinfo : info_pfx = [1, 0] := rfl
  have hctr : counter_key = [2, 0] := rfl
  refine ⟨rfl, rfl, ?_, rfl, ?_, ?_, ?_, ?_⟩
  · rw [hkey, hinfo]
    exact List.prefix_append _ _
  · rw [hinfo, hctr]
    decide
  · rw [hkey, hctr]
    rintro ⟨t, ht⟩
    simp at ht
  · intro m h v hmem
    obtain ⟨e, he, heq⟩ := List.mem_map.mp hmem
    have hq := (List.mem_filter.mp he).2
    simp only [decide_eq_true_eq] at hq
    have h2 : e.2.1 = counter_key := by rw [heq]
    rw [h2, hinfo, hctr] at hq
    exact absurd hq.2 (by decide)
  · intro m h v hmem
    obtain ⟨e, he, heq⟩ := List.mem_map.mp hmem
    have hq := (List.mem_filter.mp he).2
    simp only [decide_eq_true_eq] at hq
    have h2 : e.2.1 = ns_info_key id := by rw [heq]
    rw [h2, hkey, hctr] at hq
    simp [List.isPrefixOf] at hq

/-! ### `ns_fini` -/

/-- C12, the code at the failing input: the backend close of the directory
index returns `-5`, the close is forwarded, and `ns_fini` returns 0. -/
theorem ns_fini_drops_close_result :
    (mem_kvs_ops.index_close (world_mem (mem_dir [] [-5])).g_ns_index (mem_dir [] [-5])).1 = -5 ∧
    (ns_fini (world_mem (mem_dir [] [-5]))).map (fun r => (r.1, r.2.trace))
      = .ok (0, [Call.index_close (world_mem (mem_dir [] [-5])).g_ns_index]) :=
  ⟨rfl, rfl⟩

/-- C16: for every name the validator rejects (a non-zero result), `ns_create`
returns the validator's result, does not assign the output record pointer, and
the world after the call is the world before it: nothing is forwarded to the
backend (no `ns_next_id`, no index creation, no write), so the directory index
and the NS_ID_NEXT counter are as they were and no id is consumed. -/
theorem ns_create_invalid_name (w : World σ ι) (name : str256_t)
    (hname : w.ext.str256_isalphanum name ≠ 0) :
    ns_create name w = .ok ((w.ext.str256_isalphanum name, none), w) := by
  simp [ns_create, dassert, kvstore_get, hname, bind, Except.bind, pure, Except.pure]

/-- C16, an instance: the name "a-b" on the in-memory backend with an empty
directory. -/
theorem ns_create_invalid_name_witness :
    ns_create (name_of [97, 45, 98]) (world_mem (mem_dir [] []))
      = .ok ((-EINVAL, none), world_mem (mem_dir [] [])) :=
  ns_create_invalid_name (world_mem (mem_dir [] [])) (name_of [97, 45, 98]) (by decide)

/-- The NS_INFO key `ns_delete` builds from the id truncated to 32 bits is the
NS_INFO key of the id. -/
theorem ns_info_key_mod (id : Nat) :
    (NS_KEY_INIT (id % 2 ^ 32) NS_KEY_TYPE_NS_INFO).bytes = ns_info_key id := by
  simp only [ns_info_key, NS_KEY_INIT, ns_key.bytes]
  have := le_bytes_mod 4 id
  norm_num at this ⊢
  exact this

/-- C13: `ns_delete` removes the directory entry before it destroys the backing
index. In every execution that returns, if an index delete was forwarded then
the backend delete of the NS_INFO key had returned 0 and the calls forwarded
begin with the key allocation, that delete, and then the index delete of the
record's object fid. And when the key buffer is allocated and the backend
delete of the NS_INFO key fails with `e`, `ns_delete` returns `e` and forwards
after the failed delete only the release of the key buffer: no index delete
(the object index is left as it is) and no release of the record. -/
theorem ns_delete_entry_before_index (w : World σ ι) (ops : kvstore_ops σ ι) (ns : ns_ref)
    (hops : w.g_kvstore.kvstore_ops = some ops) :
    (∀ r w1, ns_delete (some ns) w = .ok (r, w1) →
      (∃ fid, Call.index_delete fid ∈ w1.trace.drop w.trace.length) →
      (ops.del_bin w.g_ns_index (ns_info_key ns.obj.nsobj_id)
          (ops.alloc sizeof_ns_key w.backend).2).1 = 0 ∧
        ∃ rest, w1.trace = w.trace ++
          [Call.alloc sizeof_ns_key,
           Call.del_bin w.g_ns_index (ns_info_key ns.obj.nsobj_id),
           Call.index_delete ns.obj.nsobj_fid] ++ rest) ∧
    (∀ p s1 e s2, ops.alloc sizeof_ns_key w.backend = ((0, p), s1) → p ≠ 0 →
      ops.del_bin w.g_ns_index (ns_info_key ns.obj.nsobj_id) s1 = (e, s2) → e ≠ 0 →
      ns_delete (some ns) w = .ok (e,
        { w with
          backend := ops.free p s2,
          trace := w.trace ++
            [Call.alloc sizeof_ns_key,
             Call.del_bin w.g_ns_index (ns_info_key ns.obj.nsobj_id),
             Call.free p] })) := by
  have hkey := ns_info_key_mod ns.obj.nsobj_id
  simp only [Nat.reducePow] at hkey
  constructor
  · intro r w1 h hex
    rcases hA : ops.alloc sizeof_ns_key w.backend with ⟨⟨rcA, p⟩, s1⟩
    rcases hD : ops.del_bin w.g_ns_index (ns_info_key ns.obj.nsobj_id) s1 with ⟨rcD, s2⟩
    rcases hI : ops.index_delete ns.obj.nsobj_fid s2 with ⟨rcI, s3⟩
    by_cases h1 : rcA = 0
    swap
    · simp [ns_delete, kvs_alloc, bound_ops, dassert, kvstore_get, World.fwd, hops, hA, h1,
        bind, Except.bind, pure, Except.pure] at h
      rw [← h.2] at hex
      simp at hex
    subst h1
    by_cases hp : p = 0
    · simp [ns_delete, kvs_alloc, bound_ops, dassert, kvstore_get, World.fwd, hops, hA, hp,
        bind, Except.bind, pure, Except.pure] at h
    by_cases h2 : rcD = 0
    swap
    · simp [ns_delete, kvs_alloc, kvs_del, kvs_free, bound_ops, dassert, kvstore_get,
        World.fwd, hops, hA, hp, hkey, hD, h2, bind, Except.bind, pure, Except.pure] at h
      rw [← h.2] at hex
      simp at hex
    subst h2
    refine ⟨rfl, ?_⟩
    by_cases h3 : rcI = 0
    · subst h3
      simp [ns_delete, kvs_alloc, kvs_del, kvs_index_delete, kvs_free, bound_ops, dassert,
        kvstore_get, World.fwd, hops, hA, hp, hkey, hD, hI, bind, Except.bind, pure,
        Except.pure] at h
      rw [← h.2]
      exact ⟨[Call.free ns.addr, Call.free p], by simp⟩
    · simp [ns_delete, kvs_alloc, kvs_del, kvs_index_delete, kvs_free, bound_ops, dassert,
        kvstore_get, World.fwd, hops, hA, hp, hkey, hD, hI, h3, bind, Except.bind, pure,
        Except.pure] at h
      rw [← h.2]
      exact ⟨[], by simp⟩
  · intro p s1 e s2 hA hp hD he
    simp [ns_delete, kvs_alloc, kvs_del, kvs_free, bound_ops, dassert, kvstore_get,
      World.fwd, hops, hA, hp, hkey, hD, he, bind, Except.bind, pure, Except.pure]
/-- C13, an instance on the in-memory backend: the backend delete of the
NS_INFO key fails with `-5`; `ns_delete` returns `-5`, the calls forwarded are
the allocation, the delete and the release of the key buffer, and the indexes
and entries of the backend are as before. -/
theorem ns_delete_entry_before_index_witness :
    (ns_delete (some ⟨4, record_of 3 [97, 98, 99]⟩)
        (world_mem { mem_one with plan := [0, -5] })).map
        (fun r => (r.1, r.2.trace, r.2.backend.indices, r.2.backend.kv))
      = .ok (-5,
          [Call.alloc 6, Call.del_bin ⟨dir_fid, fid_handle dir_fid⟩ (ns_info_key 3),
           Call.free 401],
          mem_one.indices, mem_one.kv) := by
  rw [(ns_delete_entry_before_index (world_mem { mem_one with plan := [0, -5] }) mem_kvs_ops
    ⟨4, record_of 3 [97, 98, 99]⟩ rfl).2 401 _ (-5) _ rfl (by decide) rfl (by decide)]
  rfl

/-! ### Dispatch before `kvs_init` -/

/-- C14, the code before `kvs_init`: with no operation table bound and
`kvs_init_done` false, every forwarding operation called on the singleton
store passes its `dassert(kvstore)` and stops at the dereference of the null
operation table, not at an assertion; `kvs_fini`, which asserts the table,
stops at its assertion. -/
theorem dispatch_before_init_null_deref (m : MemKvs) (n a : Nat) (idx : kvs_idx)
    (fid : kvs_fid_t) (k v : Bytes) (it : kvs_itr MemCursor) :
    (world_uninit m).kvs_init_done = false ∧
    (world_uninit m).g_kvstore.kvstore_ops.isNone = true ∧
    kvs_alloc kvstore_get n (world_uninit m) = .error Fault.null_deref ∧
    kvs_free kvstore_get a (world_uninit m) = .error Fault.null_deref ∧
    kvs_get kvstore_get idx k (world_uninit m) = .error Fault.null_deref ∧
    kvs_set kvstore_get idx k v (world_uninit m) = .error Fault.null_deref ∧
    kvs_del kvstore_get idx k (world_uninit m) = .error Fault.null_deref ∧
    kvs_begin_transaction kvstore_get idx (world_uninit m) = .error Fault.null_deref ∧
    kvs_end_transaction kvstore_get idx (world_uninit m) = .error Fault.null_deref ∧
    kvs_discard_transaction kvstore_get idx (world_uninit m) = .error Fault.null_deref ∧
    kvs_index_create kvstore_get fid (world_uninit m) = .error Fault.null_deref ∧
    kvs_index_delete kvstore_get fid (world_uninit m) = .error Fault.null_deref ∧
    kvs_index_open kvstore_get fid (world_uninit m) = .error Fault.null_deref ∧
    kvs_index_close kvstore_get idx (world_uninit m) = .error Fault.null_deref ∧
    kvs_idx_gen_fid kvstore_get (world_uninit m) = .error Fault.null_deref ∧
    kvs_itr_find kvstore_get idx k (world_uninit m) = .error Fault.null_deref ∧
    kvs_itr_next kvstore_get it (world_uninit m) = .error Fault.null_deref ∧
    kvs_itr_get kvstore_get it (world_uninit m) = .error Fault.null_deref ∧
    kvs_itr_fini kvstore_get it (world_uninit m) = .error Fault.null_deref ∧
    kvs_fini kvstore_get (world_uninit m) = .error Fault.assertion :=
  ⟨rfl, rfl, rfl, rfl, rfl, rfl, rfl, rfl, rfl, rfl, rfl, rfl, rfl, rfl, rfl, rfl, rfl, rfl,
    rfl, rfl⟩

/-- C17: `ns_next_id` on failure, once the key buffer is allocated. Let `stored`
be any observation of the backend state (such as the value under the
NS_ID_NEXT key) that the allocation and the `get` of this run, every `free`,
and every failed `set` leave unchanged. (a) When the backend `get` fails with a
code other than 0 and `-ENOENT`, `ns_next_id` returns that code with the output
id unassigned, and forwards the allocation, the `get` and the releases only: no
write. (b) When the `get` gives a value or NotFound and the backend `set` fails
with `e`, `ns_next_id` returns `e` with the output id unassigned. In both
cases the observation is the same after the call as before. -/
theorem ns_next_id_failure {α : Type} (stored : σ → α) (w : World σ ι)
    (ops : kvstore_ops σ ι) (p : Nat) (s1 s2 : σ) (rcg : Int) (vp : Option Blk)
    (hops : w.g_kvstore.kvstore_ops = some ops)
    (halloc : ops.alloc sizeof_key_prefix w.backend = ((0, p), s1)) (hp : p ≠ 0)
    (hget : ops.get_bin w.g_ns_index counter_key s1 = ((rcg, vp), s2))
    (hs_alloc : stored s1 = stored w.backend)
    (hs_get : stored s2 = stored s1)
    (hs_free : ∀ a s, stored (ops.free a s) = stored s)
    (hs_set : ∀ v e s3, ops.set_bin w.g_ns_index counter_key v s2 = (e, s3) → e ≠ 0 →
      stored s3 = stored s2) :
    (rcg ≠ 0 → rcg ≠ -ENOENT →
      ∃ w1, ns_next_id w = .ok ((rcg, none), w1) ∧
        w1.trace = w.trace ++
          [Call.alloc sizeof_key_prefix, Call.get_bin w.g_ns_index counter_key, Call.free p] ++
          (match vp with
            | some b => [Call.free b.addr]
            | none => []) ∧
        stored w1.backend = stored w.backend) ∧
    (∀ v e s3,
      ((rcg = 0 ∧ ∃ b, vp = some b ∧ 4 ≤ b.bytes.length ∧ v = le_val (b.bytes.take 4)) ∨
        (rcg = -ENOENT ∧ vp = none ∧ v = NS_ID_INIT)) →
      ops.set_bin w.g_ns_index counter_key (le_bytes 4 ((v + 1) % 2 ^ 32)) s2 = (e, s3) →
      e ≠ 0 →
      ∃ w1, ns_next_id w = .ok ((e, none), w1) ∧ stored w1.backend = stored w.backend) := by
  have hk : (NS_KEY_PREFIX_INIT NS_KEY_TYPE_NS_ID_NEXT).bytes = counter_key := rfl
  constructor
  · intro h0 h1
    cases vp with
    | none =>
      have key : ns_next_id w = .ok ((rcg, none),
          { w with
            backend := ops.free p s2,
            trace := w.trace ++
              [Call.alloc sizeof_key_prefix, Call.get_bin w.g_ns_index counter_key,
               Call.free p] }) := by
        simp [ns_next_id, kvs_alloc, kvs_get, kvs_free, bound_ops, dassert, kvstore_get,
          World.fwd, hops, halloc, hp, hk, hget, h0, h1, bind, Except.bind, pure, Except.pure]
      refine ⟨_, key, by simp, ?_⟩
      simp only [hs_free, hs_get, hs_alloc]
    | some b =>
      have key : ns_next_id w = .ok ((rcg, none),
          { w with
            backend := ops.free b.addr (ops.free p s2),
            trace := w.trace ++
              [Call.alloc sizeof_key_prefix, Call.get_bin w.g_ns_index counter_key,
               Call.free p, Call.free b.addr] }) := by
        simp [ns_next_id, kvs_alloc, kvs_get, kvs_free, bound_ops, dassert, kvstore_get,
          World.fwd, hops, halloc, hp, hk, hget, h0, h1, bind, Except.bind, pure, Except.pure]
      refine ⟨_, key, by simp, ?_⟩
      simp only [hs_free, hs_get, hs_alloc]
  · intro v e s3 hv hset he
    have hpath := ns_next_id_path w ops p s1 s2 s3 rcg e vp v hops halloc hp hget hv hset
    simp only [he, ne_eq, not_false_eq_true, if_true] at hpath
    refine ⟨_, hpath, ?_⟩
    have h3 := hs_set _ _ _ hset he
    cases vp with
    | none => simp only [hs_free, h3, hs_get, hs_alloc]
    | some b => simp only [hs_free, h3, hs_get, hs_alloc]

theorem mem_set_fail_kv (i : kvs_idx) (k v : Bytes) (m m1 : MemKvs) (e : Int)
    (h : mem_kvs_ops.set_bin i k v m = (e, m1)) (he : e ≠ 0) : m1.kv = m.kv := by
  obtain ⟨kv, indices, plan, brk⟩ := m
  cases plan with
  | nil =>
    simp [mem_kvs_ops, MemKvs.next_rc] at h
    exact absurd h.1.symm he
  | cons c cs =>
    by_cases hc : c = 0
    · subst hc
      simp [mem_kvs_ops, MemKvs.next_rc] at h
      exact absurd h.1.symm he
    · simp [mem_kvs_ops, MemKvs.next_rc, hc] at h
      rw [← h.2]

/-- C17, two instances on the in-memory backend with the counter at 7: the `get`
fails with `-5`; the `get` succeeds and the `set` fails with `-5`. In both
`ns_next_id` returns `-5` without an id and the entries are as before. -/
theorem ns_next_id_failure_witness :
    (ns_next_id (world_mem (mem_dir [(counter_key, [7, 0, 0, 0])] [0, -5]))).map
        (fun r => (r.1, r.2.backend.kv))
      = .ok ((-5, none), [(fid_handle dir_fid, counter_key, [7, 0, 0, 0])]) ∧
    (ns_next_id (world_mem (mem_dir [(counter_key, [7, 0, 0, 0])] [0, 0, -5]))).map
        (fun r => (r.1, r.2.backend.kv))
      = .ok ((-5, none), [(fid_handle dir_fid, counter_key, [7, 0, 0, 0])]) := by
  constructor
  · obtain ⟨w1, h1, _, h3⟩ :=
      (ns_next_id_failure (fun m : MemKvs => m.kv)
        (world_mem (mem_dir [(counter_key, [7, 0, 0, 0])] [0, -5])) mem_kvs_ops 1 _ _ (-5) none
        rfl rfl (by decide) rfl rfl rfl (fun _ _ => rfl)
        (fun v e s3 h he => mem_set_fail_kv _ _ _ _ _ _ h he)).1 (by decide) (by decide)
    rw [h1]
    simp only [Except.map]
    rw [h3]
    rfl
  · obtain ⟨w1, h1, h3⟩ :=
      (ns_next_id_failure (fun m : MemKvs => m.kv)
        (world_mem (mem_dir [(counter_key, [7, 0, 0, 0])] [0, 0, -5])) mem_kvs_ops 1 _ _ 0
        (some ⟨4, [7, 0, 0, 0]⟩)
        rfl rfl (by decide) rfl rfl rfl (fun _ _ => rfl)
        (fun v e s3 h he => mem_set_fail_kv _ _ _ _ _ _ h he)).2 7 (-5) _
        (Or.inl ⟨rfl, _, rfl, by decide, rfl⟩) rfl (by decide)
    rw [h1]
    simp only [Except.map]
    rw [h3]
    rfl

/-! ### `ns_create` when the record write fails -/

/-- One call of `ns_next_id` on the in-memory backend when its three fallible
operations (allocation, `get`, `set`) are planned to run normally: as
`mem_next_id_step`, with the plan advanced past them; the calls forwarded
include no index delete. -/
theorem mem_next_id_step_plan (w : World MemKvs MemCursor) (v : Nat) (rest : List Int)
    (hops : w.g_kvstore.kvstore_ops = some mem_kvs_ops)
    (hplan : w.backend.plan = 0 :: 0 :: 0 :: rest)
    (hv : counter_start w = some v) :
    ∃ w1, ns_next_id w = .ok ((0, some ((v + 1) % 2 ^ 32)), w1) ∧
      w1.g_kvstore = w.g_kvstore ∧ w1.g_ns_index = w.g_ns_index ∧
      w1.ns_fid_str = w.ns_fid_str ∧ w1.ext = w.ext ∧
      w1.backend.plan = rest ∧ w1.backend.indices = w.backend.indices ∧
      w1.backend.kv =
        kv_upsert w.g_ns_index.index_priv counter_key (le_bytes 4 ((v + 1) % 2 ^ 32))
          w.backend.kv ∧
      ∃ t, w1.trace = w.trace ++ t ∧ ∀ f, Call.index_delete f ∉ t := by
  obtain ⟨gk, done, idx, fs, ext, m, tr⟩ := w
  obtain ⟨kv, indices, plan, brk⟩ := m
  simp only at hops hplan
  subst hplan
  simp only [counter_start, stored_counter, MemKvs.lookup] at hv
  cases hl : kv_lookup idx.index_priv counter_key kv with
  | none =>
    simp only [hl, Option.some.injEq] at hv
    refine ⟨_, ns_next_id_path _ mem_kvs_ops (brk + 1) _ _ _ (-ENOENT) 0 none v hops
      (by simp [mem_kvs_ops, MemKvs.next_rc, MemKvs.fresh]; rfl) (by omega)
      (by simp [mem_kvs_ops, MemKvs.next_rc, MemKvs.lookup, hl]; rfl)
      (Or.inr ⟨rfl, rfl, hv.symm⟩)
      (by simp [mem_kvs_ops, MemKvs.next_rc]; rfl), ?_⟩
    refine ⟨rfl, rfl, rfl, rfl, ?_, ?_, ?_,
      ⟨[Call.alloc sizeof_key_prefix, Call.get_bin idx counter_key,
        Call.set_bin idx counter_key (le_bytes 4 ((v + 1) % 2 ^ 32)), Call.free (brk + 1)],
        ?_, ?_⟩⟩
    · simp [mem_kvs_ops, MemKvs.upsert]
    · simp [mem_kvs_ops, MemKvs.upsert]
    · simp [mem_kvs_ops, MemKvs.upsert]
    · simp
    · intro f hf
      simp at hf
  | some b =>
    simp only [hl] at hv
    by_cases hlen : b.length < 4
    · simp [hlen] at hv
    · simp only [hlen, if_false, Option.some.injEq] at hv
      refine ⟨_, ns_next_id_path _ mem_kvs_ops (brk + 1) _ _ _ 0 0
        (some { addr := brk + 1 + sizeof_key_prefix + 1, bytes := b }) v hops
        (by simp [mem_kvs_ops, MemKvs.next_rc, MemKvs.fresh]; rfl) (by omega)
        (by simp [mem_kvs_ops, MemKvs.next_rc, MemKvs.lookup, hl, MemKvs.fresh]; rfl)
        (Or.inl ⟨rfl, _, rfl, by simpa using hlen, hv.symm⟩)
        (by simp [mem_kvs_ops, MemKvs.next_rc]; rfl), ?_⟩
      refine ⟨rfl, rfl, rfl, rfl, ?_, ?_, ?_,
        ⟨[Call.alloc sizeof_key_prefix, Call.get_bin idx counter_key,
          Call.set_bin idx counter_key (le_bytes 4 ((v + 1) % 2 ^ 32)), Call.free (brk + 1),
          Call.free (brk + 1 + sizeof_key_prefix + 1)], ?_, ?_⟩⟩
      · simp [mem_kvs_ops, MemKvs.upsert]
      · simp [mem_kvs_ops, MemKvs.upsert]
      · simp [mem_kvs_ops, MemKvs.upsert]
      · simp
      · intro f hf
        simp at hf
/-- The run of `ns_create` when the name is valid, `ns_next_id` hands out `id`,
the fid parses, the object index is created, both buffers are allocated, and
the backend `set` of the NS_INFO record fails with `e`: `ns_create` returns `e`
without a record, and after `ns_next_id` it forwards the index creation, the two
allocations, the failed `set` and the release of the key buffer. -/
theorem ns_create_set_fails_path (w w2 : World σ ι) (ops : kvstore_ops σ ι) (name : str256_t)
    (id : Nat) (fid0 : kvs_fid_t) (idx : kvs_idx) (s3 s4 s5 s6 : σ) (p1 p2 : Nat) (e : Int)
    (hname : w.ext.str256_isalphanum name = 0)
    (hn : ns_next_id w = .ok ((0, some id), w2))
    (hops2 : w2.g_kvstore.kvstore_ops = some ops)
    (hF : w2.ext.cortx_kvs_fid_from_str w2.ns_fid_str = (0, fid0))
    (hI : ops.index_create { fid0 with f_lo := id } w2.backend = ((0, idx), s3))
    (hA1 : ops.alloc sizeof_namespace s3 = ((0, p1), s4)) (hp1 : p1 ≠ 0)
    (hA2 : ops.alloc sizeof_ns_key s4 = ((0, p2), s5)) (hp2 : p2 ≠ 0)
    (hS : ops.set_bin w2.g_ns_index (ns_info_key id)
      (struct_namespace.image
        { nsobj_id := id, ns_name := name, nsobj_fid := { fid0 with f_lo := id },
          nsobj_index := idx }) s5 = (e, s6))
    (he : e ≠ 0) :
    ns_create name w = .ok ((e, none),
      { w2 with
        backend := ops.free p2 s6,
        trace := w2.trace ++
          [Call.index_create { fid0 with f_lo := id }, Call.alloc sizeof_namespace,
           Call.alloc sizeof_ns_key,
           Call.set_bin w2.g_ns_index (ns_info_key id)
             (struct_namespace.image
               { nsobj_id := id, ns_name := name, nsobj_fid := { fid0 with f_lo := id },
                 nsobj_index := idx }),
           Call.free p2] }) := by
  have hk : (NS_KEY_INIT id NS_KEY_TYPE_NS_INFO).bytes = ns_info_key id := rfl
  simp [ns_create, kvs_fid_from_str, kvs_index_create, kvs_alloc, kvs_set, kvs_free,
    bound_ops, dassert, kvstore_get, World.fwd, hname, hn, hF, hops2, hI, hA1, hp1, hA2, hp2,
    hk, hS, he, bind, Except.bind, pure, Except.pure]
/-- C15: on the in-memory backend, let the name be valid, the fid template
parse, the object fid of the new id not exist yet, and let the plan run the
first six fallible operations normally (`ns_next_id`'s allocation, `get` and
`set`, the index creation, the two allocations) and fail the seventh, the
`set` of the NS_INFO record, with `e`. Then `ns_create` returns `e` and does not
assign the output record pointer; among the calls it forwarded is the index
creation and no index delete, and the created object index is still among the
indexes; the entries are those before the call with the counter upserted, so
no NS_INFO entry was written; and the NS_ID_NEXT key holds the consumed id, from
which the next `ns_next_id` starts. -/
theorem ns_create_record_write_fails (w : World MemKvs MemCursor) (name : str256_t)
    (v : Nat) (e : Int) (rest : List Int) (fid0 : kvs_fid_t)
    (hops : w.g_kvstore.kvstore_ops = some mem_kvs_ops)
    (hname : w.ext.str256_isalphanum name = 0)
    (hplan : w.backend.plan = 0 :: 0 :: 0 :: 0 :: 0 :: 0 :: e :: rest) (he : e ≠ 0)
    (hv : counter_start w = some v)
    (hfid : w.ext.cortx_kvs_fid_from_str w.ns_fid_str = (0, fid0))
    (hfresh : ({ fid0 with f_lo := (v + 1) % 2 ^ 32 } : kvs_fid_t) ∉ w.backend.indices) :
    ∃ w1, ns_create name w = .ok ((e, none), w1) ∧
      (∃ t, w1.trace = w.trace ++ t ∧ (∀ f, Call.index_delete f ∉ t) ∧
        Call.index_create { fid0 with f_lo := (v + 1) % 2 ^ 32 } ∈ t) ∧
      w1.backend.indices = w.backend.indices ++ [{ fid0 with f_lo := (v + 1) % 2 ^ 32 }] ∧
      w1.backend.kv =
        kv_upsert w.g_ns_index.index_priv counter_key (le_bytes 4 ((v + 1) % 2 ^ 32))
          w.backend.kv ∧
      (∀ j, w1.backend.lookup w.g_ns_index.index_priv (ns_info_key j)
        = w.backend.lookup w.g_ns_index.index_priv (ns_info_key j)) ∧
      w1.g_ns_index = w.g_ns_index ∧
      stored_counter w1 = some (le_bytes 4 ((v + 1) % 2 ^ 32)) ∧
      counter_start w1 = some ((v + 1) % 2 ^ 32) := by
  obtain ⟨w2, hn, hk2, hidx2, hfs2, hext2, hplan2, hind2, hkv2, t2, htr2, hnd2⟩ :=
    mem_next_id_step_plan w v (0 :: 0 :: 0 :: e :: rest) hops hplan hv
  obtain ⟨gk2, done2, idx2, fs2, ext2, m2, tr2⟩ := w2
  obtain ⟨kv2, ind2, plan2, brk2⟩ := m2
  simp only at hk2 hidx2 hfs2 hext2 hplan2 hind2 hkv2 htr2
  subst hk2 hidx2 hfs2 hext2 hplan2 hind2 hkv2 htr2
  have hfresh2 := hfresh
  simp only [Nat.reducePow] at hfresh2
  have hpath := ns_create_set_fails_path w _ mem_kvs_ops name ((v + 1) % 2 ^ 32) fid0
    { index_fid := { fid0 with f_lo := (v + 1) % 2 ^ 32 },
      index_priv := fid_handle { fid0 with f_lo := (v + 1) % 2 ^ 32 } }
    _ _ _ _ (brk2 + 1) (brk2 + 1 + sizeof_namespace + 1) e hname hn hops hfid
    (by simp [mem_kvs_ops, MemKvs.next_rc]; rw [if_neg hfresh2])
    (by simp [mem_kvs_ops, MemKvs.next_rc, MemKvs.fresh]; rfl) (by omega)
    (by simp [mem_kvs_ops, MemKvs.next_rc, MemKvs.fresh]; rfl) (by omega)
    (by simp [mem_kvs_ops, MemKvs.next_rc, he]; rfl) he
  refine ⟨_, hpath, ⟨t2 ++ [Call.index_create { fid0 with f_lo := (v + 1) % 2 ^ 32 },
      Call.alloc sizeof_namespace, Call.alloc sizeof_ns_key,
      Call.set_bin w.g_ns_index (ns_info_key ((v + 1) % 2 ^ 32))
        (struct_namespace.image
          { nsobj_id := (v + 1) % 2 ^ 32, ns_name := name,
            nsobj_fid := { fid0 with f_lo := (v + 1) % 2 ^ 32 },
            nsobj_index :=
              { index_fid := { fid0 with f_lo := (v + 1) % 2 ^ 32 },
                index_priv := fid_handle { fid0 with f_lo := (v + 1) % 2 ^ 32 } } }),
      Call.free (brk2 + 1 + sizeof_namespace + 1)], ?_, ?_, ?_⟩, ?_, ?_, ?_, rfl, ?_, ?_⟩
  · simp
  · intro f hf
    rcases List.mem_append.mp hf with h1 | h1
    · exact hnd2 f h1
    · simp at h1
  · simp
  · simp [mem_kvs_ops]
  · simp [mem_kvs_ops]
  · intro j
    simp only [mem_kvs_ops, MemKvs.lookup]
    apply kv_lookup_upsert_other
    rintro ⟨_, h2⟩
    have h3 : (ns_info_key j).head? = counter_key.head? := by rw [h2]
    simp [ns_info_key, counter_key, NS_KEY_INIT, NS_KEY_PREFIX_INIT, ns_key.bytes,
      key_prefix.bytes, NS_KEY_TYPE_NS_ID_NEXT, NS_KEY_TYPE_NS_INFO] at h3
  · simp only [stored_counter, mem_kvs_ops, MemKvs.lookup]
    exact kv_lookup_upsert_self _ _ _ _
  · have hlen : (le_bytes 4 ((v + 1) % 2 ^ 32)).length = 4 := le_bytes_length _ _
    have htake : (le_bytes 4 ((v + 1) % 2 ^ 32)).take 4 = le_bytes 4 ((v + 1) % 2 ^ 32) :=
      List.take_of_length_le (by omega)
    have hval : le_val (le_bytes 4 ((v + 1) % 2 ^ 32)) = (v + 1) % 2 ^ 32 := by
      rw [le_val_le_bytes]
      norm_num
    simp only [Nat.reducePow] at hlen htake hval
    simp only [counter_start, stored_counter, mem_kvs_ops, MemKvs.lookup]
    rw [kv_lookup_upsert_self]
    simp only [hlen, htake, hval, Nat.lt_irrefl, if_false]
    norm_num

/-- C15, an instance: from an empty directory the NS_INFO write of the first
namespace fails with `-5`; the object index 7:3 stays, only the counter entry
(3) is stored, and the next id starts from 3. -/
theorem ns_create_record_write_fails_witness :
    ∃ w1, ns_create (name_of [97, 98, 99]) (world_mem (mem_dir [] [0, 0, 0, 0, 0, 0, -5]))
        = .ok ((-5, none), w1) ∧
      w1.backend.indices = [dir_fid, ⟨7, 3⟩] ∧
      w1.backend.kv = [(fid_handle dir_fid, counter_key, [3, 0, 0, 0])] ∧
      counter_start w1 = some 3 := by
  obtain ⟨w1, h1, _, h3, h4, _, _, _, h8⟩ :=
    ns_create_record_write_fails (world_mem (mem_dir [] [0, 0, 0, 0, 0, 0, -5]))
      (name_of [97, 98, 99]) 2 (-5) [] ⟨7, 0⟩ rfl (by decide) rfl (by decide) rfl rfl
      (by decide)
  exact ⟨w1, h1, h3, h4, h8⟩

/-! ### `kvgroup_add` then `kvgroup_kvpair_get` -/

/-- C18 (as amended): for a group with count `c` below its capacity and at most
`INT_MAX` (so that `c` is an `int` index), whose slot array has capacity slots,
and a pair `kv` set up by `kvpair_init` (whose assertion on non-null buffers
and non-zero lengths passed): `kvgroup_add` returns 0, the count becomes
`c + 1`, which does not exceed the capacity, the capacity and the slots below
`c` are unchanged, and `kvgroup_kvpair_get` at index `c` returns 0 with the
value buffer and length given to `kvpair_init`. -/
theorem kvgroup_add_get_roundtrip (kv_grp : kvgroup) (kv0 kv : kvpair)
    (key klen val vlen : Nat)
    (hinit : kvpair_init kv0 key klen val vlen = .ok kv)
    (hroom : kv_grp.kv_count < kv_grp.kv_max)
    (hslots : kv_grp.kv_list.length = kv_grp.kv_max)
    (hint : kv_grp.kv_count < 2 ^ 31) :
    ∃ g1, kvgroup_add kv_grp kv = .ok (0, g1) ∧
      g1.kv_count = kv_grp.kv_count + 1 ∧ g1.kv_count ≤ g1.kv_max ∧
      g1.kv_max = kv_grp.kv_max ∧
      (∀ i, i < kv_grp.kv_count → g1.kv_list[i]? = kv_grp.kv_list[i]?) ∧
      kv.val = ⟨val, vlen⟩ ∧
      kvgroup_kvpair_get g1 (kv_grp.kv_count : Int) = .ok (0, some ⟨val, vlen⟩) := by
  have hkv : kv = { key := ⟨key, klen⟩, val := ⟨val, vlen⟩ } ∧ val ≠ 0 := by
    cases hc : (key ≠ 0 && klen ≠ 0 && val ≠ 0 && vlen ≠ 0 : Bool) with
    | true =>
      simp only [kvpair_init, dassert, hc, if_true, bind, Except.bind, pure, Except.pure] at hinit
      refine ⟨(Except.ok.inj hinit).symm, ?_⟩
      simp at hc
      exact hc.1.2
    | false =>
      simp only [kvpair_init, dassert, hc, bind, Except.bind] at hinit
      cases hinit
  obtain ⟨hkv, hval⟩ := hkv
  subst hkv
  have hne : ¬ kv_grp.kv_count = kv_grp.kv_max := by omega
  have hlt : kv_grp.kv_count < kv_grp.kv_list.length := by omega
  have hmod : (kv_grp.kv_count + 1) % 2 ^ 32 = kv_grp.kv_count + 1 :=
    Nat.mod_eq_of_lt (by omega)
  refine ⟨{ kv_grp with
      kv_list := kv_grp.kv_list.set kv_grp.kv_count { key := ⟨key, klen⟩, val := ⟨val, vlen⟩ },
      kv_count := kv_grp.kv_count + 1 }, ?_, rfl, ?_, rfl, ?_, rfl, ?_⟩
  · simp only [kvgroup_add, hne, hlt, if_false, if_true, hmod]
  · show kv_grp.kv_count + 1 ≤ kv_grp.kv_max
    omega
  · intro i hi
    show (kv_grp.kv_list.set kv_grp.kv_count _)[i]? = kv_grp.kv_list[i]?
    rw [List.getElem?_set_ne (by omega)]
  · have hu : int_to_u32 (kv_grp.kv_count : Int) = kv_grp.kv_count := by
      rw [int_to_u32_nonneg _ (by omega) (by exact_mod_cast hint)]
      simp
    have h1 : ¬ int_to_u32 (kv_grp.kv_count : Int) ≥ kv_grp.kv_count + 1 := by
      rw [hu]; omega
    have h2 : ¬ ((kv_grp.kv_count : Int) < 0) := by omega
    have h3 : (kv_grp.kv_list.set kv_grp.kv_count
        { key := ⟨key, klen⟩, val := ⟨val, vlen⟩ })[kv_grp.kv_count]?
        = some { key := ⟨key, klen⟩, val := ⟨val, vlen⟩ } := by
      rw [List.getElem?_set_self]
      simp [hlt]
    simp only [kvgroup_kvpair_get, h1, h2, if_false, Int.toNat_ofNat, h3]
    simp [hval]

/-- C18, an instance: a pair is added to an empty group of capacity 2 and read
back at index 0. -/
theorem kvgroup_add_get_roundtrip_witness :
    ∃ g1, kvgroup_add { kv_list := [⟨⟨0, 0⟩, ⟨0, 0⟩⟩, ⟨⟨0, 0⟩, ⟨0, 0⟩⟩], kv_max := 2, kv_count := 0 }
        ⟨⟨100, 3⟩, ⟨200, 4⟩⟩ = .ok (0, g1) ∧
      g1.kv_count = 1 ∧
      kvgroup_kvpair_get g1 0 = .ok (0, some ⟨200, 4⟩) := by
  obtain ⟨g1, h1, h2, _, _, _, _, h7⟩ :=
    kvgroup_add_get_roundtrip
      { kv_list := [⟨⟨0, 0⟩, ⟨0, 0⟩⟩, ⟨⟨0, 0⟩, ⟨0, 0⟩⟩], kv_max := 2, kv_count := 0 }
      ⟨⟨0, 0⟩, ⟨0, 0⟩⟩ ⟨⟨100, 3⟩, ⟨200, 4⟩⟩ 100 3 200 4 rfl (by decide) rfl (by decide)
  exact ⟨g1, h1, h2, h7⟩

/-- C18, counterexample to the claim as stated: a group with count `c = 2 ^ 31`
below its capacity `2 ^ 31 + 1`. `kvgroup_add` succeeds and the count becomes
`2 ^ 31 + 1`, but `c` exceeds `INT_MAX`: passed as the `int index` it is
`-(2 ^ 31)`, which converts back to `2 ^ 31`, below the count, and
`kvgroup_kvpair_get` reads the slot at the negative index instead of
returning the pair. -/
theorem kvgroup_roundtrip_beyond_int_max :
    big_group_room.kv_count < big_group_room.kv_max ∧
    big_group_room.kv_list.length = big_group_room.kv_max ∧
    kvpair_init ⟨⟨0, 0⟩, ⟨0, 0⟩⟩ 300 1 400 1 = .ok ⟨⟨300, 1⟩, ⟨400, 1⟩⟩ ∧
    kvgroup_add big_group_room ⟨⟨300, 1⟩, ⟨400, 1⟩⟩
      = .ok (0, { big_group_room with
          kv_list := big_group_room.kv_list.set big_group_room.kv_count ⟨⟨300, 1⟩, ⟨400, 1⟩⟩,
          kv_count := 2 ^ 31 + 1 }) ∧
    u32_to_int big_group_room.kv_count = -(2 ^ 31) ∧
    kvgroup_kvpair_get
        { big_group_room with
          kv_list := big_group_room.kv_list.set big_group_room.kv_count ⟨⟨300, 1⟩, ⟨400, 1⟩⟩,
          kv_count := 2 ^ 31 + 1 }
        (u32_to_int big_group_room.kv_count)
      = .error Fault.bad_read := by
  have hlen : big_group_room.kv_list.length = big_group_room.kv_max :=
    List.length_replicate _ _
  have hne : ¬ big_group_room.kv_count = big_group_room.kv_max := by decide
  have hlt : big_group_room.kv_count < big_group_room.kv_list.length := by
    rw [hlen]; decide
  have hmod : (big_group_room.kv_count + 1) % 2 ^ 32 = 2 ^ 31 + 1 := by decide
  have hconv : u32_to_int big_group_room.kv_count = -(2 ^ 31) := by decide
  have h1 : ¬ int_to_u32 (-(2 ^ 31)) ≥ 2 ^ 31 + 1 := by decide
  have h2 : (-(2 ^ 31) : Int) < 0 := by decide
  refine ⟨by decide, hlen, rfl, ?_, hconv, ?_⟩
  · rw [kvgroup_add, if_neg hne, if_pos hlt, hmod]
  · rw [hconv, kvgroup_kvpair_get, if_neg h1, if_pos h2]

/-! ### What the namespace operations leave alone -/

/-- What `ns_create` leaves alone: it changes the world only through
`ns_next_id` and the backend operations `index_create`, `alloc`, `set` of an
NS_INFO key with the image of a record of the same id, and `free`, so it
preserves, whatever its result, every property of the backend state that these
preserve, and the globals. -/
theorem ns_create_preserves (P : σ → Prop) (w w1 : World σ ι) (ops : kvstore_ops σ ι)
    (name : str256_t) (r : Int × Option ns_ref)
    (hops : w.g_kvstore.kvstore_ops = some ops)
    (halloc : ∀ n s, P s → P (ops.alloc n s).2)
    (hget : ∀ i k s, P s → P (ops.get_bin i k s).2)
    (hset : ∀ v s, P s → P (ops.set_bin w.g_ns_index counter_key v s).2)
    (hfree : ∀ a s, P s → P (ops.free a s))
    (hicreate : ∀ f s, P s → P (ops.index_create f s).2)
    (hrec : ∀ (n : struct_namespace) s, P s →
      P (ops.set_bin w.g_ns_index (ns_info_key n.nsobj_id) n.image s).2)
    (hP : P w.backend)
    (h : ns_create name w = .ok (r, w1)) :
    P w1.backend ∧ w1.g_kvstore = w.g_kvstore ∧ w1.g_ns_index = w.g_ns_index ∧
      w1.ns_fid_str = w.ns_fid_str ∧ w1.ext = w.ext := by
  by_cases hv : w.ext.str256_isalphanum name = 0
  swap
  · simp [ns_create, dassert, kvstore_get, hv, bind, Except.bind, pure, Except.pure] at h
    obtain ⟨_, h2⟩ := h
    subst h2
    exact ⟨hP, rfl, rfl, rfl, rfl⟩
  cases hn : ns_next_id w with
  | error f =>
    simp [ns_create, dassert, kvstore_get, hv, hn, bind, Except.bind, pure, Except.pure] at h
  | ok rn =>
    obtain ⟨⟨rcN, id⟩, w2⟩ := rn
    obtain ⟨p2, hk2, hi2, hf2, he2⟩ :=
      ns_next_id_preserves P w w2 ops _ hops halloc hget hset hfree hP hn
    have hops2 : w2.g_kvstore.kvstore_ops = some ops := hk2 ▸ hops
    by_cases h1 : rcN = 0
    swap
    · simp [ns_create, dassert, kvstore_get, hv, hn, h1, bind, Except.bind, pure,
        Except.pure] at h
      obtain ⟨_, h2⟩ := h
      subst h2
      exact ⟨p2, hk2, hi2, hf2, he2⟩
    subst h1
    rcases hF : w2.ext.cortx_kvs_fid_from_str w2.ns_fid_str with ⟨rcF, fid0⟩
    by_cases h2 : rcF = 0
    swap
    · simp [ns_create, kvs_fid_from_str, dassert, kvstore_get, hv, hn, hF, h2, bind,
        Except.bind, pure, Except.pure] at h
      obtain ⟨_, h2⟩ := h
      subst h2
      exact ⟨p2, hk2, hi2, hf2, he2⟩
    subst h2
    have p3 := hicreate { fid0 with f_lo := id.getD 0 } w2.backend p2
    rcases hI : ops.index_create { fid0 with f_lo := id.getD 0 } w2.backend
      with ⟨⟨rcI, idx⟩, s3⟩
    rw [hI] at p3
    by_cases h3 : rcI = 0
    swap
    · simp [ns_create, kvs_fid_from_str, kvs_index_create, bound_ops, dassert, kvstore_get,
        World.fwd, hv, hn, hF, hops2, hI, h3, bind, Except.bind, pure, Except.pure] at h
      obtain ⟨_, h2⟩ := h
      subst h2
      exact ⟨p3, hk2, hi2, hf2, he2⟩
    subst h3
    have p4 := halloc sizeof_namespace s3 p3
    rcases hA1 : ops.alloc sizeof_namespace s3 with ⟨⟨rcA1, p1⟩, s4⟩
    rw [hA1] at p4
    by_cases h4 : rcA1 = 0
    swap
    · simp [ns_create, kvs_fid_from_str, kvs_index_create, kvs_alloc, bound_ops, dassert,
        kvstore_get, World.fwd, hv, hn, hF, hops2, hI, hA1, h4, bind, Except.bind, pure,
        Except.pure] at h
      obtain ⟨_, h2⟩ := h
      subst h2
      exact ⟨p4, hk2, hi2, hf2, he2⟩
    subst h4
    by_cases hp1 : p1 = 0
    · simp [ns_create, kvs_fid_from_str, kvs_index_create, kvs_alloc, bound_ops, dassert,
        kvstore_get, World.fwd, hv, hn, hF, hops2, hI, hA1, hp1, bind, Except.bind, pure,
        Except.pure] at h
    have p5 := halloc sizeof_ns_key s4 p4
    rcases hA2 : ops.alloc sizeof_ns_key s4 with ⟨⟨rcA2, pk⟩, s5⟩
    rw [hA2] at p5
    by_cases h5 : rcA2 = 0
    swap
    · simp [ns_create, kvs_fid_from_str, kvs_index_create, kvs_alloc, bound_ops, dassert,
        kvstore_get, World.fwd, hv, hn, hF, hops2, hI, hA1, hp1, hA2, h5, bind, Except.bind,
        pure, Except.pure] at h
      obtain ⟨_, h2⟩ := h
      subst h2
      exact ⟨p5, hk2, hi2, hf2, he2⟩
    subst h5
    by_cases hpk : pk = 0
    · simp [ns_create, kvs_fid_from_str, kvs_index_create, kvs_alloc, bound_ops, dassert,
        kvstore_get, World.fwd, hv, hn, hF, hops2, hI, hA1, hp1, hA2, hpk, bind, Except.bind,
        pure, Except.pure] at h
    have p6 := hrec
      { nsobj_id := id.getD 0, ns_name := name, nsobj_fid := { fid0 with f_lo := id.getD 0 },
        nsobj_index := idx } s5 p5
    rw [← hi2] at p6
    have hkey : (NS_KEY_INIT (id.getD 0) NS_KEY_TYPE_NS_INFO).bytes = ns_info_key (id.getD 0) :=
      rfl
    simp [ns_create, kvs_fid_from_str, kvs_index_create, kvs_alloc, kvs_set, kvs_free,
      bound_ops, dassert, kvstore_get, World.fwd, hv, hn, hF, hops2, hI, hA1, hp1, hA2, hpk,
      hkey, bind, Except.bind, pure, Except.pure] at h
    obtain ⟨_, h2⟩ := h
    subst h2
    exact ⟨hfree _ _ p6, hk2, hi2, hf2, he2⟩

/-- What `ns_delete` leaves alone: it changes the world only through the backend
operations `alloc`, `del`, `index_delete` and `free`, so it preserves, whatever
its result, every property of the backend state that these preserve, and the
globals. -/
theorem ns_delete_preserves (P : σ → Prop) (w w1 : World σ ι) (ops : kvstore_ops σ ι)
    (ns : ns_ref) (rc : Int)
    (hops : w.g_kvstore.kvstore_ops = some ops)
    (halloc : ∀ n s, P s → P (ops.alloc n s).2)
    (hdel : ∀ i k s, P s → P (ops.del_bin i k s).2)
    (hidel : ∀ f s, P s → P (ops.index_delete f s).2)
    (hfree : ∀ a s, P s → P (ops.free a s))
    (hP : P w.backend)
    (h : ns_delete (some ns) w = .ok (rc, w1)) :
    P w1.backend ∧ w1.g_kvstore = w.g_kvstore ∧ w1.g_ns_index = w.g_ns_index ∧
      w1.ns_fid_str = w.ns_fid_str ∧ w1.ext = w.ext := by
  have p1 := halloc sizeof_ns_key w.backend hP
  rcases hA : ops.alloc sizeof_ns_key w.backend with ⟨⟨rcA, p⟩, s1⟩
  rw [hA] at p1
  by_cases h1 : rcA = 0
  swap
  · simp [ns_delete, kvs_alloc, bound_ops, dassert, kvstore_get, World.fwd, hops, hA, h1,
      bind, Except.bind, pure, Except.pure] at h
    obtain ⟨_, h2⟩ := h
    subst h2
    exact ⟨p1, rfl, rfl, rfl, rfl⟩
  subst h1
  by_cases hp : p = 0
  · simp [ns_delete, kvs_alloc, bound_ops, dassert, kvstore_get, World.fwd, hops, hA, hp,
      bind, Except.bind, pure, Except.pure] at h
  have p2 := hdel w.g_ns_index
    (NS_KEY_INIT (ns.obj.nsobj_id % 2 ^ 32) NS_KEY_TYPE_NS_INFO).bytes s1 p1
  rcases hD : ops.del_bin w.g_ns_index
    (NS_KEY_INIT (ns.obj.nsobj_id % 2 ^ 32) NS_KEY_TYPE_NS_INFO).bytes s1 with ⟨rcD, s2⟩
  rw [hD] at p2
  simp only [Nat.reducePow] at hD
  by_cases h2 : rcD = 0
  swap
  · simp [ns_delete, kvs_alloc, kvs_del, kvs_free, bound_ops, dassert, kvstore_get, World.fwd,
      hops, hA, hp, hD, h2, bind, Except.bind, pure, Except.pure] at h
    obtain ⟨_, h3⟩ := h
    subst h3
    exact ⟨hfree _ _ p2, rfl, rfl, rfl, rfl⟩
  subst h2
  have p3 := hidel ns.obj.nsobj_fid s2 p2
  rcases hI : ops.index_delete ns.obj.nsobj_fid s2 with ⟨rcI, s3⟩
  rw [hI] at p3
  by_cases h3 : rcI = 0
  swap
  · simp [ns_delete, kvs_alloc, kvs_del, kvs_index_delete, bound_ops, dassert, kvstore_get,
      World.fwd, hops, hA, hp, hD, hI, h3, bind, Except.bind, pure, Except.pure] at h
    obtain ⟨_, h4⟩ := h
    subst h4
    exact ⟨p3, rfl, rfl, rfl, rfl⟩
  subst h3
  simp [ns_delete, kvs_alloc, kvs_del, kvs_index_delete, kvs_free, bound_ops, dassert,
    kvstore_get, World.fwd, hops, hA, hp, hD, hI, bind, Except.bind, pure, Except.pure] at h
  obtain ⟨_, h4⟩ := h
  subst h4
  exact ⟨hfree _ _ (hfree _ _ p3), rfl, rfl, rfl, rfl⟩
/-- What `ns_scan` leaves alone: it changes the world only through the backend
operations `alloc`, `find`, `advance`, `current`, the cursor release and
`free`, so it preserves, whatever its result, every property of the backend
state that these preserve, and the globals. -/
theorem ns_scan_preserves (P : σ → Prop) (w w1 : World σ ι) (ops : kvstore_ops σ ι)
    (iter : Option (ns_itr ι)) (r : Int × Option (ns_itr ι))
    (hops : w.g_kvstore.kvstore_ops = some ops)
    (halloc : ∀ n s, P s → P (ops.alloc n s).2)
    (hfree : ∀ a s, P s → P (ops.free a s))
    (hfind : ∀ it s, P s → P (ops.kv_find it s).2)
    (hnext : ∀ it s, P s → P (ops.kv_next it s).2)
    (hfini : ∀ it s, P s → P (ops.kv_fini it s))
    (hget : ∀ it s, P s → P (ops.kv_get it s).2)
    (hP : P w.backend)
    (h : ns_scan iter w = .ok (r, w1)) :
    P w1.backend ∧ w1.g_kvstore = w.g_kvstore ∧ w1.g_ns_index = w.g_ns_index ∧
      w1.ns_fid_str = w.ns_fid_str ∧ w1.ext = w.ext := by
  cases iter with
  | none =>
    have hpfx : ( key_prefix.bytes { k_type := NS_KEY_TYPE_NS_INFO, k_version := NS_VERSION_0 }).take
        psize = info_pfx := rfl
    have q1 := halloc sizeof_ns_key w.backend hP
    rcases hA1 : ops.alloc sizeof_ns_key w.backend with ⟨⟨rc1, p1⟩, s1⟩
    rw [hA1] at q1
    have q2 := halloc sizeof_ns_itr s1 q1
    rcases hA2 : ops.alloc sizeof_ns_itr s1 with ⟨⟨rc2, p2⟩, s2⟩
    rw [hA2] at q2
    have q3 := halloc sizeof_kvs_itr s2 q2
    rcases hA3 : ops.alloc sizeof_kvs_itr s2 with ⟨⟨rc3, p3⟩, s3⟩
    rw [hA3] at q3
    have q4 := hfind
      { addr := p3, idx_priv := w.g_ns_index.index_priv, pfx := info_pfx, inner_rc := 0,
        priv := none } s3 q3
    rcases hF : ops.kv_find
        { addr := p3, idx_priv := w.g_ns_index.index_priv, pfx := info_pfx, inner_rc := 0,
          priv := none } s3 with ⟨⟨rcf, kitf⟩, s4⟩
    rw [hF] at q4
    have q5 := hget { kitf with addr := p3 } s4 q4
    rcases hG : ops.kv_get { kitf with addr := p3 } s4 with ⟨⟨key, val⟩, s5⟩
    rw [hG] at q5
    simp only at q1 q2 q3 q4 q5
    by_cases h1 : rc1 = 0
    swap
    · simp [ns_scan, kvs_alloc, bound_ops, dassert, kvstore_get, World.fwd, hops, hA1, h1,
        bind, Except.bind, pure, Except.pure] at h
      obtain ⟨_, h2⟩ := h
      subst h2
      exact ⟨q1, rfl, rfl, rfl, rfl⟩
    subst h1
    by_cases hp1 : p1 = 0
    · simp [ns_scan, kvs_alloc, bound_ops, dassert, kvstore_get, World.fwd, hops, hA1, hp1,
        bind, Except.bind, pure, Except.pure] at h
    by_cases h2 : rc2 = 0
    swap
    · simp [ns_scan, kvs_alloc, bound_ops, dassert, kvstore_get, World.fwd, hops, hA1, hp1,
        hA2, h2, bind, Except.bind, pure, Except.pure] at h
      obtain ⟨_, h3⟩ := h
      subst h3
      exact ⟨q2, rfl, rfl, rfl, rfl⟩
    subst h2
    by_cases h3 : rc3 = 0
    swap
    · simp [ns_scan, kvs_alloc, kvs_itr_find, bound_ops, dassert, kvstore_get, World.fwd, hops,
        hA1, hp1, hA2, hA3, h3, bind, Except.bind, pure, Except.pure] at h
    subst h3
    by_cases hp3 : p3 = 0
    · simp [ns_scan, kvs_alloc, kvs_itr_find, bound_ops, dassert, kvstore_get, World.fwd, hops,
        hA1, hp1, hA2, hA3, hp3, bind, Except.bind, pure, Except.pure] at h
    by_cases h4 : rcf = 0
    swap
    · simp [ns_scan, kvs_alloc, kvs_itr_find, bound_ops, dassert, kvstore_get, World.fwd, hops,
        hA1, hp1, hA2, hA3, hp3, hpfx, hF, h4, bind, Except.bind, pure, Except.pure] at h
      obtain ⟨_, h5⟩ := h
      subst h5
      exact ⟨q4, rfl, rfl, rfl, rfl⟩
    subst h4
    by_cases h5 : val.bytes.length = sizeof_namespace
    swap
    · simp [ns_scan, kvs_alloc, kvs_itr_find, kvs_itr_get, bound_ops, dassert, kvstore_get,
        World.fwd, hops, hA1, hp1, hA2, hA3, hp3, hpfx, hF, hG, h5, bind, Except.bind, pure,
        Except.pure] at h
      obtain ⟨_, h6⟩ := h
      subst h6
      exact ⟨q5, rfl, rfl, rfl, rfl⟩
    by_cases hp2 : p2 = 0
    · simp [ns_scan, kvs_alloc, kvs_itr_find, kvs_itr_get, kvs_free, bound_ops, dassert,
        kvstore_get, World.fwd, hops, hA1, hp1, hA2, hA3, hp3, hpfx, hF, hG, h5, hp2, bind,
        Except.bind, pure, Except.pure] at h
    simp [ns_scan, kvs_alloc, kvs_itr_find, kvs_itr_get, kvs_free, bound_ops, dassert,
      kvstore_get, World.fwd, hops, hA1, hp1, hA2, hA3, hp3, hpfx, hF, hG, h5, hp2, bind,
      Except.bind, pure, Except.pure] at h
    obtain ⟨_, h6⟩ := h
    subst h6
    exact ⟨hfree _ _ q5, rfl, rfl, rfl, rfl⟩
  | some it =>
    cases hkit : it.kvs_iter with
    | none =>
      simp [ns_scan, hkit, bind, Except.bind, pure, Except.pure] at h
    | some kit =>
      have q1 := hnext kit w.backend hP
      rcases hN : ops.kv_next kit w.backend with ⟨⟨rcn, kitn⟩, t1⟩
      rw [hN] at q1
      have q2 := hget { kitn with addr := kit.addr } t1 q1
      rcases hG : ops.kv_get { kitn with addr := kit.addr } t1 with ⟨⟨key, val⟩, t2⟩
      rw [hG] at q2
      simp only at q1 q2
      by_cases h1 : rcn = 0
      · subst h1
        by_cases h2 : val.bytes.length = sizeof_namespace
        · simp [ns_scan, kvs_itr_next, kvs_itr_get, kvs_free, bound_ops, dassert, kvstore_get,
            World.fwd, hops, hkit, hN, hG, h2, bind, Except.bind, pure, Except.pure] at h
          obtain ⟨_, h3⟩ := h
          subst h3
          exact ⟨hfree _ _ q2, rfl, rfl, rfl, rfl⟩
        · simp [ns_scan, kvs_itr_next, kvs_itr_get, kvs_free, bound_ops, dassert, kvstore_get,
            World.fwd, hops, hkit, hN, hG, h2, bind, Except.bind, pure, Except.pure] at h
          obtain ⟨_, h3⟩ := h
          subst h3
          exact ⟨q2, rfl, rfl, rfl, rfl⟩
      · simp [ns_scan, kvs_itr_next, kvs_itr_fini, kvs_free, bound_ops, dassert, kvstore_get,
          World.fwd, hops, hkit, hN, h1, bind, Except.bind, pure, Except.pure] at h
        obtain ⟨_, h3⟩ := h
        subst h3
        exact ⟨hfree _ _ (hfree _ _ (hfini _ _ q1)), rfl, rfl, rfl, rfl⟩

/-- What a full enumeration leaves alone: what each of its `ns_scan` calls does. -/
theorem ns_scan_all_preserves (P : σ → Prop) (ops : kvstore_ops σ ι) (n0 : Nat)
    (halloc : ∀ n s, P s → P (ops.alloc n s).2)
    (hfree : ∀ a s, P s → P (ops.free a s))
    (hfind : ∀ it s, P s → P (ops.kv_find it s).2)
    (hnext : ∀ it s, P s → P (ops.kv_next it s).2)
    (hfini : ∀ it s, P s → P (ops.kv_fini it s))
    (hget : ∀ it s, P s → P (ops.kv_get it s).2)
    (fuel : Nat) :
    ∀ (iter : Option (ns_itr ι)) (w w1 : World σ ι)
      (r : List (Option struct_namespace) × Option (ns_itr ι)),
      w.g_kvstore.kvstore_ops = some ops → P w.backend →
      ns_scan_all n0 fuel iter w = .ok (r, w1) →
      P w1.backend ∧ w1.g_kvstore = w.g_kvstore ∧ w1.g_ns_index = w.g_ns_index ∧
        w1.ns_fid_str = w.ns_fid_str ∧ w1.ext = w.ext := by
  induction fuel with
  | zero =>
    intro iter w w1 r _ hP h
    simp [ns_scan_all] at h
    obtain ⟨_, h2⟩ := h
    subst h2
    exact ⟨hP, rfl, rfl, rfl, rfl⟩
  | succ fuel ih =>
    intro iter w w1 r hops hP h
    cases hs : ns_scan iter w with
    | error f => simp [ns_scan_all, hs, bind, Except.bind] at h
    | ok rs =>
      obtain ⟨⟨rc, iter1⟩, w2⟩ := rs
      obtain ⟨q2, hk2, hi2, hf2, he2⟩ :=
        ns_scan_preserves P w w2 ops iter _ hops halloc hfree hfind hnext hfini hget hP hs
      cases iter1 with
      | none =>
        simp [ns_scan_all, hs, bind, Except.bind, pure, Except.pure] at h
        obtain ⟨_, h2⟩ := h
        subst h2
        exact ⟨q2, hk2, hi2, hf2, he2⟩
      | some it2 =>
        cases hr : ns_scan_all n0 fuel (some it2) w2 with
        | error f => simp [ns_scan_all, hs, hr, bind, Except.bind] at h
        | ok r2 =>
          obtain ⟨⟨recs2, itn2⟩, w3⟩ := r2
          simp [ns_scan_all, hs, hr, bind, Except.bind, pure, Except.pure] at h
          obtain ⟨_, h2⟩ := h
          subst h2
          obtain ⟨q3, hk3, hi3, hf3, he3⟩ := ih (some it2) w2 w3 _ (hk2 ▸ hops) q2 hr
          exact ⟨q3, hk3.trans hk2, hi3.trans hi2, hf3.trans hf2, he3.trans he2⟩
/-! ### The directory index stays consistent -/

theorem entries_consistent_of_sub (h : Nat) (m m1 : MemKvs)
    (hsub : ∀ e ∈ m1.kv, e ∈ m.kv) (hc : entries_consistent h m) :
    entries_consistent h m1 :=
  fun e he => hc e (hsub e he)

theorem mem_next_rc_kv (m : MemKvs) : m.next_rc.2.kv = m.kv := by
  obtain ⟨kv, indices, plan, brk⟩ := m
  cases plan <;> rfl

theorem mem_get_kv (i : kvs_idx) (k : Bytes) (m : MemKvs) :
    (mem_kvs_ops.get_bin i k m).2.kv = m.kv := by
  obtain ⟨kv, indices, plan, brk⟩ := m
  cases plan with
  | nil =>
    cases hl : kv_lookup i.index_priv k kv <;>
      simp [mem_kvs_ops, MemKvs.next_rc, MemKvs.fresh, MemKvs.lookup, hl]
  | cons c cs =>
    by_cases hc : c = 0
    · cases hl : kv_lookup i.index_priv k kv <;>
        simp [mem_kvs_ops, MemKvs.next_rc, MemKvs.fresh, MemKvs.lookup, hl, hc]
    · simp [mem_kvs_ops, MemKvs.next_rc, hc]

theorem mem_index_create_kv (f : kvs_fid_t) (m : MemKvs) :
    (mem_kvs_ops.index_create f m).2.kv = m.kv := by
  obtain ⟨kv, indices, plan, brk⟩ := m
  cases plan with
  | nil =>
    by_cases hf : f ∈ indices <;> simp [mem_kvs_ops, MemKvs.next_rc, hf]
  | cons c cs =>
    by_cases hc : c = 0
    · by_cases hf : f ∈ indices <;> simp [mem_kvs_ops, MemKvs.next_rc, hf, hc]
    · simp [mem_kvs_ops, MemKvs.next_rc, hc]

theorem kv_upsert_mem (h : Nat) (k v : Bytes) (l : List (Nat × Bytes × Bytes))
    (e : Nat × Bytes × Bytes) (he : e ∈ kv_upsert h k v l) : e ∈ l ∨ e = (h, k, v) := by
  induction l with
  | nil =>
    simp [kv_upsert] at he
    exact Or.inr he
  | cons x xs ih =>
    by_cases hx : x.1 = h ∧ x.2.1 = k
    · simp only [kv_upsert, if_pos hx, List.mem_cons] at he
      rcases he with he | he
      · exact Or.inr he
      · exact Or.inl (List.mem_cons_of_mem _ he)
    · simp only [kv_upsert, if_neg hx, List.mem_cons] at he
      rcases he with he | he
      · exact Or.inl (he ▸ List.mem_cons_self _ _)
      · rcases ih he with h1 | h1
        · exact Or.inl (List.mem_cons_of_mem _ h1)
        · exact Or.inr h1

theorem mem_set_kv_mem (i : kvs_idx) (k v : Bytes) (m : MemKvs) :
    ∀ e ∈ (mem_kvs_ops.set_bin i k v m).2.kv, e ∈ m.kv ∨ e = (i.index_priv, k, v) := by
  obtain ⟨kv, indices, plan, brk⟩ := m
  intro e he
  cases plan with
  | nil =>
    simp only [mem_kvs_ops, MemKvs.next_rc, MemKvs.upsert] at he
    exact kv_upsert_mem _ _ _ _ _ (by simpa using he)
  | cons c cs =>
    by_cases hc : c = 0
    · subst hc
      simp only [mem_kvs_ops, MemKvs.next_rc, MemKvs.upsert] at he
      exact kv_upsert_mem _ _ _ _ _ (by simpa using he)
    · simp [mem_kvs_ops, MemKvs.next_rc, hc] at he
      exact Or.inl he

theorem mem_del_kv_sub (i : kvs_idx) (k : Bytes) (m : MemKvs) :
    ∀ e ∈ (mem_kvs_ops.del_bin i k m).2.kv, e ∈ m.kv := by
  obtain ⟨kv, indices, plan, brk⟩ := m
  intro e he
  cases plan with
  | nil =>
    by_cases hl : (kv_lookup i.index_priv k kv).isSome
    · simp [mem_kvs_ops, MemKvs.next_rc, MemKvs.lookup, MemKvs.erase, hl] at he
      exact he.1
    · simp [mem_kvs_ops, MemKvs.next_rc, MemKvs.lookup, MemKvs.erase, hl] at he
      exact he
  | cons c cs =>
    by_cases hc : c = 0
    · subst hc
      by_cases hl : (kv_lookup i.index_priv k kv).isSome
      · simp [mem_kvs_ops, MemKvs.next_rc, MemKvs.lookup, MemKvs.erase, hl] at he
        exact he.1
      · simp [mem_kvs_ops, MemKvs.next_rc, MemKvs.lookup, MemKvs.erase, hl] at he
        exact he
    · simp [mem_kvs_ops, MemKvs.next_rc, hc] at he
      exact he

theorem mem_index_delete_kv_sub (f : kvs_fid_t) (m : MemKvs) :
    ∀ e ∈ (mem_kvs_ops.index_delete f m).2.kv, e ∈ m.kv := by
  obtain ⟨kv, indices, plan, brk⟩ := m
  intro e he
  cases plan with
  | nil =>
    by_cases hl : f ∈ indices
    · simp [mem_kvs_ops, MemKvs.next_rc, hl] at he
      exact he.1
    · simp [mem_kvs_ops, MemKvs.next_rc, hl] at he
      exact he
  | cons c cs =>
    by_cases hc : c = 0
    · subst hc
      by_cases hl : f ∈ indices
      · simp [mem_kvs_ops, MemKvs.next_rc, hl] at he
        exact he.1
      · simp [mem_kvs_ops, MemKvs.next_rc, hl] at he
        exact he
    · simp [mem_kvs_ops, MemKvs.next_rc, hc] at he
      exact he

theorem mem_kv_find_kv (it : kvs_itr MemCursor) (m : MemKvs) :
    (mem_kvs_ops.kv_find it m).2.kv = m.kv := by
  have key : ∀ m0 : MemKvs,
      (match m0.matching it.idx_priv it.pfx with
        | [] => ((-ENOENT, { it with inner_rc := -ENOENT, priv := some [] }), m0)
        | e :: es => ((0, { it with inner_rc := 0, priv := some (e :: es) }), m0)
        : (Int × kvs_itr MemCursor) × MemKvs).2 = m0 := by
    intro m0
    cases m0.matching it.idx_priv it.pfx <;> rfl
  obtain ⟨kv, indices, plan, brk⟩ := m
  cases plan with
  | nil =>
    simp only [mem_kvs_ops, MemKvs.next_rc]
    simp [key]
  | cons c cs =>
    by_cases hc : c = 0
    · subst hc
      simp only [mem_kvs_ops, MemKvs.next_rc]
      simp [key]
    · simp [mem_kvs_ops, MemKvs.next_rc, hc]

theorem mem_kv_next_kv (it : kvs_itr MemCursor) (m : MemKvs) :
    (mem_kvs_ops.kv_next it m).2.kv = m.kv := by
  obtain ⟨a, ip, pf, irc, priv⟩ := it
  obtain ⟨kv, indices, plan, brk⟩ := m
  cases plan with
  | nil =>
    rcases priv with _ | (_ | ⟨x, _ | ⟨e, es⟩⟩) <;> simp [mem_kvs_ops, MemKvs.next_rc]
  | cons c cs =>
    by_cases hc : c = 0
    · subst hc
      rcases priv with _ | (_ | ⟨x, _ | ⟨e, es⟩⟩) <;> simp [mem_kvs_ops, MemKvs.next_rc]
    · simp [mem_kvs_ops, MemKvs.next_rc, hc]

theorem mem_kv_get_kv (it : kvs_itr MemCursor) (m : MemKvs) :
    (mem_kvs_ops.kv_get it m).2.kv = m.kv := by
  obtain ⟨a, ip, pf, irc, priv⟩ := it
  rcases priv with _ | (_ | ⟨⟨k, v⟩, es⟩) <;> simp [mem_kvs_ops, MemKvs.fresh]

/-- The NS_INFO key of the id read back from the image of a record is the
NS_INFO key of the record's id. -/
theorem ns_info_key_view_image (n : struct_namespace) :
    ns_info_key (struct_namespace.view n.image).nsobj_id = ns_info_key n.nsobj_id := by
  have htake : n.image.take 8 = le_bytes 8 n.nsobj_id := by
    simp only [struct_namespace.image, List.append_assoc]
    rw [List.take_append_of_le_length (by rw [le_bytes_length])]
    rw [List.take_of_length_le (by rw [le_bytes_length])]
  have hid : (struct_namespace.view n.image).nsobj_id = n.nsobj_id % 256 ^ 8 := by
    simp only [struct_namespace.view, htake, le_val_le_bytes]
  have hle : le_bytes 4 (n.nsobj_id % 256 ^ 8) = le_bytes 4 n.nsobj_id := by
    rw [← le_bytes_mod 4 (n.nsobj_id % 256 ^ 8),
      Nat.mod_mod_of_dvd _ (pow_dvd_pow 256 (by decide : 4 ≤ 8)), le_bytes_mod]
  rw [hid]
  simp only [ns_info_key, NS_KEY_INIT, ns_key.bytes, hle]

/-- The counter key is not under the NS_INFO prefix. -/
theorem counter_key_not_info : info_pfx.isPrefixOf counter_key = false := by decide
/-- Each client call of the namespace layer on the in-memory backend keeps the
directory index consistent, whatever its result, and keeps the globals. -/
theorem ns_step_dir_consistent (c : ns_call) (w w1 : World MemKvs MemCursor)
    (hops : w.g_kvstore.kvstore_ops = some mem_kvs_ops)
    (hcons : dir_consistent w)
    (h : ns_step c w = .ok w1) :
    dir_consistent w1 ∧ w1.g_kvstore = w.g_kvstore ∧ w1.g_ns_index = w.g_ns_index ∧
      w1.ns_fid_str = w.ns_fid_str ∧ w1.ext = w.ext := by
  have hP : entries_consistent w.g_ns_index.index_priv w.backend := hcons
  have halloc : ∀ n s, entries_consistent w.g_ns_index.index_priv s →
      entries_consistent w.g_ns_index.index_priv (mem_kvs_ops.alloc n s).2 :=
    fun n s hs => entries_consistent_of_sub _ _ _ (fun e he => mem_alloc_store n s ▸ he) hs
  have hget : ∀ i k s, entries_consistent w.g_ns_index.index_priv s →
      entries_consistent w.g_ns_index.index_priv (mem_kvs_ops.get_bin i k s).2 :=
    fun i k s hs => entries_consistent_of_sub _ _ _ (fun e he => mem_get_kv i k s ▸ he) hs
  have hfree : ∀ a s, entries_consistent w.g_ns_index.index_priv s →
      entries_consistent w.g_ns_index.index_priv (mem_kvs_ops.free a s) :=
    fun _ _ hs => hs
  have hset : ∀ v s, entries_consistent w.g_ns_index.index_priv s →
      entries_consistent w.g_ns_index.index_priv
        (mem_kvs_ops.set_bin w.g_ns_index counter_key v s).2 := by
    intro v s hs e he h1 h2
    rcases mem_set_kv_mem _ _ _ _ e he with h3 | h3
    · exact hs e h3 h1 h2
    · subst h3
      rw [counter_key_not_info] at h2
      cases h2
  have hicreate : ∀ f s, entries_consistent w.g_ns_index.index_priv s →
      entries_consistent w.g_ns_index.index_priv (mem_kvs_ops.index_create f s).2 :=
    fun f s hs => entries_consistent_of_sub _ _ _ (fun e he => mem_index_create_kv f s ▸ he) hs
  have hrec : ∀ (n : struct_namespace) s, entries_consistent w.g_ns_index.index_priv s →
      entries_consistent w.g_ns_index.index_priv
        (mem_kvs_ops.set_bin w.g_ns_index (ns_info_key n.nsobj_id) n.image s).2 := by
    intro n s hs e he h1 h2
    rcases mem_set_kv_mem _ _ _ _ e he with h3 | h3
    · exact hs e h3 h1 h2
    · subst h3
      exact (ns_info_key_view_image n).symm
  have hdel : ∀ i k s, entries_consistent w.g_ns_index.index_priv s →
      entries_consistent w.g_ns_index.index_priv (mem_kvs_ops.del_bin i k s).2 :=
    fun i k s hs => entries_consistent_of_sub _ _ _ (mem_del_kv_sub i k s) hs
  have hidel : ∀ f s, entries_consistent w.g_ns_index.index_priv s →
      entries_consistent w.g_ns_index.index_priv (mem_kvs_ops.index_delete f s).2 :=
    fun f s hs => entries_consistent_of_sub _ _ _ (mem_index_delete_kv_sub f s) hs
  have hfind : ∀ it s, entries_consistent w.g_ns_index.index_priv s →
      entries_consistent w.g_ns_index.index_priv (mem_kvs_ops.kv_find it s).2 :=
    fun it s hs => entries_consistent_of_sub _ _ _ (fun e he => mem_kv_find_kv it s ▸ he) hs
  have hnext : ∀ it s, entries_consistent w.g_ns_index.index_priv s →
      entries_consistent w.g_ns_index.index_priv (mem_kvs_ops.kv_next it s).2 :=
    fun it s hs => entries_consistent_of_sub _ _ _ (fun e he => mem_kv_next_kv it s ▸ he) hs
  have hfini : ∀ (it : kvs_itr MemCursor) s, entries_consistent w.g_ns_index.index_priv s →
      entries_consistent w.g_ns_index.index_priv (mem_kvs_ops.kv_fini it s) :=
    fun _ _ hs => hs
  have hkget : ∀ it s, entries_consistent w.g_ns_index.index_priv s →
      entries_consistent w.g_ns_index.index_priv (mem_kvs_ops.kv_get it s).2 :=
    fun it s hs => entries_consistent_of_sub _ _ _ (fun e he => mem_kv_get_kv it s ▸ he) hs
  have fin : ∀ w2 : World MemKvs MemCursor,
      (entries_consistent w.g_ns_index.index_priv w2.backend ∧ w2.g_kvstore = w.g_kvstore ∧
        w2.g_ns_index = w.g_ns_index ∧ w2.ns_fid_str = w.ns_fid_str ∧ w2.ext = w.ext) →
      dir_consistent w2 ∧ w2.g_kvstore = w.g_kvstore ∧ w2.g_ns_index = w.g_ns_index ∧
        w2.ns_fid_str = w.ns_fid_str ∧ w2.ext = w.ext := by
    rintro w2 ⟨a, b, c, d, e⟩
    refine ⟨?_, b, c, d, e⟩
    show entries_consistent w2.g_ns_index.index_priv w2.backend
    rw [c]
    exact a
  cases c with
  | create name =>
    cases hr : ns_create name w with
    | error f => simp [ns_step, hr, Except.map] at h
    | ok r =>
      obtain ⟨r, w2⟩ := r
      simp only [ns_step, hr, Except.map, Except.ok.injEq] at h
      subst h
      exact fin _ (ns_create_preserves _ w _ mem_kvs_ops name r hops halloc hget hset hfree
        hicreate hrec hP hr)
  | delete ns =>
    cases hr : ns_delete (some ns) w with
    | error f => simp [ns_step, hr, Except.map] at h
    | ok r =>
      obtain ⟨r, w2⟩ := r
      simp only [ns_step, hr, Except.map, Except.ok.injEq] at h
      subst h
      exact fin _ (ns_delete_preserves _ w _ mem_kvs_ops ns r hops halloc hdel hidel hfree hP hr)
  | next_id =>
    cases hr : ns_next_id w with
    | error f => simp [ns_step, hr, Except.map] at h
    | ok r =>
      obtain ⟨r, w2⟩ := r
      simp only [ns_step, hr, Except.map, Except.ok.injEq] at h
      subst h
      exact fin _ (ns_next_id_preserves _ w _ mem_kvs_ops r hops halloc hget hset hfree hP hr)
  | scan fuel =>
    cases hr : ns_scan_full fuel w with
    | error f => simp [ns_step, hr, Except.map] at h
    | ok r =>
      obtain ⟨r, w2⟩ := r
      simp only [ns_step, hr, Except.map, Except.ok.injEq] at h
      subst h
      exact fin _ (ns_scan_all_preserves _ mem_kvs_ops _ halloc hfree hfind hnext hfini hkget
        fuel none w _ r hops hP hr)

/-- The directory index is consistent in every world the namespace layer
reaches, by any sequence of client calls on the in-memory backend, from a world
where it is consistent; the table stays bound and the directory handle stays. -/
theorem ns_run_dir_consistent (calls : List ns_call) :
    ∀ (w w1 : World MemKvs MemCursor),
      w.g_kvstore.kvstore_ops = some mem_kvs_ops → dir_consistent w →
      ns_run calls w = .ok w1 →
      dir_consistent w1 ∧ w1.g_kvstore = w.g_kvstore ∧ w1.g_ns_index = w.g_ns_index ∧
        w1.ns_fid_str = w.ns_fid_str ∧ w1.ext = w.ext := by
  induction calls with
  | nil =>
    intro w w1 _ hcons h
    simp only [ns_run, Except.ok.injEq] at h
    subst h
    exact ⟨hcons, rfl, rfl, rfl, rfl⟩
  | cons c cs ih =>
    intro w w1 hops hcons h
    cases hs : ns_step c w with
    | error f => simp [ns_run, hs, bind, Except.bind] at h
    | ok w2 =>
      simp only [ns_run, hs, bind, Except.bind] at h
      obtain ⟨c2, k2, i2, f2, e2⟩ := ns_step_dir_consistent c w w2 hops hcons hs
      obtain ⟨c3, k3, i3, f3, e3⟩ := ih w2 w1 (k2 ▸ hops) c2 h
      exact ⟨c3, k3.trans k2, i3.trans i2, f3.trans f2, e3.trans e2⟩

/-- The directory index of an empty directory is consistent: `ns_run` from it
reaches consistent worlds only. -/
theorem dir_consistent_empty (plan : List Int) :
    dir_consistent (world_mem (mem_dir [] plan)) := by
  intro e he
  simp [world_mem, mem_dir] at he
/-! ### A full enumeration on the in-memory backend -/

/-- A full enumeration on the in-memory backend, continued from a cursor within
`S`: every record the caller can read is the value of an entry of `S`. -/
theorem mem_scan_all_within (S : List (Bytes × Bytes)) (n0 fuel : Nat) :
    ∀ (it : ns_itr MemCursor) (w w1 : World MemKvs MemCursor)
      (recs : List (Option struct_namespace)) (itn : Option (ns_itr MemCursor)),
      w.g_kvstore.kvstore_ops = some mem_kvs_ops → cursor_within S it →
      ns_scan_all n0 fuel (some it) w = .ok ((recs, itn), w1) →
      ∀ r, some r ∈ recs → ∃ e ∈ S, struct_namespace.view e.2 = r := by
  induction fuel with
  | zero =>
    intro it w w1 recs itn _ _ h r hr
    simp [ns_scan_all] at h
    rw [h.1.1] at hr
    simp at hr
  | succ fuel ih =>
    intro it w w1 recs itn hops hin h r hr
    obtain ⟨⟨kit, cur, hkit, hcur, hsub⟩, hns⟩ := hin
    cases hs : ns_scan (some it) w with
    | error f => simp [ns_scan_all, hs, bind, Except.bind] at h
    | ok rs =>
      obtain ⟨⟨rc, iter1⟩, w2⟩ := rs
      cases iter1 with
      | none =>
        simp [ns_scan_all, hs, bind, Except.bind, pure, Except.pure] at h
        rw [h.1.1] at hr
        simp at hr
      | some it2 =>
        obtain ⟨hk2, kitn, t1, hnext, hkit2, hns2⟩ :=
          ns_scan_next_yields w w2 mem_kvs_ops it it2 kit rc hops hkit hs
        obtain ⟨x, e, es, hp, hpn⟩ := mem_kv_next_ok kit kitn _ t1 hnext
        have hcur2 : cur = x :: e :: es := by
          rw [hcur] at hp; exact Option.some.inj hp
        have hin2 : cursor_within S it2 := by
          refine ⟨⟨_, e :: es, hkit2, hpn, ?_⟩, ?_⟩
          · intro e' he'
            exact hsub e' (by rw [hcur2]; exact List.mem_cons_of_mem _ he')
          · intro b2 hb2
            rcases hns2 with hsame | hnew
            · exact hns b2 (hsame ▸ hb2)
            · rw [hnew] at hb2
              have hb3 := Option.some.inj hb2
              refine ⟨e, hsub e (by rw [hcur2]; simp), ?_⟩
              rw [← hb3]
              exact (mem_kv_get_val kitn t1 e es kit.addr hpn).symm
        cases hrest : ns_scan_all n0 fuel (some it2) w2 with
        | error f => simp [ns_scan_all, hs, hrest, bind, Except.bind] at h
        | ok r2 =>
          obtain ⟨⟨recs2, itn2⟩, w3⟩ := r2
          simp only [ns_scan_all, hs, hrest, bind, Except.bind, pure, Except.pure,
            Except.ok.injEq, Prod.mk.injEq] at h
          rw [← h.1.1] at hr
          rcases List.mem_append.mp hr with hr1 | hr1
          · cases hn : it2.ns with
            | none => simp [hn] at hr1
            | some b0 =>
              simp only [hn, Option.toList, List.map_cons, List.map_nil, List.mem_singleton,
                readable_record] at hr1
              obtain ⟨e0, he0, hb0⟩ := hin2.2 b0 hn
              refine ⟨e0, he0, ?_⟩
              split at hr1
              · cases hr1
              · rw [hb0]
                exact (Option.some.inj hr1).symm
          · exact ih it2 w2 w3 recs2 itn2 (hk2 ▸ hops) hin2 hrest r hr1

/-- A full enumeration on the in-memory backend, from a null handle: every
record the caller can read is the value of an entry the directory index holds
under the NS_INFO prefix. -/
theorem mem_scan_all_first (n0 fuel : Nat) (w w1 : World MemKvs MemCursor)
    (recs : List (Option struct_namespace)) (itn : Option (ns_itr MemCursor))
    (hops : w.g_kvstore.kvstore_ops = some mem_kvs_ops)
    (h : ns_scan_all n0 fuel none w = .ok ((recs, itn), w1)) :
    ∀ r, some r ∈ recs → ∃ e ∈ w.backend.kv,
      e.1 = w.g_ns_index.index_priv ∧ info_pfx.isPrefixOf e.2.1 = true ∧
        struct_namespace.view e.2.2 = r := by
  have hS : ∀ r : struct_namespace, (∃ e ∈ (w.backend.kv.filter
        (fun e => e.1 = w.g_ns_index.index_priv ∧ info_pfx.isPrefixOf e.2.1)).map (fun e => e.2),
        struct_namespace.view e.2 = r) →
      ∃ e ∈ w.backend.kv,
        e.1 = w.g_ns_index.index_priv ∧ info_pfx.isPrefixOf e.2.1 = true ∧
          struct_namespace.view e.2.2 = r := by
    rintro r ⟨e, he, hb⟩
    obtain ⟨e0, he0, rfl⟩ := List.mem_map.mp he
    have hf := List.mem_filter.mp he0
    have hq := hf.2
    simp only [decide_eq_true_eq] at hq
    exact ⟨e0, hf.1, hq.1, hq.2, hb⟩
  intro r hr
  apply hS
  cases fuel with
  | zero =>
    simp [ns_scan_all] at h
    rw [h.1.1] at hr
    simp at hr
  | succ fuel =>
    cases hs : ns_scan none w with
    | error f => simp [ns_scan_all, hs, bind, Except.bind] at h
    | ok rs =>
      obtain ⟨⟨rc, iter1⟩, w2⟩ := rs
      cases iter1 with
      | none =>
        simp [ns_scan_all, hs, bind, Except.bind, pure, Except.pure] at h
        rw [h.1.1] at hr
        simp at hr
      | some it2 =>
        obtain ⟨hk2, p3, kitf, s4, hfind, hkit2, hns2⟩ :=
          ns_scan_first_yields w w2 mem_kvs_ops it2 rc hops hs
        obtain ⟨e, es, hp, hcur⟩ := mem_kv_find_ok _ kitf _ s4 hfind
        simp only [mem_alloc_store] at hcur
        have hin2 : cursor_within ((w.backend.kv.filter
            (fun e => e.1 = w.g_ns_index.index_priv ∧ info_pfx.isPrefixOf e.2.1)).map
            (fun e => e.2)) it2 := by
          refine ⟨⟨_, e :: es, hkit2, hp, ?_⟩, ?_⟩
          · intro e' he'
            rw [← hcur]; exact he'
          · intro b2 hb2
            rw [hns2] at hb2
            have hb3 := Option.some.inj hb2
            refine ⟨e, by rw [← hcur]; simp, ?_⟩
            rw [← hb3]
            exact (mem_kv_get_val kitf s4 e es p3 hp).symm
        cases hrest : ns_scan_all n0 fuel (some it2) w2 with
        | error f => simp [ns_scan_all, hs, hrest, bind, Except.bind] at h
        | ok r2 =>
          obtain ⟨⟨recs2, itn2⟩, w3⟩ := r2
          simp only [ns_scan_all, hs, hrest, bind, Except.bind, pure, Except.pure,
            Except.ok.injEq, Prod.mk.injEq] at h
          rw [← h.1.1] at hr
          rcases List.mem_append.mp hr with hr1 | hr1
          · cases hn : it2.ns with
            | none => simp [hn] at hr1
            | some b0 =>
              simp only [hn, Option.toList, List.map_cons, List.map_nil, List.mem_singleton,
                readable_record] at hr1
              obtain ⟨e0, he0, hb0⟩ := hin2.2 b0 hn
              refine ⟨e0, he0, ?_⟩
              split at hr1
              · cases hr1
              · rw [hb0]
                exact (Option.some.inj hr1).symm
          · exact mem_scan_all_within _ n0 fuel it2 w2 w3 recs2 itn2 (hk2 ▸ hops) hin2 hrest r hr1

/-! ### The directory after `ns_delete` -/

/-- C4: on the in-memory backend, let `ns` be a record returned by a successful
`ns_create` (in a world `w0` whose directory index exists in the backend), and
let `w` be a later world with the same directory index, open and consistent
(as every world is that the namespace layer reaches from an empty directory,
`ns_run_dir_consistent`). When `ns_delete(ns)` returns 0 in `w`: the directory
index holds no entry under the NS_INFO key of `ns`'s id; every other key of the
directory index, so every other NS_INFO entry and the NS_ID_NEXT counter, has
the value it had before; the directory index is still consistent; no entry a
prefix iteration for NS_INFO visits holds a record with that id; and in every
full `ns_scan` enumeration run afterwards, no record the caller can read
through the handle (a block the scan has released holds none) has that id. -/
theorem ns_delete_removes_entry (w0 w0a w w1 : World MemKvs MemCursor) (name : str256_t)
    (ns : ns_ref)
    (hops0 : w0.g_kvstore.kvstore_ops = some mem_kvs_ops)
    (hdir0 : w0.g_ns_index.index_fid ∈ w0.backend.indices)
    (hcreate : ns_create name w0 = .ok ((0, some ns), w0a))
    (hsame : w.g_ns_index = w0.g_ns_index)
    (hops : w.g_kvstore.kvstore_ops = some mem_kvs_ops)
    (hdir : w.g_ns_index.index_priv = fid_handle w.g_ns_index.index_fid)
    (hcons : dir_consistent w)
    (hdel : ns_delete (some ns) w = .ok (0, w1)) :
    (∀ e ∈ w1.backend.kv,
      ¬ (e.1 = w1.g_ns_index.index_priv ∧ e.2.1 = ns_info_key ns.obj.nsobj_id)) ∧
    (∀ k, k ≠ ns_info_key ns.obj.nsobj_id →
      w1.backend.lookup w1.g_ns_index.index_priv k = w.backend.lookup w.g_ns_index.index_priv k) ∧
    stored_counter w1 = stored_counter w ∧
    dir_consistent w1 ∧
    (∀ e ∈ w1.backend.matching w1.g_ns_index.index_priv info_pfx,
      (struct_namespace.view e.2).nsobj_id ≠ ns.obj.nsobj_id) ∧
    (∀ fuel recs itn w2, ns_scan_full fuel w1 = .ok ((recs, itn), w2) →
      ∀ r, some r ∈ recs → r.nsobj_id ≠ ns.obj.nsobj_id) := by
  have hfid : ns.obj.nsobj_fid ≠ w.g_ns_index.index_fid := by
    rw [hsame]
    exact ns_create_fid_not_directory w0 w0a name ns hops0 hdir0 hcreate
  obtain ⟨p, s1, s2, s3, hA, _, hD, hI, hw1⟩ := ns_delete_ok_path w w1 mem_kvs_ops ns hops hdel
  have hkey : (NS_KEY_INIT (ns.obj.nsobj_id % 2 ^ 32) NS_KEY_TYPE_NS_INFO).bytes
      = ns_info_key ns.obj.nsobj_id := by
    simp only [ns_info_key, NS_KEY_INIT, ns_key.bytes]
    have := le_bytes_mod 4 ns.obj.nsobj_id
    norm_num at this ⊢
    exact this
  rw [hkey] at hD
  have hs1 : s1.kv = w.backend.kv := by
    have := mem_alloc_store sizeof_ns_key w.backend
    rw [hA] at this
    exact this
  have hs2 := mem_del_ok _ _ _ _ hD
  have hs3 := mem_index_delete_ok _ _ _ hI
  have hidx : w1.g_ns_index = w.g_ns_index := by rw [hw1]
  have hk1 : w1.g_kvstore = w.g_kvstore := by rw [hw1]
  have hkv : w1.backend.kv
      = ((w.backend.kv.filter
          (fun e => ¬ (e.1 = w.g_ns_index.index_priv ∧ e.2.1 = ns_info_key ns.obj.nsobj_id))).filter
          (fun x => ¬ (x.1 = fid_handle ns.obj.nsobj_fid))) := by
    rw [hw1]
    simp only [mem_kvs_ops]
    rw [hs3, hs2, hs1]
  have hhandle : w.g_ns_index.index_priv ≠ fid_handle ns.obj.nsobj_fid := by
    rw [hdir]
    intro h
    exact hfid (fid_handle_inj _ _ h).symm
  have ha : ∀ e ∈ w1.backend.kv,
      ¬ (e.1 = w1.g_ns_index.index_priv ∧ e.2.1 = ns_info_key ns.obj.nsobj_id) := by
    intro e he
    rw [hkv] at he
    have h1 := (List.mem_filter.mp (List.mem_filter.mp he).1).2
    rw [hidx]
    simpa [imp_iff_not_or] using h1
  have hsub : ∀ e ∈ w1.backend.kv, e ∈ w.backend.kv := by
    intro e he
    rw [hkv] at he
    exact (List.mem_filter.mp (List.mem_filter.mp he).1).1
  have hb : ∀ k, k ≠ ns_info_key ns.obj.nsobj_id →
      w1.backend.lookup w1.g_ns_index.index_priv k
        = w.backend.lookup w.g_ns_index.index_priv k := by
    intro k hk
    simp only [MemKvs.lookup, hkv, hidx]
    rw [kv_lookup_filter, kv_lookup_filter]
    · intro e _ he
      have : ¬ (e.1 = w.g_ns_index.index_priv ∧ e.2.1 = ns_info_key ns.obj.nsobj_id) := by
        rintro ⟨_, h2⟩
        exact hk (he.2 ▸ h2)
      simpa [imp_iff_not_or] using this
    · intro e _ he
      have : ¬ (e.1 = fid_handle ns.obj.nsobj_fid) := by
        intro h2
        exact hhandle (he.1 ▸ h2)
      simpa using this
  have hcons1 : dir_consistent w1 := by
    intro e he h1 h2
    exact hcons e (hsub e he) (hidx ▸ h1) h2
  have hstore : ∀ e ∈ w1.backend.kv, e.1 = w1.g_ns_index.index_priv →
      info_pfx.isPrefixOf e.2.1 = true →
      (struct_namespace.view e.2.2).nsobj_id ≠ ns.obj.nsobj_id := by
    intro e he h1 h2 hid
    have hc := hcons1 e he h1 h2
    rw [hid] at hc
    exact ha e he ⟨h1, hc⟩
  refine ⟨ha, hb, ?_, hcons1, ?_, ?_⟩
  · simp only [stored_counter]
    apply hb
    simp [counter_key, ns_info_key, NS_KEY_INIT, NS_KEY_PREFIX_INIT, ns_key.bytes,
      key_prefix.bytes, NS_KEY_TYPE_NS_ID_NEXT, NS_KEY_TYPE_NS_INFO]
  · intro e he
    simp only [MemKvs.matching] at he
    obtain ⟨e0, he0, rfl⟩ := List.mem_map.mp he
    have hf := List.mem_filter.mp he0
    have hq := hf.2
    simp only [decide_eq_true_eq] at hq
    exact hstore e0 hf.1 hq.1 hq.2
  · intro fuel recs itn w2 hscan r hr hid
    obtain ⟨e, he, he1, he2, he3⟩ :=
      mem_scan_all_first _ fuel w1 w2 recs itn (hk1 ▸ hops) hscan r hr
    exact hstore e he he1 he2 (he3 ▸ hid)

set_option maxRecDepth 1000000 in
/-- C4, an instance: the namespaces "abc", "d" and "e" are created in an empty
directory (ids 3, 4, 5), then "abc" is deleted. Afterwards the NS_INFO key of
id 3 is absent, the entry of id 4 still holds its record, the counter still holds 5, a
full enumeration lets the caller read the record of id 4 after its first call
and no record after its second (the block is released), and no entry under
the NS_INFO prefix holds a record with id 3. -/
theorem ns_delete_removes_entry_witness :
    ∃ w1,
      ns_run three_creates (world_mem (mem_dir [] [])) = .ok (world_after three_creates) ∧
      ns_delete (some ⟨4, record_of 3 [97, 98, 99]⟩) (world_after three_creates) = .ok (0, w1) ∧
      w1.backend.lookup w1.g_ns_index.index_priv (ns_info_key 3) = none ∧
      (w1.backend.lookup w1.g_ns_index.index_priv (ns_info_key 4)).map struct_namespace.view
        = some (record_of 4 [100]) ∧
      stored_counter w1 = some [5, 0, 0, 0] ∧
      (ns_scan_full 5 w1).map (fun r => r.1.1) = .ok [some (record_of 4 [100]), none] ∧
      ∀ e ∈ w1.backend.matching w1.g_ns_index.index_priv info_pfx,
        (struct_namespace.view e.2).nsobj_id ≠ 3 := by
  have hrun : ns_run three_creates (world_mem (mem_dir [] []))
      = .ok (world_after three_creates) := rfl
  refine ⟨_, hrun, rfl, rfl, rfl, rfl, rfl, ?_⟩
  exact (ns_delete_removes_entry (world_mem (mem_dir [] [])) _ (world_after three_creates) _
    (name_of [97, 98, 99]) ⟨4, record_of 3 [97, 98, 99]⟩ rfl (by decide) rfl rfl rfl rfl
    (ns_run_dir_consistent three_creates (world_mem (mem_dir [] [])) _ rfl
      (dir_consistent_empty []) hrun).1
    rfl).2.2.2.2.1

end Theorems

end Nsal
